import Mathlib

/-!
RSFS: a shallow embedding of `api.c`.

The file system of `api.c` keeps its state in global tables: the pool of data
blocks, two bitmaps, the inode table, the open-file table and the root
directory (a linked list of heap nodes).  The embedding below makes that state
an explicit record `FS` and turns every C function into a function from a state
to a result and a new state.

* C `int`s are integers of `ℤ`; every value met in a well-formed state is
  between `-1` and the capacity of a file, so no arithmetic wraps around.
  Division and remainder are the truncating ones of C.
* A byte is a natural number; a block and a caller's buffer are lists of bytes.
* An array is a list that has the length of the array.
* A pointer to a `dir_entry` is the address of the heap node (`none` is `NULL`);
  addresses are never reused, so a pointer to a freed node dangles.
* A `pthread_mutex_t` is a flag: `true` when held.  Locking a held mutex parks
  the caller for ever in a sequential run (`Fault.blocked`); unlocking clears
  the flag.
* Behaviour the C standard leaves undefined (an index outside its array, a
  `NULL` or dangling pointer, a missing `return`) is a `Fault`.  A local that is
  read before it is written holds an arbitrary value, which is an argument of
  the function.
* The constants of `def.h` are the fields of `Config`.
* The helpers of the directory, of the two allocators and of the open-file
  table are not in `api.c`; each is modelled from the words of the
  specification, quoted in its comment.
-/

namespace RSFS

/-- The compile-time constants of `def.h`. -/
structure Config where
  NUM_DBLOCKS : Nat
  BLOCK_SIZE : Nat
  NUM_INODES : Nat
  NUM_POINTER : Nat
  NUM_OPEN_FILE : Nat
  RSFS_RDONLY : Int
  RSFS_RDWR : Int
  deriving DecidableEq, Repr

/-- The ways in which a call fails to return a value. -/
inductive Fault where
  | null_deref
  | dangling
  | out_of_bounds
  | div_by_zero
  | blocked
  | double_free
  | no_return_value
  | out_of_fuel
  deriving DecidableEq, Repr

/-- The outcome of a call: a value, or a fault. -/
inductive Res (α : Type) where
  | ok (a : α)
  | fault (f : Fault)
  deriving DecidableEq, Repr

/-- The element of an array at an `int` index, when the index is inside. -/
def at? {α : Type} (l : List α) (i : Int) : Option α :=
  if i < 0 then none else l[i.toNat]?

/-- Read `l[i]`; an index outside the array is undefined behaviour. -/
def idx {α : Type} (l : List α) (i : Int) : Res α :=
  match at? l i with
  | some a => .ok a
  | none => .fault .out_of_bounds

/-- Write `l[i] = a`; an index outside the array is undefined behaviour. -/
def upd {α : Type} (l : List α) (i : Int) (a : α) : Res (List α) :=
  if 0 ≤ i ∧ i < l.length then .ok (l.set i.toNat a) else .fault .out_of_bounds

/-- The record `struct inode`. -/
structure inode where
  block : List Int
  length : Int
  num_current_reader : Int
  rw_mutex : Bool
  read_mutex : Bool
  deriving DecidableEq, Repr

/-- The record `struct dir_entry`: a heap node at address `addr`. -/
structure dir_entry where
  addr : Nat
  name : String
  inode_number : Int
  deriving DecidableEq, Repr

/-- The record `struct open_file_entry` (its `entry_mutex` is never locked by
`api.c` and is left out). -/
structure open_file_entry where
  used : Int
  dir_entry : Option Nat
  position : Int
  access_flag : Int
  deriving DecidableEq, Repr

/-- The global state of the file system. -/
structure FS where
  data_blocks : List (List Nat)
  data_bitmap : List Int
  data_bitmap_mutex : Bool
  inode_bitmap : List Int
  inode_bitmap_mutex : Bool
  inodes : List inode
  inodes_mutex : Bool
  open_file_table : List open_file_entry
  open_file_table_mutex : Bool
  root_dir : List dir_entry
  next_addr : Nat
  mutex_for_fs_stat : Bool
  deriving DecidableEq, Repr

/-- The call `pthread_mutex_lock(&open_file_table_mutex)`. -/
def lock_open_file_table (s : FS) : Res FS :=
  if s.open_file_table_mutex then .fault .blocked
  else .ok { s with open_file_table_mutex := true }

/-- The call `pthread_mutex_unlock(&open_file_table_mutex)`. -/
def unlock_open_file_table (s : FS) : FS :=
  { s with open_file_table_mutex := false }

/-- The entry a `dir_entry` pointer points to. -/
def deref (s : FS) (p : Option Nat) : Res dir_entry :=
  match p with
  | none => .fault .null_deref
  | some a =>
    match s.root_dir.find? (fun e => decide (e.addr = a)) with
    | some e => .ok e
    | none => .fault .dangling

/-- Modelled from the spec: `search_dir` of the directory module, which is not
among the sources.  "linear scan; first match; none if absent": the node
found, whose address is the pointer the C function returns.  The
directory-wide lock of the spec is taken and released inside the helper; no
function of `api.c` touches it, so it is free on entry and is not part of the
state. -/
def search_dir (s : FS) (file_name : String) : Option dir_entry :=
  s.root_dir.find? (fun e => decide (e.name = file_name))

/-- Modelled from the spec: `insert_dir` of the directory module, which is not
among the sources.  "appends a new entry"; the node is fresh heap memory, and
its inode number is `-1` until `RSFS_create` links an inode. -/
def insert_dir (s : FS) (file_name : String) : Nat × FS :=
  (s.next_addr,
    { s with
      root_dir := s.root_dir ++
        [{ addr := s.next_addr, name := file_name, inode_number := -1 }]
      next_addr := s.next_addr + 1 })

/-- The assignment `dir_entry->inode_number = n` through a pointer. -/
def store_inode_number (s : FS) (p : Nat) (n : Int) : FS :=
  { s with
    root_dir := s.root_dir.map
      (fun e => if e.addr = p then { e with inode_number := n } else e) }

/-- Modelled from the spec: `delete_dir` of the directory module, which is not
among the sources.  "removes the first match, preserving order of the rest;
returns whether a match existed", as `0` for a removed entry and `-1` for none
(the convention of `RSFS_close` and `RSFS_delete`). -/
def delete_dir (s : FS) (file_name : String) : Int × FS :=
  match s.root_dir.find? (fun e => decide (e.name = file_name)) with
  | some _ =>
    (0, { s with root_dir := s.root_dir.eraseP (fun e => decide (e.name = file_name)) })
  | none => (-1, s)

/-- The lowest index whose flag is `0` (free). -/
def first_free : List Int → Option Nat
  | [] => none
  | b :: bs => if b = 0 then some 0 else (first_free bs).map (fun k => k + 1)

/-- Modelled from the spec: `allocate_inode` of the allocator, which is not
among the sources.  "scans the bitmap for the first free slot (lowest index),
marks it allocated, returns its id", `-1` when none is free; the bitmap is
mutated under its lock. -/
def allocate_inode (s : FS) : Res (Int × FS) :=
  if s.inode_bitmap_mutex then .fault .blocked
  else
    match first_free s.inode_bitmap with
    | some k => .ok ((k : Int), { s with inode_bitmap := s.inode_bitmap.set k 1 })
    | none => .ok (-1, s)

/-- Modelled from the spec: `free_inode` of the allocator, which is not among
the sources.  "clears the bitmap flag; freeing an already-free slot is a
programming error (signal DoubleFree)". -/
def free_inode (s : FS) (inode_number : Int) : Res FS :=
  if s.inode_bitmap_mutex then .fault .blocked
  else
    match at? s.inode_bitmap inode_number with
    | none => .fault .out_of_bounds
    | some b =>
      if b = 0 then .fault .double_free
      else .ok { s with inode_bitmap := s.inode_bitmap.set inode_number.toNat 0 }

/-- Modelled from the spec: `allocate_data_block` of the allocator, which is
not among the sources.  Same scan as `allocate_inode`, over the block bitmap. -/
def allocate_data_block (s : FS) : Res (Int × FS) :=
  if s.data_bitmap_mutex then .fault .blocked
  else
    match first_free s.data_bitmap with
    | some k => .ok ((k : Int), { s with data_bitmap := s.data_bitmap.set k 1 })
    | none => .ok (-1, s)

/-- The lowest index of an open-file entry that is not in use. -/
def first_unused : List open_file_entry → Option Nat
  | [] => none
  | e :: es => if e.used = 0 then some 0 else (first_unused es).map (fun k => k + 1)

/-- Modelled from the spec: `allocate_open_file_entry` of the open-file table,
which is not among the sources.  "finds the first unused slot, marks it used,
sets position 0, records mode and entry", `-1` when the table is full; the
table is mutated under `open_file_table_mutex`. -/
def allocate_open_file_entry (s : FS) (access_flag : Int) (dir_entry : Option Nat) :
    Res (Int × FS) :=
  match lock_open_file_table s with
  | .fault f => .fault f
  | .ok s1 =>
    match first_unused s1.open_file_table with
    | some k =>
      .ok ((k : Int), unlock_open_file_table
        { s1 with
          open_file_table := s1.open_file_table.set k
            { used := 1, dir_entry := dir_entry, position := 0, access_flag := access_flag } })
    | none => .ok (-1, unlock_open_file_table s1)

/-- Modelled from the spec: `free_open_file_entry` of the open-file table,
which is not among the sources.  "marks the slot unused, clears its fields"
(to the values `RSFS_init` names for an unused entry), under
`open_file_table_mutex`. -/
def free_open_file_entry (s : FS) (fd : Int) : Res FS :=
  match lock_open_file_table s with
  | .fault f => .fault f
  | .ok s1 =>
    match upd s1.open_file_table fd
        { used := 0, dir_entry := none, position := 0, access_flag := -1 } with
    | .fault f => .fault f
    | .ok table => .ok (unlock_open_file_table { s1 with open_file_table := table })

/-- The state `RSFS_init` builds at program start and its return value.
`mem i j` is the (indeterminate) byte `j` of the block `malloc` returns for
slot `i`; `malloc` is taken to succeed.  The loop over the open-file table
writes to a local copy of each entry, so the table keeps the zeroes of static
storage. -/
def RSFS_init (c : Config) (mem : Nat → Nat → Nat) : Int × FS :=
  (0,
    { data_blocks := (List.range c.NUM_DBLOCKS).map
        (fun i => (List.range c.BLOCK_SIZE).map (fun j => mem i j))
      data_bitmap := List.replicate c.NUM_DBLOCKS 0
      data_bitmap_mutex := false
      inode_bitmap := List.replicate c.NUM_INODES 0
      inode_bitmap_mutex := false
      inodes := List.replicate c.NUM_INODES
        { block := List.replicate c.NUM_POINTER (-1)
          length := 0
          num_current_reader := 0
          rw_mutex := false
          read_mutex := false }
      inodes_mutex := false
      open_file_table := List.replicate c.NUM_OPEN_FILE
        { used := 0, dir_entry := none, position := 0, access_flag := 0 }
      open_file_table_mutex := false
      root_dir := []
      next_addr := 0
      mutex_for_fs_stat := false })

/-- The function `RSFS_create`. -/
def RSFS_create (s : FS) (file_name : String) : Res (Int × FS) :=
  match search_dir s file_name with
  | some _ => .ok (-1, s)
  | none =>
    match insert_dir s file_name with
    | (dir_entry, s1) =>
      match allocate_inode s1 with
      | .fault f => .fault f
      | .ok (inode_number, s2) =>
        if inode_number < 0 then .ok (-2, s2)
        else .ok (0, store_inode_number s2 dir_entry inode_number)

/-- The scan of `RSFS_open` over the open-file table: `currentFile` is the last
entry whose `dir_entry` pointer equals `dir_entry`, and keeps its initial
content when there is none. -/
def scan_current_file (dir_entry : Option Nat) :
    List open_file_entry → open_file_entry → open_file_entry
  | [], currentFile => currentFile
  | e :: es, currentFile =>
    scan_current_file dir_entry es (if e.dir_entry = dir_entry then e else currentFile)

/-- The function `RSFS_open`.  The local `currentFile` is not initialised:
`currentFile0` is the content the stack happens to hold. -/
def RSFS_open (c : Config) (s : FS) (file_name : String) (access_flag : Int)
    (currentFile0 : open_file_entry) : Res (Int × FS) :=
  if access_flag = c.RSFS_RDONLY ∨ access_flag = c.RSFS_RDWR then
    match lock_open_file_table s with
    | .fault f => .fault f
    | .ok s1 =>
      match search_dir s1 file_name with
      | none => .fault .null_deref
      | some d =>
        let dir_entry := some d.addr
        let inode_number := d.inode_number
        let currentFile := scan_current_file dir_entry s1.open_file_table currentFile0
        let s2 := unlock_open_file_table s1
        if access_flag = c.RSFS_RDONLY then
          if currentFile.access_flag = c.RSFS_RDWR then
            match idx s2.inodes inode_number with
            | .fault f => .fault f
            | .ok inode_entry =>
              if inode_entry.read_mutex then .fault .blocked
              else
                let n := inode_entry.num_current_reader + 1
                if n = 1 ∧ inode_entry.rw_mutex = true then .fault .blocked
                else
                  match upd s2.inodes inode_number
                      { inode_entry with
                        num_current_reader := n
                        rw_mutex := if n = 1 then true else inode_entry.rw_mutex
                        read_mutex := false } with
                  | .fault f => .fault f
                  | .ok inodes =>
                    allocate_open_file_entry { s2 with inodes := inodes } access_flag dir_entry
          else allocate_open_file_entry s2 access_flag dir_entry
        else
          if currentFile.access_flag = c.RSFS_RDWR ∨
              currentFile.access_flag = c.RSFS_RDONLY then
            match idx s2.inodes inode_number with
            | .fault f => .fault f
            | .ok inode_entry =>
              if inode_entry.rw_mutex then .fault .blocked
              else
                match upd s2.inodes inode_number { inode_entry with rw_mutex := true } with
                | .fault f => .fault f
                | .ok inodes =>
                  allocate_open_file_entry { s2 with inodes := inodes } access_flag dir_entry
          else allocate_open_file_entry s2 access_flag dir_entry
  else .ok (-1, s)

/-- The call `memcpy(data_blocks[b] + offset, buf, n)`. -/
def memcpy_to_block (s : FS) (b : Int) (offset : Int) (buf : List Nat) (n : Int) : Res FS :=
  match idx s.data_blocks b with
  | .fault f => .fault f
  | .ok blk =>
    if 0 ≤ offset ∧ 0 ≤ n ∧ offset + n ≤ blk.length ∧ n ≤ buf.length then
      .ok { s with
            data_blocks := s.data_blocks.set b.toNat
              (blk.take offset.toNat ++ buf.take n.toNat ++ blk.drop (offset + n).toNat) }
    else .fault .out_of_bounds

/-- How the `while` loop of `RSFS_append` is left: by falling out of it, or by
a `return` inside it. -/
inductive LoopExit where
  | done (currentPosition : Int) (s : FS)
  | returned (v : Int) (s : FS)
  deriving DecidableEq, Repr

/-- The `while (size > 0)` loop of `RSFS_append`, on the inode `inode_number`.
Every round writes at least one byte, so `size` rounds of fuel are enough. -/
def append_loop (c : Config) (inode_number : Int) :
    Nat → FS → Int → List Nat → Int → Res LoopExit
  | 0, s, currentPosition, _, size =>
    if size > 0 then .fault .out_of_fuel else .ok (.done currentPosition s)
  | fuel + 1, s, currentPosition, buf, size =>
    if size > 0 then
      if c.BLOCK_SIZE = 0 then .fault .div_by_zero
      else
        let blockIndex := Int.tdiv currentPosition c.BLOCK_SIZE
        let offset := Int.tmod currentPosition c.BLOCK_SIZE
        match idx s.inodes inode_number with
        | .fault f => .fault f
        | .ok ino =>
          match idx ino.block blockIndex with
          | .fault f => .fault f
          | .ok b =>
            let linked : Res (FS × Option Int) :=
              if b = -1 then
                match allocate_data_block s with
                | .fault f => .fault f
                | .ok (block_number, s1) =>
                  if block_number = -1 then .ok (s1, none)
                  else
                    match upd ino.block blockIndex block_number with
                    | .fault f => .fault f
                    | .ok blocks =>
                      match upd s1.inodes inode_number { ino with block := blocks } with
                      | .fault f => .fault f
                      | .ok inodes => .ok ({ s1 with inodes := inodes }, some block_number)
              else .ok (s, some b)
            match linked with
            | .fault f => .fault f
            | .ok (s2, none) => .ok (.returned (-1) s2)
            | .ok (s2, some b2) =>
              let bytesToWrite :=
                if size < c.BLOCK_SIZE - offset then size else c.BLOCK_SIZE - offset
              match memcpy_to_block s2 b2 offset buf bytesToWrite with
              | .fault f => .fault f
              | .ok s3 =>
                append_loop c inode_number fuel s3 (currentPosition + bytesToWrite)
                  (buf.drop bytesToWrite.toNat) (size - bytesToWrite)
    else .ok (.done currentPosition s)

/-- The function `RSFS_append`.  The test `fileEntry->access_flag = RSFS_RDWR`
is an assignment: it stores `RSFS_RDWR` in the entry and is true when that
constant is not `0`. -/
def RSFS_append (c : Config) (s : FS) (fd : Int) (buf : List Nat) (size : Int) :
    Res (Int × FS) :=
  if fd ≥ 0 ∧ fd ≤ c.NUM_OPEN_FILE ∧ size > 0 then
    match lock_open_file_table s with
    | .fault f => .fault f
    | .ok s1 =>
      match idx s1.open_file_table fd with
      | .fault f => .fault f
      | .ok fileEntry0 =>
        let fileEntry := { fileEntry0 with access_flag := c.RSFS_RDWR }
        let s2 := { s1 with open_file_table := s1.open_file_table.set fd.toNat fileEntry }
        if c.RSFS_RDWR ≠ 0 then
          let temp := size
          let currentPosition := fileEntry.position
          match deref s2 fileEntry.dir_entry with
          | .fault f => .fault f
          | .ok d =>
            match append_loop c d.inode_number size.toNat s2 currentPosition buf size with
            | .fault f => .fault f
            | .ok (.returned v s3) => .ok (v, s3)
            | .ok (.done currentPosition s3) =>
              match idx s3.inodes d.inode_number with
              | .fault f => .fault f
              | .ok ino =>
                .ok (temp, unlock_open_file_table
                  { s3 with
                    inodes := s3.inodes.set d.inode_number.toNat
                      { ino with length := currentPosition }
                    open_file_table := s3.open_file_table.set fd.toNat
                      { fileEntry with position := currentPosition } })
        else .ok (-1, s2)
  else .fault .no_return_value

/-- The function `RSFS_fseek`. -/
def RSFS_fseek (c : Config) (s : FS) (fd : Int) (offset : Int) : Res (Int × FS) :=
  if fd < 0 ∨ fd ≥ c.NUM_OPEN_FILE then .ok (-1, s)
  else
    match lock_open_file_table s with
    | .fault f => .fault f
    | .ok s1 =>
      match idx s1.open_file_table fd with
      | .fault f => .fault f
      | .ok file =>
        match deref s1 file.dir_entry with
        | .fault f => .fault f
        | .ok d =>
          match idx s1.inodes d.inode_number with
          | .fault f => .fault f
          | .ok ino =>
            let fileLength := ino.length
            if offset < 0 ∨ offset > fileLength then .ok (file.position, s1)
            else
              .ok (offset, unlock_open_file_table
                { s1 with
                  open_file_table := s1.open_file_table.set fd.toNat
                    { file with position := offset } })

/-- The `for` loop of `RSFS_read`: `n` rounds are left, `i` bytes are in `buf`.
It returns the final `currentPosition` and the buffer. -/
def read_loop (c : Config) (s : FS) (ino : inode) :
    Nat → Nat → Int → List Nat → Res (Int × List Nat)
  | 0, _, currentPosition, buf => .ok (currentPosition, buf)
  | n + 1, i, currentPosition, buf =>
    if c.BLOCK_SIZE = 0 then .fault .div_by_zero
    else
      let blockIndex := Int.tdiv currentPosition c.BLOCK_SIZE
      let offset := Int.tmod currentPosition c.BLOCK_SIZE
      match idx ino.block blockIndex with
      | .fault f => .fault f
      | .ok blockNumber =>
        if blockNumber = -1 ∨ blockIndex ≥ c.NUM_POINTER then .ok (currentPosition, buf)
        else
          match idx s.data_blocks blockNumber with
          | .fault f => .fault f
          | .ok blk =>
            match idx blk offset with
            | .fault f => .fault f
            | .ok byte =>
              if i < buf.length then
                read_loop c s ino n (i + 1) (currentPosition + 1) (buf.set i byte)
              else .fault .out_of_bounds

/-- The function `RSFS_read`; `buf` is the caller's buffer, returned with the
bytes read written at its start. -/
def RSFS_read (c : Config) (s : FS) (fd : Int) (buf : List Nat) (size : Int) :
    Res (Int × List Nat × FS) :=
  if fd ≥ 0 ∧ fd ≤ c.NUM_OPEN_FILE ∧ size > 0 then
    match lock_open_file_table s with
    | .fault f => .fault f
    | .ok s1 =>
      match idx s1.open_file_table fd with
      | .fault f => .fault f
      | .ok fileEntry =>
        let initialPosition := fileEntry.position
        match deref s1 fileEntry.dir_entry with
        | .fault f => .fault f
        | .ok d =>
          match idx s1.inodes d.inode_number with
          | .fault f => .fault f
          | .ok ino =>
            let bytesRemaining := ino.length - fileEntry.position
            if bytesRemaining ≤ 0 then .ok (0, buf, s1)
            else
              let size1 := if size > bytesRemaining then bytesRemaining else size
              match read_loop c s1 ino size1.toNat 0 fileEntry.position buf with
              | .fault f => .fault f
              | .ok (currentPosition, buf1) =>
                .ok (currentPosition - initialPosition, buf1, unlock_open_file_table
                  { s1 with
                    open_file_table := s1.open_file_table.set fd.toNat
                      { fileEntry with position := currentPosition } })
  else .ok (-1, buf, s)

/-- The function `RSFS_close`. -/
def RSFS_close (c : Config) (s : FS) (fd : Int) : Res (Int × FS) :=
  if fd ≥ 0 ∧ fd ≤ c.NUM_OPEN_FILE then
    match idx s.open_file_table fd with
    | .fault f => .fault f
    | .ok fileEntry =>
      match deref s fileEntry.dir_entry with
      | .fault f => .fault f
      | .ok dir =>
        match idx s.inodes dir.inode_number with
        | .fault f => .fault f
        | .ok ino =>
          let released : Res inode :=
            if fileEntry.access_flag = c.RSFS_RDONLY then
              if ino.read_mutex then .fault .blocked
              else
                let n := ino.num_current_reader - 1
                .ok { ino with
                      num_current_reader := n
                      rw_mutex := if n = 0 then false else ino.rw_mutex
                      read_mutex := false }
            else .ok { ino with rw_mutex := false }
          match released with
          | .fault f => .fault f
          | .ok ino1 =>
            match free_open_file_entry
                { s with inodes := s.inodes.set dir.inode_number.toNat ino1 } fd with
            | .fault f => .fault f
            | .ok s1 => .ok (0, s1)
  else .ok (-1, s)

/-- The function `RSFS_delete`. -/
def RSFS_delete (s : FS) (file_name : String) : Res (Int × FS) :=
  match search_dir s file_name with
  | none => .ok (-1, s)
  | some dir_entry =>
    let inode_number := dir_entry.inode_number
    match free_inode s inode_number with
    | .fault f => .fault f
    | .ok s1 => .ok (delete_dir s1 file_name)

/-- What `RSFS_stat` prints: a row (name, length, inode number) for every file,
then the numbers of used data blocks, used inodes and opened files. -/
structure stat_report where
  rows : List (String × Int × Int)
  db_used : Int
  inodes_used : Int
  of_num : Int
  deriving DecidableEq, Repr

/-- The `while` loop of `RSFS_stat` over the directory: the row of every entry.
The inode of an entry is read at `inodes[inode_number]`. -/
def stat_rows (s : FS) : List dir_entry → Res (List (String × Int × Int))
  | [] => .ok []
  | e :: es =>
    match idx s.inodes e.inode_number with
    | .fault f => .fault f
    | .ok ino =>
      match stat_rows s es with
      | .fault f => .fault f
      | .ok rows => .ok ((e.name, ino.length, e.inode_number) :: rows)

/-- The function `RSFS_stat`, with what it prints as its value. -/
def RSFS_stat (s : FS) : Res (stat_report × FS) :=
  if s.mutex_for_fs_stat then .fault .blocked
  else
    match stat_rows s s.root_dir with
    | .fault f => .fault f
    | .ok rows =>
      .ok ({ rows := rows
             db_used := s.data_bitmap.sum
             inodes_used := s.inode_bitmap.sum
             of_num := (s.open_file_table.map (fun e => e.used)).sum },
           { s with mutex_for_fs_stat := false })

/-- The function `RSFS_write`, a placeholder that returns `0`. -/
def RSFS_write (s : FS) (_fd : Int) (_buf : List Nat) (_size : Int) : Res (Int × FS) :=
  .ok (0, s)

/-- The function `RSFS_cut`, a placeholder that returns `0`. -/
def RSFS_cut (s : FS) (_fd : Int) (_size : Int) : Res (Int × FS) :=
  .ok (0, s)

/-- One call of a public operation that returns: `Step c s t` when some call made
in the state `s` returns and leaves the state `t`. -/
inductive Step (c : Config) : FS → FS → Prop where
  | create_call (s t : FS) (file_name : String) (r : Int)
      (h : RSFS_create s file_name = .ok (r, t)) : Step c s t
  | open_call (s t : FS) (file_name : String) (access_flag : Int)
      (currentFile0 : open_file_entry) (r : Int)
      (h : RSFS_open c s file_name access_flag currentFile0 = .ok (r, t)) : Step c s t
  | append_call (s t : FS) (fd : Int) (buf : List Nat) (size : Int) (r : Int)
      (h : RSFS_append c s fd buf size = .ok (r, t)) : Step c s t
  | fseek_call (s t : FS) (fd : Int) (offset : Int) (r : Int)
      (h : RSFS_fseek c s fd offset = .ok (r, t)) : Step c s t
  | read_call (s t : FS) (fd : Int) (buf : List Nat) (size : Int) (r : Int) (out : List Nat)
      (h : RSFS_read c s fd buf size = .ok (r, out, t)) : Step c s t
  | close_call (s t : FS) (fd : Int) (r : Int)
      (h : RSFS_close c s fd = .ok (r, t)) : Step c s t
  | delete_call (s t : FS) (file_name : String) (r : Int)
      (h : RSFS_delete s file_name = .ok (r, t)) : Step c s t
  | stat_call (s t : FS) (r : stat_report)
      (h : RSFS_stat s = .ok (r, t)) : Step c s t
  | write_call (s t : FS) (fd : Int) (buf : List Nat) (size : Int) (r : Int)
      (h : RSFS_write s fd buf size = .ok (r, t)) : Step c s t
  | cut_call (s t : FS) (fd : Int) (size : Int) (r : Int)
      (h : RSFS_cut s fd size = .ok (r, t)) : Step c s t

/-- The states a program can be in: the one `RSFS_init()` builds, and every
state a returning call of a public operation leaves from such a state. -/
inductive Reachable (c : Config) (mem : Nat → Nat → Nat) : FS → Prop where
  | init : Reachable c mem (RSFS_init c mem).2
  | step (s t : FS) (hs : Reachable c mem s) (h : Step c s t) : Reachable c mem t

/-! ## Vocabulary of the statements -/

/-- The byte of a file at logical offset `q`: the byte `q % BLOCK_SIZE` of the
data block that the pointer `block[q / BLOCK_SIZE]` of its inode names. -/
def file_byte (c : Config) (s : FS) (ino : inode) (q : Nat) : Option Nat :=
  match ino.block[q / c.BLOCK_SIZE]? with
  | none => none
  | some b =>
    if b < 0 then none
    else
      match s.data_blocks[b.toNat]? with
      | none => none
      | some blk => blk[q % c.BLOCK_SIZE]?

/-- The pool of data blocks is well formed: one bitmap flag per block, and every
block has `BLOCK_SIZE` bytes. -/
def pool_ok (c : Config) (s : FS) : Prop :=
  s.data_bitmap.length = s.data_blocks.length ∧
    ∀ blk ∈ s.data_blocks, blk.length = c.BLOCK_SIZE

/-- The pointer `b` names a block of the pool that is marked allocated. -/
def block_ok (s : FS) (b : Int) : Prop :=
  0 ≤ b ∧ b.toNat < s.data_blocks.length ∧ s.data_bitmap[b.toNat]? ≠ some 0

/-- The pointer array of an inode is well formed: `NUM_POINTER` slots, each
unused (`-1`) or naming an allocated block, no block named twice. -/
def inode_ok (c : Config) (s : FS) (ino : inode) : Prop :=
  ino.block.length = c.NUM_POINTER ∧
    (∀ b ∈ ino.block, b = -1 ∨ block_ok s b) ∧
    ∀ j₁ < ino.block.length, ∀ j₂ < ino.block.length,
      j₁ ≠ j₂ → ino.block[j₁]? = ino.block[j₂]? → ino.block[j₁]? = some (-1)

/-- The descriptor `fd` is the entry `e` of the open-file table, which points to
the directory entry `d`, whose inode is `ino`, the inode number `i`. -/
def descriptor_on (s : FS) (fd : Nat) (e : open_file_entry) (d : dir_entry) (i : Nat)
    (ino : inode) : Prop :=
  s.open_file_table[fd]? = some e ∧ deref s e.dir_entry = .ok d ∧
    d.inode_number = (i : Int) ∧ s.inodes[i]? = some ino

/-- The number of free data blocks. -/
def free_count (s : FS) : Nat :=
  s.data_bitmap.count 0

/-- The number of unused pointer slots among those that the bytes
`[p, p + n)` of a file fall in. -/
def unused_in (c : Config) (block : List Int) (p n : Nat) : Nat :=
  if n = 0 then 0
  else
    ((block.drop (p / c.BLOCK_SIZE)).take
      ((p + n - 1) / c.BLOCK_SIZE + 1 - p / c.BLOCK_SIZE)).count (-1)

/-- Every offset below the length of the file has a byte. -/
def readable (c : Config) (s : FS) (ino : inode) : Prop :=
  ∀ q, q < ino.length.toNat → (file_byte c s ino q).isSome = true

instance (c : Config) (s : FS) : Decidable (pool_ok c s) := by
  unfold pool_ok; infer_instance

instance (s : FS) (b : Int) : Decidable (block_ok s b) := by
  unfold block_ok; infer_instance

instance (c : Config) (s : FS) (ino : inode) : Decidable (inode_ok c s ino) := by
  unfold inode_ok; infer_instance

instance (s : FS) (fd : Nat) (e : open_file_entry) (d : dir_entry) (i : Nat) (ino : inode) :
    Decidable (descriptor_on s fd e d i ino) := by
  unfold descriptor_on; infer_instance

instance (c : Config) (s : FS) (ino : inode) : Decidable (readable c s ino) := by
  unfold readable; infer_instance

/-- The pointer arrays of the inode table, in the order of the table. -/
def ptr_table (s : FS) : List (List Int) :=
  s.inodes.map (fun a => a.block)

/-- The lengths of the inode table, in the order of the table. -/
def len_table (s : FS) : List Int :=
  s.inodes.map (fun a => a.length)

/-- The block bitmap, the pointer arrays and the lengths fit together: every
array has `NUM_POINTER` slots, every length is between `0` and the capacity of
a file, every pointer is unused (`-1`) or names a block the bitmap marks
allocated, and no block is named by two arrays. -/
structure store_ok (c : Config) (bitmap : List Int) (ptrs : List (List Int))
    (lens : List Int) : Prop where
  shape : ∀ B ∈ ptrs, B.length = c.NUM_POINTER
  lengths : ∀ L ∈ lens, 0 ≤ L ∧ L ≤ ((c.NUM_POINTER * c.BLOCK_SIZE : Nat) : Int)
  marked : ∀ B ∈ ptrs, ∀ b ∈ B, b = -1 ∨ (0 ≤ b ∧ bitmap[b.toNat]? = some 1)
  disjoint : ∀ (i j : Nat) (A B : List Int), i ≠ j → ptrs[i]? = some A → ptrs[j]? = some B →
    ∀ b, b ∈ A → b ∈ B → b = -1

/-- The invariant of the block store in a state. -/
def store_inv (c : Config) (s : FS) : Prop :=
  store_ok c s.data_bitmap (ptr_table s) (len_table s)

/-- Two states have the same block bitmap, pointer arrays and lengths. -/
def same_store (s t : FS) : Prop :=
  t.data_bitmap = s.data_bitmap ∧ ptr_table t = ptr_table s ∧ len_table t = len_table s

/-- What a run has returned, and a view of the state it has left. -/
def observe {α : Type} (f : FS → α) (r : Res (Int × FS)) : Option (Int × α) :=
  match r with
  | .ok (v, s) => some (v, f s)
  | .fault _ => none

/-! ## Worked examples: a small configuration and the states of a short run -/

/-- Run `f` in the state a call has left. -/
def and_then (r : Res (Int × FS)) (f : FS → Res (Int × FS)) : Res (Int × FS) :=
  match r with
  | .ok (_, s) => f s
  | .fault e => .fault e

/-- A small instance of the constants of `def.h`. -/
def cfg0 : Config :=
  { NUM_DBLOCKS := 4, BLOCK_SIZE := 4, NUM_INODES := 2, NUM_POINTER := 2, NUM_OPEN_FILE := 2,
    RSFS_RDONLY := 0, RSFS_RDWR := 1 }

/-- Some content of the stack slot of `currentFile` in `RSFS_open`. -/
def stack0 : open_file_entry :=
  { used := 0, dir_entry := none, position := 0, access_flag := 7 }

/-- The state after `RSFS_init()`, the blocks holding zeroes. -/
def fs_init : FS :=
  (RSFS_init cfg0 (fun _ _ => 0)).2

/-- The run `create("a"); fd = open("a", RSFS_RDWR); append(fd, "ab", 2)`. -/
def run_ab : Res (Int × FS) :=
  and_then (and_then (RSFS_create fs_init "a")
    (fun s => RSFS_open cfg0 s "a" cfg0.RSFS_RDWR stack0))
    (fun s => RSFS_append cfg0 s 0 [97, 98] 2)

/-- The state `run_ab` ends in: the file "a" holds "ab", descriptor `0` is open
read-write at position `2`. -/
def fs_ab : FS :=
  { data_blocks := [[97, 98, 0, 0], [0, 0, 0, 0], [0, 0, 0, 0], [0, 0, 0, 0]]
    data_bitmap := [1, 0, 0, 0]
    data_bitmap_mutex := false
    inode_bitmap := [1, 0]
    inode_bitmap_mutex := false
    inodes :=
      [{ block := [0, -1], length := 2, num_current_reader := 0, rw_mutex := false,
         read_mutex := false },
       { block := [-1, -1], length := 0, num_current_reader := 0, rw_mutex := false,
         read_mutex := false }]
    inodes_mutex := false
    open_file_table :=
      [{ used := 1, dir_entry := some 0, position := 2, access_flag := 1 },
       { used := 0, dir_entry := none, position := 0, access_flag := 0 }]
    open_file_table_mutex := false
    root_dir := [{ addr := 0, name := "a", inode_number := 0 }]
    next_addr := 1
    mutex_for_fs_stat := false }

/-- The state after `create("a"); fd = open("a", RSFS_RDWR)`: the file is empty
and descriptor `0` is at position `0`. -/
def fs_open : FS :=
  { data_blocks := [[0, 0, 0, 0], [0, 0, 0, 0], [0, 0, 0, 0], [0, 0, 0, 0]]
    data_bitmap := [0, 0, 0, 0]
    data_bitmap_mutex := false
    inode_bitmap := [1, 0]
    inode_bitmap_mutex := false
    inodes :=
      [{ block := [-1, -1], length := 0, num_current_reader := 0, rw_mutex := false,
         read_mutex := false },
       { block := [-1, -1], length := 0, num_current_reader := 0, rw_mutex := false,
         read_mutex := false }]
    inodes_mutex := false
    open_file_table :=
      [{ used := 1, dir_entry := some 0, position := 0, access_flag := 1 },
       { used := 0, dir_entry := none, position := 0, access_flag := 0 }]
    open_file_table_mutex := false
    root_dir := [{ addr := 0, name := "a", inode_number := 0 }]
    next_addr := 1
    mutex_for_fs_stat := false }

/-- The state `fs_ab` after `fseek(0, 0)`: descriptor `0` is back at position `0`. -/
def fs_ab_rewound : FS :=
  { fs_ab with
    open_file_table :=
      [{ used := 1, dir_entry := some 0, position := 0, access_flag := 1 },
       { used := 0, dir_entry := none, position := 0, access_flag := 0 }] }

/-- The state `fs_ab` after `close(0)`: no descriptor is in use. -/
def fs_ab_closed : FS :=
  { fs_ab with
    open_file_table :=
      [{ used := 0, dir_entry := none, position := 0, access_flag := -1 },
       { used := 0, dir_entry := none, position := 0, access_flag := 0 }] }

/-- The inode of the file "a" in `fs_ab`. -/
def ino_ab : inode :=
  { block := [0, -1], length := 2, num_current_reader := 0, rw_mutex := false,
    read_mutex := false }

/-- The directory entry of the file "a". -/
def dir_a : dir_entry :=
  { addr := 0, name := "a", inode_number := 0 }

/-- A configuration whose pool has fewer blocks than a file has pointers. -/
def cfg1 : Config :=
  { NUM_DBLOCKS := 1, BLOCK_SIZE := 4, NUM_INODES := 1, NUM_POINTER := 2, NUM_OPEN_FILE := 1,
    RSFS_RDONLY := 0, RSFS_RDWR := 1 }

/-- The run `create("a"); open("a", RSFS_RDWR)` after `RSFS_init()` in `cfg1`. -/
def run1_open : Res (Int × FS) :=
  and_then (RSFS_create (RSFS_init cfg1 (fun _ _ => 0)).2 "a")
    (fun s => RSFS_open cfg1 s "a" cfg1.RSFS_RDWR stack0)

/-- The state `run1_open` ends in: the file "a" is empty, descriptor `0` is open
read-write, the only data block is free. -/
def fs1_open : FS :=
  { data_blocks := [[0, 0, 0, 0]]
    data_bitmap := [0]
    data_bitmap_mutex := false
    inode_bitmap := [1]
    inode_bitmap_mutex := false
    inodes :=
      [{ block := [-1, -1], length := 0, num_current_reader := 0, rw_mutex := false,
         read_mutex := false }]
    inodes_mutex := false
    open_file_table := [{ used := 1, dir_entry := some 0, position := 0, access_flag := 1 }]
    open_file_table_mutex := false
    root_dir := [{ addr := 0, name := "a", inode_number := 0 }]
    next_addr := 1
    mutex_for_fs_stat := false }

/-- The run `create("a"); open("a", RSFS_RDONLY); open("a", RSFS_RDONLY)` after
`RSFS_init()`; `g1` and `g2` are what the uninitialised `currentFile` holds in
the two calls. -/
def run_two_readers (g1 g2 : open_file_entry) : Res (Int × FS) :=
  and_then (and_then (RSFS_create fs_init "a")
    (fun s => RSFS_open cfg0 s "a" cfg0.RSFS_RDONLY g1))
    (fun s => RSFS_open cfg0 s "a" cfg0.RSFS_RDONLY g2)

/-- The run `run_two_readers` followed by `close(0); open("a", RSFS_RDWR)`. -/
def run_reader_writer (g1 g2 g3 : open_file_entry) : Res (Int × FS) :=
  and_then (and_then (run_two_readers g1 g2) (fun s => RSFS_close cfg0 s 0))
    (fun s => RSFS_open cfg0 s "a" cfg0.RSFS_RDWR g3)

/-- The state after `create("a")`: the file exists, nothing is open. -/
def fs_created : FS :=
  { fs_init with
    inode_bitmap := [1, 0]
    root_dir := [{ addr := 0, name := "a", inode_number := 0 }]
    next_addr := 1 }

/-- The state `fs_ab` after `create("b"); open("b", RSFS_RDWR); append(1, "x", 1)`:
two files, each with one data block. -/
def fs_two : FS :=
  { data_blocks := [[97, 98, 0, 0], [120, 0, 0, 0], [0, 0, 0, 0], [0, 0, 0, 0]]
    data_bitmap := [1, 1, 0, 0]
    data_bitmap_mutex := false
    inode_bitmap := [1, 1]
    inode_bitmap_mutex := false
    inodes :=
      [{ block := [0, -1], length := 2, num_current_reader := 0, rw_mutex := false,
         read_mutex := false },
       { block := [1, -1], length := 1, num_current_reader := 0, rw_mutex := false,
         read_mutex := false }]
    inodes_mutex := false
    open_file_table :=
      [{ used := 1, dir_entry := some 0, position := 2, access_flag := 1 },
       { used := 1, dir_entry := some 1, position := 1, access_flag := 1 }]
    open_file_table_mutex := false
    root_dir :=
      [{ addr := 0, name := "a", inode_number := 0 },
       { addr := 1, name := "b", inode_number := 1 }]
    next_addr := 2
    mutex_for_fs_stat := false }

/-- The state `fs_open` after `append(0, "12345678", 8)`: the file "a" is as long
as a file can be, `NUM_POINTER * BLOCK_SIZE = 8` bytes, and descriptor `0` is at
position `8`. -/
def fs_full : FS :=
  { data_blocks := [[1, 2, 3, 4], [5, 6, 7, 8], [0, 0, 0, 0], [0, 0, 0, 0]]
    data_bitmap := [1, 1, 0, 0]
    data_bitmap_mutex := false
    inode_bitmap := [1, 0]
    inode_bitmap_mutex := false
    inodes :=
      [{ block := [0, 1], length := 8, num_current_reader := 0, rw_mutex := false,
         read_mutex := false },
       { block := [-1, -1], length := 0, num_current_reader := 0, rw_mutex := false,
         read_mutex := false }]
    inodes_mutex := false
    open_file_table :=
      [{ used := 1, dir_entry := some 0, position := 8, access_flag := 1 },
       { used := 0, dir_entry := none, position := 0, access_flag := 0 }]
    open_file_table_mutex := false
    root_dir := [{ addr := 0, name := "a", inode_number := 0 }]
    next_addr := 1
    mutex_for_fs_stat := false }

/-! ## Lemmas -/

/-- An index that is a natural number reads the list at that place. -/
theorem at?_natCast {α : Type} (l : List α) (n : Nat) : at? l (n : Int) = l[n]? := by
  simp [at?]

/-- Reading an array at a natural index that is inside succeeds. -/
theorem idx_natCast {α : Type} (l : List α) (n : Nat) (a : α) (h : l[n]? = some a) :
    idx l (n : Int) = .ok a := by
  simp [idx, at?_natCast, h]

/-- Reading an array at a non-negative index that is inside succeeds. -/
theorem idx_of_nonneg {α : Type} (l : List α) (b : Int) (a : α) (hb : 0 ≤ b)
    (h : l[b.toNat]? = some a) : idx l b = .ok a := by
  have : ¬ b < 0 := not_lt.mpr hb
  simp [idx, at?, this, h]

/-- Writing an array at a natural index that is inside succeeds. -/
theorem upd_natCast {α : Type} (l : List α) (n : Nat) (a : α) (h : n < l.length) :
    upd l (n : Int) a = .ok (l.set n a) := by
  simp [upd, h]

/-- The C quotient of two non-negative `int`s is the quotient of naturals. -/
theorem tdiv_natCast (p b : Nat) : Int.tdiv (p : Int) (b : Int) = ((p / b : Nat) : Int) :=
  (Int.ofNat_tdiv p b).symm

/-- The C remainder of two non-negative `int`s is the remainder of naturals. -/
theorem tmod_natCast (p b : Nat) : Int.tmod (p : Int) (b : Int) = ((p % b : Nat) : Int) := by
  rw [Int.tmod_eq_emod (Int.natCast_nonneg p) (Int.natCast_nonneg b)]
  exact (Int.natCast_mod p b).symm

/-- The slot the scan returns is inside the bitmap and free. -/
theorem first_free_spec : ∀ (l : List Int) (k : Nat), first_free l = some k →
    k < l.length ∧ l[k]? = some 0
  | [], k, h => by simp [first_free] at h
  | b :: bs, k, h => by
    unfold first_free at h
    by_cases hb : b = 0
    · simp [hb] at h
      subst h
      simp [hb]
    · simp [hb] at h
      obtain ⟨k', hk', rfl⟩ := h
      have := first_free_spec bs k' hk'
      refine ⟨by simp [this.1], ?_⟩
      simpa using this.2

/-- The scan finds a slot when some flag is free. -/
theorem first_free_of_count_pos : ∀ (l : List Int), 0 < l.count 0 → ∃ k, first_free l = some k
  | [], h => by simp at h
  | b :: bs, h => by
    unfold first_free
    by_cases hb : b = 0
    · exact ⟨0, by simp [hb]⟩
    · have hc : 0 < bs.count 0 := by
        rw [List.count_cons] at h
        simpa [hb] using h
      obtain ⟨k, hk⟩ := first_free_of_count_pos bs hc
      exact ⟨k + 1, by simp [hb, hk]⟩

/-- When the scan finds nothing, no flag is free. -/
theorem first_free_none : ∀ (l : List Int), first_free l = none → l.count 0 = 0
  | [], _ => by simp
  | b :: bs, h => by
    unfold first_free at h
    by_cases hb : b = 0
    · simp [hb] at h
    · simp [hb] at h
      have := first_free_none bs h
      rw [List.count_cons]
      simp [hb, this]

/-- Marking a free slot allocated lowers the number of free slots by one. -/
theorem count_zero_set_one (l : List Int) (k : Nat) (h : l[k]? = some 0) :
    (l.set k 1).count 0 = l.count 0 - 1 := by
  have hk : k < l.length := by
    by_contra hc
    simp [List.getElem?_eq_none (not_lt.mp hc)] at h
  rw [List.count_set (1 : Int) 0 l k hk]
  have h0 : l[k] = 0 := by
    rw [List.getElem?_eq_getElem hk] at h
    simpa using h
  simp [h0]

/-- The bytes of a block after `memcpy` of `n` bytes of `buf` at `off`. -/
theorem getElem?_blit (blk buf : List Nat) (off n j : Nat) (h1 : off + n ≤ blk.length)
    (h2 : n ≤ buf.length) :
    (blk.take off ++ buf.take n ++ blk.drop (off + n))[j]? =
      if off ≤ j ∧ j < off + n then buf[j - off]? else blk[j]? := by
  by_cases hj1 : j < off
  · have : ¬ (off ≤ j ∧ j < off + n) := by omega
    rw [if_neg this, List.append_assoc, List.getElem?_append_left (by simp; omega)]
    simp [List.getElem?_take, hj1]
  · by_cases hj2 : j < off + n
    · have : off ≤ j ∧ j < off + n := by omega
      rw [if_pos this, List.append_assoc, List.getElem?_append_right (by simp; omega)]
      rw [List.getElem?_append_left (by simp; omega)]
      simp [List.getElem?_take]
      have : min off blk.length = off := by omega
      rw [this]
      rw [if_pos (by omega)]
    · have : ¬ (off ≤ j ∧ j < off + n) := by omega
      rw [if_neg this, List.getElem?_append_right (by simp; omega)]
      simp
      have : min off blk.length = off := by omega
      have h3 : min n buf.length = n := by omega
      rw [this, h3]
      congr 1
      omega

/-- A `memcpy` inside a block keeps the length of the block. -/
theorem length_blit (blk buf : List Nat) (off n : Nat) (h1 : off + n ≤ blk.length)
    (h2 : n ≤ buf.length) :
    (blk.take off ++ buf.take n ++ blk.drop (off + n)).length = blk.length := by
  simp
  omega

/-- Writing back the element an array holds changes nothing. -/
theorem set_self_of_getElem? {α : Type} (l : List α) (i : Nat) (a : α) (h : l[i]? = some a) :
    l.set i a = l := by
  apply List.ext_getElem?
  intro k
  rw [List.getElem?_set]
  by_cases hk : i = k
  · subst hk
    have : i < l.length := by
      by_contra hc
      simp [List.getElem?_eq_none (not_lt.mp hc)] at h
    simp [this, h]
  · simp [hk]

/-- Offsets inside one block: quotient and remainder of `p + t`. -/
theorem div_mod_in_block (B p t : Nat) (hB : 0 < B) (ht : p % B + t < B) :
    (p + t) / B = p / B ∧ (p + t) % B = p % B + t := by
  have hp := Nat.div_add_mod p B
  have e : p + t = B * (p / B) + (p % B + t) := by omega
  rw [e]
  constructor
  · rw [Nat.mul_add_div hB, Nat.div_eq_of_lt ht]; simp
  · rw [Nat.mul_add_mod, Nat.mod_eq_of_lt ht]

/-- One round of the append loop uses up the slot of the current block; the rest of the write needs the unused slots after it. -/
theorem unused_in_step (c : Config) (hBS : 0 < c.BLOCK_SIZE) (block : List Int) (p n : Nat)
    (x : Int) (hn : 0 < n) (hj : p / c.BLOCK_SIZE < block.length) :
    unused_in c block p n =
      (if block[p / c.BLOCK_SIZE]? = some (-1) then 1 else 0) +
        unused_in c (block.set (p / c.BLOCK_SIZE) x)
          (p + min n (c.BLOCK_SIZE - p % c.BLOCK_SIZE))
          (n - min n (c.BLOCK_SIZE - p % c.BLOCK_SIZE)) := by
  have ho : p % c.BLOCK_SIZE < c.BLOCK_SIZE := Nat.mod_lt _ hBS
  have hp := Nat.div_add_mod p c.BLOCK_SIZE
  have hn0 : n ≠ 0 := by omega
  rw [unused_in, if_neg hn0, List.drop_eq_getElem_cons hj]
  by_cases hw : n ≤ c.BLOCK_SIZE - p % c.BLOCK_SIZE
  · have hmin : min n (c.BLOCK_SIZE - p % c.BLOCK_SIZE) = n := by omega
    rw [hmin, Nat.sub_self]
    have h1 := (div_mod_in_block c.BLOCK_SIZE p (n - 1) hBS (by omega)).1
    have e : p + n - 1 = p + (n - 1) := by omega
    rw [e, h1]
    have e2 : p / c.BLOCK_SIZE + 1 - p / c.BLOCK_SIZE = 1 := by omega
    rw [e2, unused_in, if_pos rfl, List.take_succ_cons, List.take_zero, List.count_cons,
      List.count_nil, List.getElem?_eq_getElem hj]
    simp
  · have hmin : min n (c.BLOCK_SIZE - p % c.BLOCK_SIZE) = c.BLOCK_SIZE - p % c.BLOCK_SIZE := by
      omega
    rw [hmin]
    have hn2 : n - (c.BLOCK_SIZE - p % c.BLOCK_SIZE) ≠ 0 := by omega
    rw [unused_in, if_neg hn2]
    have e1 : p + (c.BLOCK_SIZE - p % c.BLOCK_SIZE) = c.BLOCK_SIZE * (p / c.BLOCK_SIZE + 1) := by
      rw [Nat.mul_add, Nat.mul_one]; omega
    have e2 : (p + (c.BLOCK_SIZE - p % c.BLOCK_SIZE)) / c.BLOCK_SIZE = p / c.BLOCK_SIZE + 1 := by
      rw [e1, Nat.mul_div_cancel_left _ hBS]
    have e3 : p + (c.BLOCK_SIZE - p % c.BLOCK_SIZE) + (n - (c.BLOCK_SIZE - p % c.BLOCK_SIZE)) - 1
        = p + n - 1 := by omega
    rw [e2, e3, List.drop_set_of_lt _ _ (Nat.lt_succ_self _)]
    have hhi : p / c.BLOCK_SIZE + 1 ≤ (p + n - 1) / c.BLOCK_SIZE := by
      rw [Nat.le_div_iff_mul_le hBS, Nat.mul_comm, ← e1]; omega
    obtain ⟨m, hm⟩ : ∃ m, (p + n - 1) / c.BLOCK_SIZE + 1 - (p / c.BLOCK_SIZE + 1) = m := ⟨_, rfl⟩
    have e4 : (p + n - 1) / c.BLOCK_SIZE + 1 - p / c.BLOCK_SIZE = m + 1 := by omega
    rw [hm, e4, List.take_succ_cons, List.count_cons, List.getElem?_eq_getElem hj]
    simp only [Option.some.injEq, beq_iff_eq, Nat.succ_eq_add_one]
    exact Nat.add_comm _ _

/-- Linking the block `b2` in slot `j` and overwriting that block keeps the inode and the pool well formed; the bytes of slot `j` are those of the new block and all other bytes are as before. -/
theorem step_inv (c : Config) (s : FS) (ino : inode) (j b2 : Nat) (bitmap2 : List Int)
    (blk2 : List Nat) (inodes2 : List inode)
    (hok : inode_ok c s ino) (hpool : pool_ok c s) (hj : j < ino.block.length)
    (hlen : bitmap2.length = s.data_bitmap.length)
    (hmono : ∀ x : Nat, s.data_bitmap[x]? ≠ some 0 → bitmap2[x]? ≠ some 0)
    (hb2 : bitmap2[b2]? ≠ some 0)
    (hb2lt : b2 < s.data_blocks.length)
    (hfresh : ∀ j' : Nat, j' ≠ j → ino.block[j']? ≠ some (b2 : Int))
    (hblk2 : blk2.length = c.BLOCK_SIZE) :
    inode_ok c
        { s with inodes := inodes2, data_bitmap := bitmap2,
                 data_blocks := s.data_blocks.set b2 blk2 }
        { ino with block := ino.block.set j (b2 : Int) } ∧
      pool_ok c
        { s with inodes := inodes2, data_bitmap := bitmap2,
                 data_blocks := s.data_blocks.set b2 blk2 } ∧
      (∀ q : Nat, q / c.BLOCK_SIZE = j →
        file_byte c
          { s with inodes := inodes2, data_bitmap := bitmap2,
                   data_blocks := s.data_blocks.set b2 blk2 }
          { ino with block := ino.block.set j (b2 : Int) } q = blk2[q % c.BLOCK_SIZE]?) ∧
      (∀ q : Nat, q / c.BLOCK_SIZE ≠ j →
        file_byte c
          { s with inodes := inodes2, data_bitmap := bitmap2,
                   data_blocks := s.data_blocks.set b2 blk2 }
          { ino with block := ino.block.set j (b2 : Int) } q = file_byte c s ino q) := by
  obtain ⟨hlenb, hptr, hinj⟩ := hok
  obtain ⟨hpl, hpb⟩ := hpool
  refine ⟨⟨?_, ?_, ?_⟩, ⟨?_, ?_⟩, ?_, ?_⟩
  · simpa using hlenb
  · intro b hb
    simp only at hb
    rcases List.mem_or_eq_of_mem_set hb with hb | hb
    · rcases hptr b hb with h | ⟨h1, h2, h3⟩
      · exact Or.inl h
      · exact Or.inr ⟨h1, by simpa using h2, hmono _ h3⟩
    · right
      subst hb
      exact ⟨Int.natCast_nonneg _, by simpa using hb2lt, by simpa using hb2⟩
  · intro j₁ h₁ j₂ h₂ hne heq
    simp only [List.length_set] at h₁ h₂
    simp only [List.getElem?_set, h₁, h₂, hj] at heq ⊢
    by_cases e1 : j = j₁
    · subst e1
      rw [if_pos rfl, if_neg hne] at heq
      exact absurd heq.symm (hfresh j₂ (Ne.symm hne))
    · by_cases e2 : j = j₂
      · subst e2
        rw [if_pos rfl, if_neg e1] at heq
        exact absurd heq (hfresh j₁ hne)
      · rw [if_neg e1, if_neg e2] at heq
        rw [if_neg e1]
        exact hinj j₁ h₁ j₂ h₂ hne heq
  · simp [hlen, hpl]
  · intro blk hblk
    simp only at hblk
    rcases List.mem_or_eq_of_mem_set hblk with h | h
    · exact hpb blk h
    · rw [h]; exact hblk2
  · intro q hq
    simp [file_byte, hq, hj, hb2lt]
  · intro q hq
    simp only [file_byte]
    rw [List.getElem?_set_ne (Ne.symm hq)]
    cases hb : ino.block[q / c.BLOCK_SIZE]? with
    | none => rfl
    | some b =>
      simp only
      by_cases hneg : b < 0
      · simp [hneg]
      · simp only [hneg, if_false]
        have hne : b2 ≠ b.toNat := by
          intro h
          apply hfresh _ hq
          rw [hb, h, Int.toNat_of_nonneg (not_lt.mp hneg)]
        rw [List.getElem?_set_ne hne]

/-- One round of the append loop on a well-formed state: the block `b2` is (or gets) linked in the slot of the current position and receives the next bytes of the buffer. -/
theorem append_loop_step (c : Config) (hBS : 0 < c.BLOCK_SIZE) (i fuel n p : Nat) (s : FS)
    (buf : List Nat) (ino : inode)
    (hn : 0 < n) (hbuf : n ≤ buf.length) (hcap : p + n ≤ c.NUM_POINTER * c.BLOCK_SIZE)
    (hino : s.inodes[i]? = some ino) (hok : inode_ok c s ino) (hpool : pool_ok c s)
    (hmx : s.data_bitmap_mutex = false)
    (hfree : unused_in c ino.block p n ≤ free_count s) :
    ∃ (b2 : Nat) (bitmap2 : List Int) (blk : List Nat),
      s.data_blocks[b2]? = some blk ∧
      (ino.block[p / c.BLOCK_SIZE]? = some (-1) ∨
        ino.block[p / c.BLOCK_SIZE]? = some (b2 : Int)) ∧
      bitmap2.length = s.data_bitmap.length ∧
      (∀ x : Nat, s.data_bitmap[x]? ≠ some 0 → bitmap2[x]? ≠ some 0) ∧
      bitmap2[b2]? ≠ some 0 ∧
      (∀ j' : Nat, j' ≠ p / c.BLOCK_SIZE → ino.block[j']? ≠ some (b2 : Int)) ∧
      bitmap2.count 0 + (if ino.block[p / c.BLOCK_SIZE]? = some (-1) then 1 else 0) =
        s.data_bitmap.count 0 ∧
      append_loop c (i : Int) (fuel + 1) s (p : Int) buf (n : Int) =
        append_loop c (i : Int) fuel
          { s with
            inodes := s.inodes.set i { ino with block := ino.block.set (p / c.BLOCK_SIZE) (b2 : Int) }
            data_bitmap := bitmap2
            data_blocks := s.data_blocks.set b2
              (blk.take (p % c.BLOCK_SIZE) ++
                buf.take (min n (c.BLOCK_SIZE - p % c.BLOCK_SIZE)) ++
                blk.drop (p % c.BLOCK_SIZE + min n (c.BLOCK_SIZE - p % c.BLOCK_SIZE))) }
          ((p + min n (c.BLOCK_SIZE - p % c.BLOCK_SIZE) : Nat) : Int)
          (buf.drop (min n (c.BLOCK_SIZE - p % c.BLOCK_SIZE)))
          ((n - min n (c.BLOCK_SIZE - p % c.BLOCK_SIZE) : Nat) : Int) := by
  have ho : p % c.BLOCK_SIZE < c.BLOCK_SIZE := Nat.mod_lt _ hBS
  have hjNP : p / c.BLOCK_SIZE < c.NUM_POINTER := by
    apply Nat.div_lt_of_lt_mul
    rw [Nat.mul_comm]; omega
  obtain ⟨hlenb, hptr, hinj⟩ := hok
  obtain ⟨hpl, hpb⟩ := hpool
  have hj : p / c.BLOCK_SIZE < ino.block.length := by omega
  have hiL : i < s.inodes.length := by
    by_contra hc
    simp [List.getElem?_eq_none (not_lt.mp hc)] at hino
  obtain ⟨w, hw⟩ : ∃ w, min n (c.BLOCK_SIZE - p % c.BLOCK_SIZE) = w := ⟨_, rfl⟩
  have hw1 : 0 < w := by omega
  have hw2 : w ≤ n := by omega
  have hw3 : p % c.BLOCK_SIZE + w ≤ c.BLOCK_SIZE := by omega
  have hbytes : (if (n : Int) < (c.BLOCK_SIZE : Int) - ((p % c.BLOCK_SIZE : Nat) : Int) then (n : Int)
      else (c.BLOCK_SIZE : Int) - ((p % c.BLOCK_SIZE : Nat) : Int)) = (w : Int) := by
    split_ifs with h <;> omega
  have hsz : (n : Int) > 0 := by exact_mod_cast hn
  have hBS0 : c.BLOCK_SIZE ≠ 0 := by omega
  have hcp : (p : Int) + (w : Int) = ((p + w : Nat) : Int) := by push_cast; rfl
  have hsz2 : (n : Int) - (w : Int) = ((n - w : Nat) : Int) := by omega
  rw [hw]
  cases hb : ino.block[p / c.BLOCK_SIZE]? with
  | none => simp [List.getElem?_eq_none_iff] at hb; omega
  | some b =>
    by_cases hb1 : b = -1
    · -- a block is allocated
      subst hb1
      have hu := unused_in_step c hBS ino.block p n 0 hn hj
      rw [hb, if_pos rfl] at hu
      have hfc : 0 < s.data_bitmap.count 0 := by
        unfold free_count at hfree; omega
      obtain ⟨k, hk⟩ := first_free_of_count_pos _ hfc
      obtain ⟨hk1, hk2⟩ := first_free_spec _ _ hk
      have hkb : k < s.data_blocks.length := by omega
      obtain ⟨blk, hblk⟩ : ∃ blk, s.data_blocks[k]? = some blk :=
        ⟨_, List.getElem?_eq_getElem hkb⟩
      have hblkL : blk.length = c.BLOCK_SIZE := hpb blk (List.getElem?_mem hblk)
      have hkne : ¬ ((k : Int) = -1) := by omega
      refine ⟨k, s.data_bitmap.set k 1, blk, hblk, Or.inl rfl, by simp, ?_, ?_, ?_, ?_, ?_⟩
      · intro x hx
        rw [List.getElem?_set]
        split_ifs <;> simp_all
      · simp [List.getElem?_set, hk1]
      · intro j' _ hj'
        rcases hptr (k : Int) (List.getElem?_mem hj') with h | ⟨_, _, h3⟩
        · omega
        · simp [hk2] at h3
      · rw [if_pos rfl, count_zero_set_one _ _ hk2]; omega
      · simp only [append_loop, hsz, if_true, hBS0, if_false, tdiv_natCast, tmod_natCast,
          idx_natCast _ _ _ hino, idx_natCast _ _ _ hb, allocate_data_block, hmx, hk,
          Bool.false_eq_true, hkne, upd_natCast _ _ _ hj, upd_natCast _ _ _ hiL, hbytes,
          memcpy_to_block, idx_natCast _ _ _ hblk, hcp, hsz2, Int.toNat_ofNat]
        have hcond : (0 : Int) ≤ ((p % c.BLOCK_SIZE : Nat) : Int) ∧ (0 : Int) ≤ (w : Int) ∧
            ((p % c.BLOCK_SIZE : Nat) : Int) + (w : Int) ≤ (blk.length : Int) ∧
            (w : Int) ≤ (buf.length : Int) := by
          refine ⟨by omega, by omega, by omega, by omega⟩
        rw [if_pos hcond]
        have e : (((p % c.BLOCK_SIZE : Nat) : Int) + (w : Int)).toNat = p % c.BLOCK_SIZE + w := by
          omega
        rw [e]
    · -- the slot is linked already
      have hbok : block_ok s b := by
        rcases hptr b (List.getElem?_mem hb) with h | h
        · exact absurd h hb1
        · exact h
      obtain ⟨hb0, hblt, hbbit⟩ := hbok
      obtain ⟨blk, hblk⟩ : ∃ blk, s.data_blocks[b.toNat]? = some blk :=
        ⟨_, List.getElem?_eq_getElem hblt⟩
      have hblkL : blk.length = c.BLOCK_SIZE := hpb blk (List.getElem?_mem hblk)
      have hbc : ((b.toNat : Nat) : Int) = b := Int.toNat_of_nonneg hb0
      have hne : ino.block[p / c.BLOCK_SIZE]? ≠ some (-1) := by
        rw [hb]; simpa using hb1
      refine ⟨b.toNat, s.data_bitmap, blk, hblk, Or.inr (by rw [hbc]), rfl,
        fun _ h => h, hbbit, ?_, ?_, ?_⟩
      · intro j' hj' hj'b
        rw [hbc] at hj'b
        have hj'L : j' < ino.block.length := by
          by_contra hc
          simp [List.getElem?_eq_none (not_lt.mp hc)] at hj'b
        have := hinj j' hj'L _ hj hj' (by rw [hj'b, hb])
        rw [hj'b] at this
        simp at this
        exact hb1 this
      · simp [hb, hb1]
      · have hset : ino.block.set (p / c.BLOCK_SIZE) ((b.toNat : Nat) : Int) = ino.block := by
          rw [hbc]; exact set_self_of_getElem? _ _ _ hb
        have hset2 : s.inodes.set i { ino with block := ino.block } = s.inodes :=
          set_self_of_getElem? _ _ _ hino
        rw [hset, hset2]
        simp only [append_loop, hsz, if_true, hBS0, if_false, tdiv_natCast, tmod_natCast,
          idx_natCast _ _ _ hino, idx_natCast _ _ _ hb, hb1, hbytes,
          memcpy_to_block, idx_of_nonneg _ _ _ hb0 hblk, hcp, hsz2, Int.toNat_ofNat]
        have hcond : (0 : Int) ≤ ((p % c.BLOCK_SIZE : Nat) : Int) ∧ (0 : Int) ≤ (w : Int) ∧
            ((p % c.BLOCK_SIZE : Nat) : Int) + (w : Int) ≤ (blk.length : Int) ∧
            (w : Int) ≤ (buf.length : Int) := by
          refine ⟨by omega, by omega, by omega, by omega⟩
        rw [if_pos hcond]
        have e : (((p % c.BLOCK_SIZE : Nat) : Int) + (w : Int)).toNat = p % c.BLOCK_SIZE + w := by
          omega
        rw [e]

/-- The bytes of a file depend on the pointer array and on the data blocks only. -/
theorem file_byte_congr (c : Config) (s t : FS) (ino ino' : inode) (q : Nat)
    (h1 : s.data_blocks = t.data_blocks) (h2 : ino.block = ino'.block) :
    file_byte c s ino q = file_byte c t ino' q := by
  simp [file_byte, h1, h2]

/-- One round of the append loop, with what it does to the bytes of the file and to the number of free blocks. -/
theorem append_loop_step_full (c : Config) (hBS : 0 < c.BLOCK_SIZE) (i fuel n p : Nat) (s : FS)
    (buf : List Nat) (ino : inode)
    (hn : 0 < n) (hbuf : n ≤ buf.length) (hcap : p + n ≤ c.NUM_POINTER * c.BLOCK_SIZE)
    (hino : s.inodes[i]? = some ino) (hok : inode_ok c s ino) (hpool : pool_ok c s)
    (hmx : s.data_bitmap_mutex = false)
    (hfree : unused_in c ino.block p n ≤ free_count s) :
    ∃ (block2 : List Int) (bitmap2 : List Int) (blocks2 : List (List Nat)) (w : Nat),
      0 < w ∧ w ≤ n ∧
      append_loop c (i : Int) (fuel + 1) s (p : Int) buf (n : Int) =
        append_loop c (i : Int) fuel
          { s with inodes := s.inodes.set i { ino with block := block2 }
                   data_bitmap := bitmap2, data_blocks := blocks2 }
          ((p + w : Nat) : Int) (buf.drop w) ((n - w : Nat) : Int) ∧
      inode_ok c
          { s with inodes := s.inodes.set i { ino with block := block2 }
                   data_bitmap := bitmap2, data_blocks := blocks2 }
          { ino with block := block2 } ∧
      pool_ok c
          { s with inodes := s.inodes.set i { ino with block := block2 }
                   data_bitmap := bitmap2, data_blocks := blocks2 } ∧
      (∀ t : Nat, t < w →
        file_byte c
          { s with inodes := s.inodes.set i { ino with block := block2 }
                   data_bitmap := bitmap2, data_blocks := blocks2 }
          { ino with block := block2 } (p + t) = buf[t]?) ∧
      (∀ (q : Nat) (v : Nat), (q < p ∨ p + w ≤ q) → file_byte c s ino q = some v →
        file_byte c
          { s with inodes := s.inodes.set i { ino with block := block2 }
                   data_bitmap := bitmap2, data_blocks := blocks2 }
          { ino with block := block2 } q = some v) ∧
      bitmap2.count 0 + unused_in c ino.block p n =
        s.data_bitmap.count 0 + unused_in c block2 (p + w) (n - w) := by
  obtain ⟨b2, bitmap2, blk, hblk, hcase, hlen, hmono, hb2, hfresh, hcount, hstep⟩ :=
    append_loop_step c hBS i fuel n p s buf ino hn hbuf hcap hino hok hpool hmx hfree
  have ho : p % c.BLOCK_SIZE < c.BLOCK_SIZE := Nat.mod_lt _ hBS
  have hjNP : p / c.BLOCK_SIZE < c.NUM_POINTER := by
    apply Nat.div_lt_of_lt_mul
    rw [Nat.mul_comm]; omega
  have hj : p / c.BLOCK_SIZE < ino.block.length := by rw [hok.1]; exact hjNP
  have hb2lt : b2 < s.data_blocks.length := by
    by_contra hc
    simp [List.getElem?_eq_none (not_lt.mp hc)] at hblk
  have hblkL : blk.length = c.BLOCK_SIZE := hpool.2 blk (List.getElem?_mem hblk)
  obtain ⟨w, hw⟩ : ∃ w, min n (c.BLOCK_SIZE - p % c.BLOCK_SIZE) = w := ⟨_, rfl⟩
  rw [hw] at hstep
  have hw1 : 0 < w := by omega
  have hw2 : w ≤ n := by omega
  have hw3 : p % c.BLOCK_SIZE + w ≤ c.BLOCK_SIZE := by omega
  have hblit := fun j => getElem?_blit blk buf (p % c.BLOCK_SIZE) w j (by omega) (by omega)
  have hblitL := length_blit blk buf (p % c.BLOCK_SIZE) w (by omega) (by omega)
  obtain ⟨hi1, hi2, hi3, hi4⟩ := step_inv c s ino (p / c.BLOCK_SIZE) b2 bitmap2
    (blk.take (p % c.BLOCK_SIZE) ++ buf.take w ++ blk.drop (p % c.BLOCK_SIZE + w))
    (s.inodes.set i { ino with block := ino.block.set (p / c.BLOCK_SIZE) (b2 : Int) })
    hok hpool hj hlen hmono hb2 hb2lt hfresh (by rw [hblitL, hblkL])
  refine ⟨ino.block.set (p / c.BLOCK_SIZE) (b2 : Int), bitmap2, _, w, hw1, hw2, hstep,
    hi1, hi2, ?_, ?_, ?_⟩
  · intro t ht
    obtain ⟨d1, d2⟩ := div_mod_in_block c.BLOCK_SIZE p t hBS (by omega)
    rw [hi3 _ d1, d2, hblit, if_pos (by omega)]
    congr 1
    omega
  · intro q v hq hv
    by_cases hqj : q / c.BLOCK_SIZE = p / c.BLOCK_SIZE
    · rw [hi3 _ hqj, hblit]
      have hq' := Nat.div_add_mod q c.BLOCK_SIZE
      have hp' := Nat.div_add_mod p c.BLOCK_SIZE
      rw [hqj] at hq'
      rw [if_neg (by omega)]
      rcases hcase with hc | hc
      · simp [file_byte, hqj, hc] at hv
      · simpa [file_byte, hqj, hc, hblk] using hv
    · rw [hi4 _ hqj]; exact hv
  · have hu := unused_in_step c hBS ino.block p n (b2 : Int) hn hj
    rw [hw] at hu
    omega

/-- The append loop on a well-formed state with enough free blocks runs to its end within `n` rounds: the bytes `[p, p + n)` of the file are the buffer, the bytes outside are kept, and exactly the unused slots of the range are filled. -/
theorem append_loop_done (c : Config) (hBS : 0 < c.BLOCK_SIZE) (i : Nat) :
    ∀ (fuel n p : Nat) (s : FS) (buf : List Nat) (ino : inode),
      n ≤ fuel → n ≤ buf.length → p + n ≤ c.NUM_POINTER * c.BLOCK_SIZE →
      s.inodes[i]? = some ino → inode_ok c s ino → pool_ok c s →
      s.data_bitmap_mutex = false →
      unused_in c ino.block p n ≤ free_count s →
      ∃ (block1 : List Int) (bitmap1 : List Int) (blocks1 : List (List Nat)),
        append_loop c (i : Int) fuel s (p : Int) buf (n : Int) =
          .ok (.done ((p + n : Nat) : Int)
            { s with inodes := s.inodes.set i { ino with block := block1 }
                     data_bitmap := bitmap1, data_blocks := blocks1 }) ∧
        inode_ok c
          { s with inodes := s.inodes.set i { ino with block := block1 }
                   data_bitmap := bitmap1, data_blocks := blocks1 }
          { ino with block := block1 } ∧
        pool_ok c
          { s with inodes := s.inodes.set i { ino with block := block1 }
                   data_bitmap := bitmap1, data_blocks := blocks1 } ∧
        (∀ t : Nat, t < n →
          file_byte c
            { s with inodes := s.inodes.set i { ino with block := block1 }
                     data_bitmap := bitmap1, data_blocks := blocks1 }
            { ino with block := block1 } (p + t) = buf[t]?) ∧
        (∀ (q : Nat) (v : Nat), (q < p ∨ p + n ≤ q) → file_byte c s ino q = some v →
          file_byte c
            { s with inodes := s.inodes.set i { ino with block := block1 }
                     data_bitmap := bitmap1, data_blocks := blocks1 }
            { ino with block := block1 } q = some v) ∧
        bitmap1.count 0 + unused_in c ino.block p n = s.data_bitmap.count 0 := by
  intro fuel
  induction fuel with
  | zero =>
    intro n p s buf ino hfuel _ _ hino hok hpool _ _
    have hn : n = 0 := by omega
    subst hn
    refine ⟨ino.block, s.data_bitmap, s.data_blocks, ?_, ?_, ?_, ?_, ?_, ?_⟩
    · have : s.inodes.set i { ino with block := ino.block } = s.inodes :=
        set_self_of_getElem? _ _ _ hino
      rw [this]
      simp [append_loop]
    · exact hok
    · exact hpool
    · intro t ht; omega
    · intro q v _ hv; exact hv
    · simp [unused_in]
  | succ fuel ih =>
    intro n p s buf ino hfuel hbuf hcap hino hok hpool hmx hfree
    by_cases hn : n = 0
    · subst hn
      refine ⟨ino.block, s.data_bitmap, s.data_blocks, ?_, ?_, ?_, ?_, ?_, ?_⟩
      · have : s.inodes.set i { ino with block := ino.block } = s.inodes :=
          set_self_of_getElem? _ _ _ hino
        rw [this]
        simp [append_loop]
      · exact hok
      · exact hpool
      · intro t ht; omega
      · intro q v _ hv; exact hv
      · simp [unused_in]
    · have hn0 : 0 < n := Nat.pos_of_ne_zero hn
      obtain ⟨block2, bitmap2, blocks2, w, hw1, hw2, hstep, hok2, hpool2, hA, hB, hacc⟩ :=
        append_loop_step_full c hBS i fuel n p s buf ino hn0 hbuf hcap hino hok hpool hmx hfree
      have hiL : i < s.inodes.length := by
        by_contra hc
        simp [List.getElem?_eq_none (not_lt.mp hc)] at hino
      have hfree2 : unused_in c block2 (p + w) (n - w) ≤ bitmap2.count 0 := by
        unfold free_count at hfree; omega
      obtain ⟨block1, bitmap1, blocks1, hrun, hok1, hpool1, hA1, hB1, hacc1⟩ :=
        ih (n - w) (p + w)
          { s with inodes := s.inodes.set i { ino with block := block2 }
                   data_bitmap := bitmap2, data_blocks := blocks2 }
          (buf.drop w) { ino with block := block2 }
          (by omega) (by simp; omega) (by omega) (by simp [hiL]) hok2 hpool2 hmx hfree2
      simp only [List.set_set] at hrun hok1 hpool1 hA1 hB1
      have e : p + w + (n - w) = p + n := by omega
      rw [e] at hrun hB1
      refine ⟨block1, bitmap1, blocks1, ?_, hok1, hpool1, ?_, ?_, ?_⟩
      · rw [hstep, hrun]
      · intro t ht
        by_cases htw : t < w
        · have h1 := hA t htw
          have hsome : buf[t]? = some buf[t] := List.getElem?_eq_getElem (by omega)
          rw [hsome] at h1 ⊢
          exact hB1 _ _ (Or.inl (by omega)) h1
        · have h1 := hA1 (t - w) (by omega)
          have e2 : p + w + (t - w) = p + t := by omega
          rw [e2] at h1
          rw [h1, List.getElem?_drop]
          congr 1
          omega
      · intro q v hq hv
        exact hB1 q v (by omega) (hB q v (by omega) hv)
      · simp only at hacc1
        omega

/-- A pointer to a directory entry depends on the directory only. -/
theorem deref_congr (s t : FS) (p : Option Nat) (h : s.root_dir = t.root_dir) :
    deref s p = deref t p := by
  simp [deref, h]

/-- The result of `RSFS_append` at position `p` on a well-formed state with enough free blocks. -/
theorem append_ok (c : Config) (s : FS) (fd i p n : Nat) (e : open_file_entry)
    (d : dir_entry) (ino : inode) (X : List Nat)
    (hBS : 0 < c.BLOCK_SIZE) (hrw : c.RSFS_RDWR ≠ 0) (hfd : fd ≤ c.NUM_OPEN_FILE)
    (hlock : s.open_file_table_mutex = false) (hmx : s.data_bitmap_mutex = false)
    (hdesc : descriptor_on s fd e d i ino) (hpos : e.position = (p : Int))
    (hok : inode_ok c s ino) (hpool : pool_ok c s)
    (hn : 0 < n) (hX : n ≤ X.length) (hcap : p + n ≤ c.NUM_POINTER * c.BLOCK_SIZE)
    (hfree : unused_in c ino.block p n ≤ free_count s) :
    ∃ (block1 : List Int) (bitmap1 : List Int) (blocks1 : List (List Nat)),
      RSFS_append c s (fd : Int) X (n : Int) =
        .ok ((n : Int),
          { s with
            inodes := s.inodes.set i { ino with block := block1, length := ((p + n : Nat) : Int) }
            data_bitmap := bitmap1
            data_blocks := blocks1
            open_file_table := s.open_file_table.set fd
              { e with access_flag := c.RSFS_RDWR, position := ((p + n : Nat) : Int) } }) ∧
      inode_ok c
        { s with
            inodes := s.inodes.set i { ino with block := block1, length := ((p + n : Nat) : Int) }
            data_bitmap := bitmap1
            data_blocks := blocks1
            open_file_table := s.open_file_table.set fd
              { e with access_flag := c.RSFS_RDWR, position := ((p + n : Nat) : Int) } }
        { ino with block := block1, length := ((p + n : Nat) : Int) } ∧
      pool_ok c
        { s with
            inodes := s.inodes.set i { ino with block := block1, length := ((p + n : Nat) : Int) }
            data_bitmap := bitmap1
            data_blocks := blocks1
            open_file_table := s.open_file_table.set fd
              { e with access_flag := c.RSFS_RDWR, position := ((p + n : Nat) : Int) } } ∧
      (∀ t : Nat, t < n →
        file_byte c
          { s with
            inodes := s.inodes.set i { ino with block := block1, length := ((p + n : Nat) : Int) }
            data_bitmap := bitmap1
            data_blocks := blocks1
            open_file_table := s.open_file_table.set fd
              { e with access_flag := c.RSFS_RDWR, position := ((p + n : Nat) : Int) } }
          { ino with block := block1, length := ((p + n : Nat) : Int) } (p + t) = X[t]?) ∧
      (∀ (q : Nat) (v : Nat), (q < p ∨ p + n ≤ q) → file_byte c s ino q = some v →
        file_byte c
          { s with
            inodes := s.inodes.set i { ino with block := block1, length := ((p + n : Nat) : Int) }
            data_bitmap := bitmap1
            data_blocks := blocks1
            open_file_table := s.open_file_table.set fd
              { e with access_flag := c.RSFS_RDWR, position := ((p + n : Nat) : Int) } }
          { ino with block := block1, length := ((p + n : Nat) : Int) } q = some v) ∧
      bitmap1.count 0 + unused_in c ino.block p n = s.data_bitmap.count 0 := by
  obtain ⟨he, hd, hdi, hino⟩ := hdesc
  obtain ⟨eu, ed, ep, ea⟩ := e
  simp only at hpos hd
  subst hpos
  obtain ⟨block1, bitmap1, blocks1, hrun, hok1, hpool1, hA1, hB1, hacc1⟩ :=
    append_loop_done c hBS i n n p
      { s with open_file_table_mutex := true
               open_file_table := s.open_file_table.set fd
                 { used := eu, dir_entry := ed, position := (p : Int),
                   access_flag := c.RSFS_RDWR } }
      X ino (le_refl _) hX hcap hino hok hpool hmx hfree
  refine ⟨block1, bitmap1, blocks1, ?_, hok1, hpool1, hA1, hB1, hacc1⟩
  have hcond : (fd : Int) ≥ 0 ∧ (fd : Int) ≤ (c.NUM_OPEN_FILE : Int) ∧ (n : Int) > 0 := by
    refine ⟨by omega, by omega, by omega⟩
  have hd2 : deref
      { s with open_file_table_mutex := true
               open_file_table := s.open_file_table.set fd
                 { used := eu, dir_entry := ed, position := (p : Int),
                   access_flag := c.RSFS_RDWR } }
      ed = .ok d := by
    rw [← hd]; exact deref_congr _ _ _ rfl
  have hiL : i < s.inodes.length := by
    by_contra hc
    simp [List.getElem?_eq_none (not_lt.mp hc)] at hino
  simp only [RSFS_append, hcond, and_self, if_true, lock_open_file_table, hlock,
    Bool.false_eq_true, if_false, idx_natCast _ _ _ he, Int.toNat_ofNat, hrw, ne_eq,
    not_false_eq_true, hd2, hdi, hrun, unlock_open_file_table]
  rw [idx_natCast _ _ { ino with block := block1 } (by simp [hiL])]
  simp only [List.set_set]

/-- The read loop over `k` offsets that all have a byte copies these bytes to the buffer and advances the position by `k`. -/
theorem read_loop_ok (c : Config) (s : FS) (ino : inode) (hBS : 0 < c.BLOCK_SIZE)
    (hptr : ino.block.length ≤ c.NUM_POINTER) :
    ∀ (k i p : Nat) (buf : List Nat), i + k ≤ buf.length →
      (∀ t : Nat, t < k → (file_byte c s ino (p + t)).isSome = true) →
      ∃ buf1 : List Nat,
        read_loop c s ino k i (p : Int) buf = .ok (((p + k : Nat) : Int), buf1) ∧
        buf1.length = buf.length ∧
        (∀ t : Nat, t < k → buf1[i + t]? = file_byte c s ino (p + t)) ∧
        (∀ j : Nat, (j < i ∨ i + k ≤ j) → buf1[j]? = buf[j]?) := by
  intro k
  induction k with
  | zero =>
    intro i p buf _ _
    exact ⟨buf, by simp [read_loop], rfl, by intro t ht; omega, by intro j _; rfl⟩
  | succ k ih =>
    intro i p buf hlen hsome
    have h0 := hsome 0 (by omega)
    have hBS0 : c.BLOCK_SIZE ≠ 0 := by omega
    rw [Nat.add_zero] at h0
    cases hb : ino.block[p / c.BLOCK_SIZE]? with
    | none => simp [file_byte, hb] at h0
    | some b =>
      by_cases hneg : b < 0
      · simp [file_byte, hb, hneg] at h0
      · cases hblk : s.data_blocks[b.toNat]? with
        | none => simp [file_byte, hb, hneg, hblk] at h0
        | some blk =>
          cases hv : blk[p % c.BLOCK_SIZE]? with
          | none => simp [file_byte, hb, hneg, hblk, hv] at h0
          | some v =>
            have hfb : file_byte c s ino p = some v := by
              simp [file_byte, hb, hneg, hblk, hv]
            have hjL : p / c.BLOCK_SIZE < ino.block.length := by
              by_contra hc
              simp [List.getElem?_eq_none (not_lt.mp hc)] at hb
            have hb1 : ¬ (b = -1) := by omega
            have hNP : ¬ (((p / c.BLOCK_SIZE : Nat) : Int) ≥ (c.NUM_POINTER : Int)) := by omega
            have hi : i < buf.length := by omega
            obtain ⟨buf1, hrun, hl1, hA, hB⟩ := ih (i + 1) (p + 1) (buf.set i v)
              (by simp; omega)
              (by
                intro t ht
                have := hsome (t + 1) (by omega)
                have e : p + 1 + t = p + (t + 1) := by omega
                rw [e]; exact this)
            refine ⟨buf1, ?_, by simpa using hl1, ?_, ?_⟩
            · simp only [read_loop, hBS0, if_false, tdiv_natCast, tmod_natCast,
                idx_natCast _ _ _ hb, hb1, hNP, or_self, idx_of_nonneg _ _ _ (not_lt.mp hneg) hblk,
                idx_natCast _ _ _ hv, hi, if_true]
              have e : (p : Int) + 1 = ((p + 1 : Nat) : Int) := by push_cast; rfl
              rw [e, hrun]
              congr 2
              · have : p + 1 + k = p + (k + 1) := by omega
                rw [this]
            · intro t ht
              by_cases ht0 : t = 0
              · subst ht0
                rw [Nat.add_zero, Nat.add_zero, hB i (Or.inl (by omega)), hfb]
                simp [hi]
              · have := hA (t - 1) (by omega)
                have e1 : i + 1 + (t - 1) = i + t := by omega
                have e2 : p + 1 + (t - 1) = p + t := by omega
                rw [e1, e2] at this
                exact this
            · intro j hj
              rw [hB j (by omega), List.getElem?_set_ne (by omega)]

/-- The result of `RSFS_read` on a valid descriptor of a well-formed file when
the table lock is free.  At the end of the file it returns `0` and changes no
table, but leaves the table lock held.  Otherwise it returns
`k = min(size, length - position)`, copies the bytes of the file at offsets
`[position, position + k)` to the start of the buffer, advances the position by
`k` and changes nothing else. -/
theorem read_ok (c : Config) (s : FS) (fd i : Nat) (e : open_file_entry) (d : dir_entry)
    (ino : inode) (buf : List Nat) (size : Int)
    (hBS : 0 < c.BLOCK_SIZE) (hfd : fd < c.NUM_OPEN_FILE)
    (hlock : s.open_file_table_mutex = false)
    (hdesc : descriptor_on s fd e d i ino) (hsize : 0 < size) (hpos : 0 ≤ e.position)
    (hptr : ino.block.length = c.NUM_POINTER) (hread : readable c s ino)
    (hbuf : min size (ino.length - e.position) ≤ buf.length) :
    (ino.length - e.position ≤ 0 →
      RSFS_read c s (fd : Int) buf size =
        .ok (0, buf, { s with open_file_table_mutex := true })) ∧
    (0 < ino.length - e.position →
      ∃ buf1 : List Nat,
        RSFS_read c s (fd : Int) buf size =
          .ok (min size (ino.length - e.position), buf1,
            { s with
              open_file_table := s.open_file_table.set fd
                { e with position := e.position + min size (ino.length - e.position) } }) ∧
        buf1.length = buf.length ∧
        (∀ t : Nat, (t : Int) < min size (ino.length - e.position) →
          buf1[t]? = file_byte c s ino (e.position.toNat + t) ∧
          file_byte c s ino (e.position.toNat + t) ≠ none) ∧
        (∀ t : Nat, min size (ino.length - e.position) ≤ (t : Int) → buf1[t]? = buf[t]?)) := by
  obtain ⟨he, hd, hdi, hino⟩ := hdesc
  have hcond : (fd : Int) ≥ 0 ∧ (fd : Int) ≤ (c.NUM_OPEN_FILE : Int) ∧ size > 0 := by
    refine ⟨by omega, by omega, by omega⟩
  have hd1 : deref { s with open_file_table_mutex := true } e.dir_entry = .ok d := by
    rw [← hd]; exact deref_congr _ _ _ rfl
  constructor
  · intro hav
    simp only [RSFS_read, hcond, and_self, if_true, lock_open_file_table, hlock,
      Bool.false_eq_true, if_false, idx_natCast _ _ _ he, hd1, hdi, idx_natCast _ _ _ hino, hav]
  · intro hav
    obtain ⟨p, hp⟩ := Int.eq_ofNat_of_zero_le hpos
    obtain ⟨k, hk⟩ : ∃ k : Nat, min size (ino.length - e.position) = (k : Int) :=
      Int.eq_ofNat_of_zero_le (by omega)
    have hsz : (if size > ino.length - e.position then ino.length - e.position else size)
        = (k : Int) := by
      rw [← hk]; split_ifs <;> omega
    rw [hk] at hbuf ⊢
    have hsome : ∀ t : Nat, t < k → (file_byte c s ino (p + t)).isSome = true := by
      intro t ht
      apply hread
      omega
    obtain ⟨buf1, hrun, hl1, hA, hB⟩ := read_loop_ok c { s with open_file_table_mutex := true }
      ino hBS (le_of_eq hptr) k 0 p buf (by omega)
      (fun t ht => hsome t ht)
    refine ⟨buf1, ?_, hl1, ?_, ?_⟩
    · have hav' : ¬ (ino.length - e.position ≤ 0) := by omega
      simp only [RSFS_read, hcond, and_self, if_true, lock_open_file_table, hlock,
        Bool.false_eq_true, if_false, idx_natCast _ _ _ he, hd1, hdi, idx_natCast _ _ _ hino,
        hav', hsz, Int.toNat_ofNat, unlock_open_file_table]
      simp only [hp, hrun]
      have e1 : ((p + k : Nat) : Int) - (p : Int) = (k : Int) := by omega
      have e2 : ((p + k : Nat) : Int) = (p : Int) + (k : Int) := by omega
      rw [e1, e2]
    · intro t ht
      have ht' : t < k := by omega
      have := hA t ht'
      rw [Nat.zero_add] at this
      have this : buf1[t]? = file_byte c s ino (p + t) := this
      have hpn : e.position.toNat = p := by omega
      rw [hpn, this]
      refine ⟨rfl, ?_⟩
      have := hsome t ht'
      intro hnone
      rw [hnone] at this
      simp at this
    · intro t ht
      exact hB t (Or.inr (by omega))

/-- The result of `RSFS_fseek` on a valid descriptor when the table lock is
free.  For an offset outside `[0, length]` it returns the position and changes
no table, but leaves the table lock held.  For an offset inside it sets the
position to the offset, returns it and changes nothing else. -/
theorem fseek_ok (c : Config) (s : FS) (fd i : Nat) (e : open_file_entry) (d : dir_entry)
    (ino : inode) (offset : Int)
    (hfd : fd < c.NUM_OPEN_FILE) (hlock : s.open_file_table_mutex = false)
    (hdesc : descriptor_on s fd e d i ino) :
    ((offset < 0 ∨ offset > ino.length) →
      RSFS_fseek c s (fd : Int) offset =
        .ok (e.position, { s with open_file_table_mutex := true })) ∧
    ((0 ≤ offset ∧ offset ≤ ino.length) →
      RSFS_fseek c s (fd : Int) offset =
        .ok (offset,
          { s with open_file_table := s.open_file_table.set fd { e with position := offset } })) := by
  obtain ⟨he, hd, hdi, hino⟩ := hdesc
  have hcond : ¬ ((fd : Int) < 0 ∨ (fd : Int) ≥ (c.NUM_OPEN_FILE : Int)) := by omega
  have hd1 : deref { s with open_file_table_mutex := true } e.dir_entry = .ok d := by
    rw [← hd]; exact deref_congr _ _ _ rfl
  constructor
  · intro h
    simp only [RSFS_fseek, hcond, if_false, lock_open_file_table, hlock, Bool.false_eq_true,
      idx_natCast _ _ _ he, hd1, hdi, idx_natCast _ _ _ hino, h, if_true]
  · intro h
    have h' : ¬ (offset < 0 ∨ offset > ino.length) := by omega
    simp only [RSFS_fseek, hcond, if_false, lock_open_file_table, hlock, Bool.false_eq_true,
      idx_natCast _ _ _ he, hd1, hdi, idx_natCast _ _ _ hino, h', Int.toNat_ofNat,
      unlock_open_file_table]

/-- The result of `RSFS_close` on a valid descriptor whose gate can be released. -/
theorem close_ok (c : Config) (s : FS) (fd i : Nat) (e : open_file_entry) (d : dir_entry)
    (ino : inode) (hfd : fd ≤ c.NUM_OPEN_FILE) (hlock : s.open_file_table_mutex = false)
    (hdesc : descriptor_on s fd e d i ino)
    (hgate : e.access_flag = c.RSFS_RDONLY → ino.read_mutex = false) :
    RSFS_close c s (fd : Int) =
      .ok (0,
        { s with
          inodes := s.inodes.set i
            (if e.access_flag = c.RSFS_RDONLY then
              { ino with
                num_current_reader := ino.num_current_reader - 1
                rw_mutex := if ino.num_current_reader - 1 = 0 then false else ino.rw_mutex
                read_mutex := false }
            else { ino with rw_mutex := false })
          open_file_table := s.open_file_table.set fd
            { used := 0, dir_entry := none, position := 0, access_flag := -1 } }) := by
  obtain ⟨he, hd, hdi, hino⟩ := hdesc
  have hcond : (fd : Int) ≥ 0 ∧ (fd : Int) ≤ (c.NUM_OPEN_FILE : Int) := by omega
  have hfdL : fd < s.open_file_table.length := by
    by_contra hc
    simp [List.getElem?_eq_none (not_lt.mp hc)] at he
  by_cases hro : e.access_flag = c.RSFS_RDONLY
  · have hrm := hgate hro
    simp only [RSFS_close, hcond, and_self, if_true, idx_natCast _ _ _ he, hd, hdi,
      idx_natCast _ _ _ hino, hro, hrm, Bool.false_eq_true, if_false, Int.toNat_ofNat,
      free_open_file_entry, lock_open_file_table, hlock, upd_natCast _ _ _ hfdL,
      unlock_open_file_table]
  · simp only [RSFS_close, hcond, and_self, if_true, idx_natCast _ _ _ he, hd, hdi,
      idx_natCast _ _ _ hino, hro, Bool.false_eq_true, if_false, Int.toNat_ofNat,
      free_open_file_entry, lock_open_file_table, hlock, upd_natCast _ _ _ hfdL,
      unlock_open_file_table]

/-- The result of `RSFS_open` on an existing file when no gate it needs is held and a table slot is unused. -/
theorem open_ok (c : Config) (s : FS) (file_name : String) (access_flag : Int)
    (g : open_file_entry) (d : dir_entry) (i k : Nat) (ino : inode)
    (hmode : access_flag = c.RSFS_RDONLY ∨ access_flag = c.RSFS_RDWR)
    (hlock : s.open_file_table_mutex = false)
    (hsearch : search_dir s file_name = some d) (hdi : d.inode_number = (i : Int))
    (hino : s.inodes[i]? = some ino)
    (hk : first_unused s.open_file_table = some k)
    (hgate1 : access_flag = c.RSFS_RDONLY →
      (scan_current_file (some d.addr) s.open_file_table g).access_flag = c.RSFS_RDWR →
      ino.read_mutex = false ∧ (ino.num_current_reader + 1 = 1 → ino.rw_mutex = false))
    (hgate2 : access_flag ≠ c.RSFS_RDONLY →
      ((scan_current_file (some d.addr) s.open_file_table g).access_flag = c.RSFS_RDWR ∨
        (scan_current_file (some d.addr) s.open_file_table g).access_flag = c.RSFS_RDONLY) →
      ino.rw_mutex = false) :
    RSFS_open c s file_name access_flag g =
      .ok ((k : Int),
        { s with
          inodes := s.inodes.set i
            (if access_flag = c.RSFS_RDONLY then
              (if (scan_current_file (some d.addr) s.open_file_table g).access_flag = c.RSFS_RDWR
               then
                { ino with
                  num_current_reader := ino.num_current_reader + 1
                  rw_mutex := if ino.num_current_reader + 1 = 1 then true else ino.rw_mutex
                  read_mutex := false }
               else ino)
            else
              (if (scan_current_file (some d.addr) s.open_file_table g).access_flag = c.RSFS_RDWR ∨
                  (scan_current_file (some d.addr) s.open_file_table g).access_flag = c.RSFS_RDONLY
               then { ino with rw_mutex := true }
               else ino))
          open_file_table := s.open_file_table.set k
            { used := 1, dir_entry := some d.addr, position := 0, access_flag := access_flag } }) := by
  have hs1 : search_dir { s with open_file_table_mutex := true } file_name = some d := by
    rw [← hsearch]; rfl
  have hiL : i < s.inodes.length := by
    by_contra hc
    simp [List.getElem?_eq_none (not_lt.mp hc)] at hino
  have hself : s.inodes.set i ino = s.inodes := set_self_of_getElem? _ _ _ hino
  simp only [RSFS_open, hmode, if_true, lock_open_file_table, hlock, Bool.false_eq_true,
    if_false, hs1, unlock_open_file_table, hdi]
  by_cases hro : access_flag = c.RSFS_RDONLY
  · simp only [hro, if_true]
    rw [hro] at hgate1
    by_cases hcf : (scan_current_file (some d.addr) s.open_file_table g).access_flag = c.RSFS_RDWR
    · obtain ⟨hrm, hrw⟩ := hgate1 rfl hcf
      have hblk : ¬ (ino.num_current_reader + 1 = 1 ∧ ino.rw_mutex = true) := by
        intro ⟨h1, h2⟩
        rw [hrw h1] at h2
        exact Bool.false_ne_true h2
      simp only [hcf, if_true, idx_natCast _ _ _ hino, hrm, Bool.false_eq_true, if_false, hblk,
        upd_natCast _ _ _ hiL, allocate_open_file_entry, lock_open_file_table, hlock, hk,
        unlock_open_file_table]
    · simp only [hcf, if_false, allocate_open_file_entry, lock_open_file_table, hlock, hk,
        Bool.false_eq_true, unlock_open_file_table, hself]
  · simp only [hro, if_false]
    by_cases hcf : (scan_current_file (some d.addr) s.open_file_table g).access_flag = c.RSFS_RDWR ∨
        (scan_current_file (some d.addr) s.open_file_table g).access_flag = c.RSFS_RDONLY
    · have hrw := hgate2 hro hcf
      simp only [hcf, if_true, idx_natCast _ _ _ hino, hrw, Bool.false_eq_true, if_false,
        upd_natCast _ _ _ hiL, allocate_open_file_entry, lock_open_file_table, hlock, hk,
        unlock_open_file_table]
    · simp only [hcf, if_false, allocate_open_file_entry, lock_open_file_table, hlock, hk,
        Bool.false_eq_true, unlock_open_file_table, hself]

/-- A buffer whose first bytes are those of `X` starts with `X`. -/
theorem take_eq_of_getElem? (buf X : List Nat)
    (h2 : ∀ t : Nat, t < X.length → buf[t]? = X[t]?) : buf.take X.length = X := by
  apply List.ext_getElem?
  intro t
  rw [List.getElem?_take]
  split_ifs with h
  · exact h2 t h
  · rw [List.getElem?_eq_none (not_lt.mp h)]

/-- Append at position `0`, seek to `0`, read: the bytes read are the bytes appended. -/
theorem round_trip (c : Config) (s : FS) (fd i : Nat) (e : open_file_entry)
    (d : dir_entry) (ino : inode) (X buf : List Nat)
    (hBS : 0 < c.BLOCK_SIZE) (hrw : c.RSFS_RDWR ≠ 0) (hfd : fd < c.NUM_OPEN_FILE)
    (hlock : s.open_file_table_mutex = false) (hmx : s.data_bitmap_mutex = false)
    (hdesc : descriptor_on s fd e d i ino) (hpos : e.position = 0)
    (hok : inode_ok c s ino) (hpool : pool_ok c s)
    (hn : 0 < X.length) (hcap : X.length ≤ c.NUM_POINTER * c.BLOCK_SIZE)
    (hfree : unused_in c ino.block 0 X.length ≤ free_count s)
    (hbuf : X.length ≤ buf.length) :
    ∃ (s1 s2 s3 : FS) (buf1 : List Nat),
      RSFS_append c s (fd : Int) X (X.length : Int) = .ok ((X.length : Int), s1) ∧
      RSFS_fseek c s1 (fd : Int) 0 = .ok (0, s2) ∧
      RSFS_read c s2 (fd : Int) buf (X.length : Int) = .ok ((X.length : Int), buf1, s3) ∧
      buf1.take X.length = X := by
  obtain ⟨block1, bitmap1, blocks1, happ, hok1, hpool1, hA, hB, hacc⟩ :=
    append_ok c s fd i 0 X.length e d ino X hBS hrw (le_of_lt hfd) hlock hmx hdesc
      (by simpa using hpos) hok hpool hn (le_refl _) (by omega) hfree
  obtain ⟨he, hd, hdi, hino⟩ := hdesc
  have hfdL : fd < s.open_file_table.length := by
    by_contra hc
    simp [List.getElem?_eq_none (not_lt.mp hc)] at he
  have hiL : i < s.inodes.length := by
    by_contra hc
    simp [List.getElem?_eq_none (not_lt.mp hc)] at hino
  simp only [Nat.zero_add] at happ hok1 hpool1 hA hB
  -- the state after the append
  have hdesc1 : descriptor_on
      { s with
        inodes := s.inodes.set i { ino with block := block1, length := (X.length : Int) }
        data_bitmap := bitmap1
        data_blocks := blocks1
        open_file_table := s.open_file_table.set fd
          { e with access_flag := c.RSFS_RDWR, position := (X.length : Int) } }
      fd { e with access_flag := c.RSFS_RDWR, position := (X.length : Int) } d i
      { ino with block := block1, length := (X.length : Int) } := by
    refine ⟨by simp [hfdL], ?_, hdi, by simp [hiL]⟩
    rw [← hd]; exact deref_congr _ _ _ rfl
  obtain ⟨_, hseek⟩ := fseek_ok c _ fd i _ d _ 0 hfd (by exact hlock) hdesc1
  have hseek := hseek ⟨le_refl _, by simp⟩
  simp only [List.set_set] at hseek
  -- the state after the seek
  have hdesc2 : descriptor_on
      { s with
        inodes := s.inodes.set i { ino with block := block1, length := (X.length : Int) }
        data_bitmap := bitmap1
        data_blocks := blocks1
        open_file_table := s.open_file_table.set fd
          { e with access_flag := c.RSFS_RDWR, position := 0 } }
      fd { e with access_flag := c.RSFS_RDWR, position := 0 } d i
      { ino with block := block1, length := (X.length : Int) } := by
    refine ⟨by simp [hfdL], ?_, hdi, by simp [hiL]⟩
    rw [← hd]; exact deref_congr _ _ _ rfl
  have hread : readable c
      { s with
        inodes := s.inodes.set i { ino with block := block1, length := (X.length : Int) }
        data_bitmap := bitmap1
        data_blocks := blocks1
        open_file_table := s.open_file_table.set fd
          { e with access_flag := c.RSFS_RDWR, position := 0 } }
      { ino with block := block1, length := (X.length : Int) } := by
    intro q hq
    simp only [Int.toNat_ofNat] at hq
    have h1 := hA q hq
    rw [List.getElem?_eq_getElem hq] at h1
    have h2 : file_byte c
      { s with
        inodes := s.inodes.set i { ino with block := block1, length := (X.length : Int) }
        data_bitmap := bitmap1
        data_blocks := blocks1
        open_file_table := s.open_file_table.set fd
          { e with access_flag := c.RSFS_RDWR, position := 0 } }
      { ino with block := block1, length := (X.length : Int) } q = some X[q] := h1
    rw [h2]; rfl
  obtain ⟨_, hrd⟩ := read_ok c _ fd i _ d _ buf (X.length : Int) hBS hfd (by exact hlock) hdesc2
    (by omega) (le_refl _) hok1.1 hread (by simp; omega)
  obtain ⟨buf1, hrd1, hl1, hbytes, _⟩ := hrd (by simp; omega)
  simp only [sub_zero, min_self, zero_add, List.set_set, Int.toNat_zero, Nat.zero_add] at hrd1 hbytes
  refine ⟨_, _, _, buf1, happ, hseek, hrd1, ?_⟩
  apply take_eq_of_getElem?
  intro t ht
  rw [(hbytes t (by omega)).1]
  exact hA t ht

/-- A descriptor of the only entry of the directory. -/
theorem descriptor_on_intro (s : FS) (fd : Nat) (e : open_file_entry) (d : dir_entry) (i : Nat)
    (ino : inode) (a : Nat) (h1 : s.open_file_table[fd]? = some e) (h2 : e.dir_entry = some a)
    (h3 : s.root_dir = [d]) (h4 : d.addr = a) (h5 : d.inode_number = (i : Int))
    (h6 : s.inodes[i]? = some ino) : descriptor_on s fd e d i ino := by
  refine ⟨h1, ?_, h5, h6⟩
  simp [deref, h2, h3, h4]

/-- A write needs at most as many blocks as it spans. -/
theorem unused_in_replicate (c : Config) (p n m : Nat) :
    unused_in c (List.replicate m (-1)) p n ≤ (p + n - 1) / c.BLOCK_SIZE + 1 - p / c.BLOCK_SIZE := by
  unfold unused_in
  split_ifs with h
  · omega
  · calc List.count (-1) (List.take ((p + n - 1) / c.BLOCK_SIZE + 1 - p / c.BLOCK_SIZE)
            (List.drop (p / c.BLOCK_SIZE) (List.replicate m (-1))))
        ≤ (List.take ((p + n - 1) / c.BLOCK_SIZE + 1 - p / c.BLOCK_SIZE)
            (List.drop (p / c.BLOCK_SIZE) (List.replicate m (-1)))).length := List.count_le_length _ _
      _ ≤ (p + n - 1) / c.BLOCK_SIZE + 1 - p / c.BLOCK_SIZE := by
          rw [List.length_take]; exact Nat.min_le_left _ _

/-- An inode with all pointers unused is well formed. -/
theorem inode_ok_fresh (c : Config) (s : FS) (ino : inode)
    (h : ino.block = List.replicate c.NUM_POINTER (-1)) : inode_ok c s ino := by
  refine ⟨by simp [h], ?_, ?_⟩
  · intro b hb
    rw [h] at hb
    exact Or.inl (List.eq_of_mem_replicate hb)
  · intro j₁ h₁ _ _ _ _
    rw [h] at h₁ ⊢
    simp only [List.length_replicate] at h₁
    simp [List.getElem?_replicate, h₁]

/-- The first `RSFS_create` after `RSFS_init` takes inode `0`. -/
theorem init_create (c : Config) (mem : Nat → Nat → Nat) (name : String)
    (hI : 0 < c.NUM_INODES) :
    RSFS_create (RSFS_init c mem).2 name =
      .ok (0,
        { (RSFS_init c mem).2 with
          root_dir := [{ addr := 0, name := name, inode_number := 0 }]
          next_addr := 1
          inode_bitmap := (List.replicate c.NUM_INODES 0).set 0 1 }) := by
  obtain ⟨ni, hni⟩ : ∃ ni, c.NUM_INODES = ni + 1 := ⟨c.NUM_INODES - 1, by omega⟩
  simp [RSFS_create, RSFS_init, search_dir, insert_dir, allocate_inode, hni,
    List.replicate_succ, first_free, store_inode_number]

/-- The call `RSFS_open` succeeds when the gates of the inode are free: what it leaves. -/
theorem open_ex (c : Config) (s : FS) (file_name : String) (access_flag : Int)
    (g : open_file_entry) (d : dir_entry) (i k : Nat) (ino : inode)
    (hmode : access_flag = c.RSFS_RDONLY ∨ access_flag = c.RSFS_RDWR)
    (hlock : s.open_file_table_mutex = false)
    (hsearch : search_dir s file_name = some d) (hdi : d.inode_number = (i : Int))
    (hino : s.inodes[i]? = some ino)
    (hk : first_unused s.open_file_table = some k)
    (hrm : ino.read_mutex = false) (hrwm : ino.rw_mutex = false) :
    ∃ (s1 : FS) (ino1 : inode),
      RSFS_open c s file_name access_flag g = .ok ((k : Int), s1) ∧
      s1.open_file_table = s.open_file_table.set k
        { used := 1, dir_entry := some d.addr, position := 0, access_flag := access_flag } ∧
      s1.inodes = s.inodes.set i ino1 ∧
      ino1.block = ino.block ∧ ino1.length = ino.length ∧ ino1.read_mutex = false ∧
      s1.root_dir = s.root_dir ∧ s1.open_file_table_mutex = false ∧
      s1.data_bitmap_mutex = s.data_bitmap_mutex ∧ s1.data_blocks = s.data_blocks ∧
      s1.data_bitmap = s.data_bitmap := by
  have h := open_ok c s file_name access_flag g d i k ino hmode hlock hsearch hdi hino hk
    (fun _ _ => ⟨hrm, fun _ => hrwm⟩) (fun _ _ => hrwm)
  refine ⟨_, _, h, rfl, rfl, ?_, ?_, ?_, rfl, hlock, rfl, rfl, rfl⟩
  · split_ifs <;> rfl
  · split_ifs <;> rfl
  · split_ifs <;> first | rfl | exact hrm

/-- The call `RSFS_close` succeeds on a valid descriptor: what it leaves. -/
theorem close_ex (c : Config) (s : FS) (fd i : Nat) (e : open_file_entry) (d : dir_entry)
    (ino : inode) (hfd : fd ≤ c.NUM_OPEN_FILE) (hlock : s.open_file_table_mutex = false)
    (hdesc : descriptor_on s fd e d i ino) (hrm : ino.read_mutex = false) :
    ∃ (s1 : FS) (ino1 : inode),
      RSFS_close c s (fd : Int) = .ok (0, s1) ∧
      s1.open_file_table = s.open_file_table.set fd
        { used := 0, dir_entry := none, position := 0, access_flag := -1 } ∧
      s1.inodes = s.inodes.set i ino1 ∧
      ino1.block = ino.block ∧ ino1.length = ino.length ∧ ino1.read_mutex = false ∧
      (e.access_flag ≠ c.RSFS_RDONLY → ino1.rw_mutex = false) ∧
      s1.root_dir = s.root_dir ∧ s1.open_file_table_mutex = false ∧
      s1.data_bitmap_mutex = s.data_bitmap_mutex ∧ s1.data_blocks = s.data_blocks ∧
      s1.data_bitmap = s.data_bitmap := by
  have h := close_ok c s fd i e d ino hfd hlock hdesc (fun _ => hrm)
  refine ⟨_, _, h, rfl, rfl, ?_, ?_, ?_, ?_, rfl, hlock, rfl, rfl, rfl⟩
  · split_ifs <;> rfl
  · split_ifs <;> rfl
  · split_ifs <;> first | rfl | exact hrm
  · intro hne
    rw [if_neg hne]

/-- The call `RSFS_append` succeeds on a well-formed state: what it leaves. -/
theorem append_ex (c : Config) (s : FS) (fd i p n : Nat) (e : open_file_entry)
    (d : dir_entry) (ino : inode) (X : List Nat)
    (hBS : 0 < c.BLOCK_SIZE) (hrw : c.RSFS_RDWR ≠ 0) (hfd : fd ≤ c.NUM_OPEN_FILE)
    (hlock : s.open_file_table_mutex = false) (hmx : s.data_bitmap_mutex = false)
    (hdesc : descriptor_on s fd e d i ino) (hpos : e.position = (p : Int))
    (hok : inode_ok c s ino) (hpool : pool_ok c s)
    (hn : 0 < n) (hX : n ≤ X.length) (hcap : p + n ≤ c.NUM_POINTER * c.BLOCK_SIZE)
    (hfree : unused_in c ino.block p n ≤ free_count s) :
    ∃ (s1 : FS) (ino1 : inode),
      RSFS_append c s (fd : Int) X (n : Int) = .ok ((n : Int), s1) ∧
      s1.open_file_table = s.open_file_table.set fd
        { e with access_flag := c.RSFS_RDWR, position := ((p + n : Nat) : Int) } ∧
      s1.inodes = s.inodes.set i ino1 ∧
      ino1.length = ((p + n : Nat) : Int) ∧ ino1.block.length = c.NUM_POINTER ∧
      ino1.read_mutex = ino.read_mutex ∧ ino1.rw_mutex = ino.rw_mutex ∧
      ino1.num_current_reader = ino.num_current_reader ∧
      (∀ t : Nat, t < n → file_byte c s1 ino1 (p + t) = X[t]?) ∧
      (∀ (q : Nat) (v : Nat), (q < p ∨ p + n ≤ q) → file_byte c s ino q = some v →
        file_byte c s1 ino1 q = some v) ∧
      inode_ok c s1 ino1 ∧ pool_ok c s1 ∧
      free_count s1 + unused_in c ino.block p n = free_count s ∧
      s1.root_dir = s.root_dir ∧ s1.open_file_table_mutex = false ∧
      s1.data_bitmap_mutex = false ∧ s1.inode_bitmap = s.inode_bitmap := by
  obtain ⟨block1, bitmap1, blocks1, happ, hok1, hpool1, hA, hB, hacc⟩ :=
    append_ok c s fd i p n e d ino X hBS hrw hfd hlock hmx hdesc hpos hok hpool hn hX hcap hfree
  exact ⟨_, _, happ, rfl, rfl, rfl, hok1.1, rfl, rfl, rfl, hA, hB, hok1, hpool1, hacc, rfl,
    hlock, hmx, rfl⟩

/-- The call `RSFS_read` of a whole file of `n` bytes from position `0` returns the file. -/
theorem read_all_ex (c : Config) (s : FS) (fd i n : Nat) (e : open_file_entry) (d : dir_entry)
    (ino : inode) (X buf : List Nat)
    (hBS : 0 < c.BLOCK_SIZE) (hfd : fd < c.NUM_OPEN_FILE)
    (hlock : s.open_file_table_mutex = false)
    (hdesc : descriptor_on s fd e d i ino) (hn : 0 < n) (hpos : e.position = 0)
    (hlen : ino.length = (n : Int)) (hptr : ino.block.length = c.NUM_POINTER)
    (hXn : X.length = n)
    (hbytes : ∀ t : Nat, t < n → file_byte c s ino t = X[t]?)
    (hbuf : n ≤ buf.length) :
    ∃ (s1 : FS) (buf1 : List Nat),
      RSFS_read c s (fd : Int) buf (n : Int) = .ok ((n : Int), buf1, s1) ∧
      buf1.take n = X ∧
      s1.open_file_table = s.open_file_table.set fd { e with position := (n : Int) } ∧
      s1.inodes = s.inodes ∧ s1.root_dir = s.root_dir ∧ s1.open_file_table_mutex = false := by
  have hread : readable c s ino := by
    intro q hq
    rw [hlen, Int.toNat_ofNat] at hq
    rw [hbytes q hq, List.getElem?_eq_getElem (by omega)]
    rfl
  obtain ⟨_, hrd⟩ := read_ok c s fd i e d ino buf (n : Int) hBS hfd hlock hdesc
    (by omega) (by omega) hptr hread (by rw [hlen, hpos]; simp; omega)
  obtain ⟨buf1, hrd1, hl1, hb, _⟩ := hrd (by rw [hlen, hpos]; omega)
  rw [hlen, hpos] at hrd1 hb
  simp only [sub_zero, min_self, zero_add, Int.toNat_zero, Nat.zero_add] at hrd1 hb
  refine ⟨_, buf1, hrd1, ?_, rfl, rfl, rfl, hlock⟩
  subst hXn
  apply take_eq_of_getElem?
  intro t ht
  rw [(hb t (by omega)).1]
  exact hbytes t ht

/-- A descriptor below `0` or above `NUM_OPEN_FILE` is rejected by `RSFS_read`
and `RSFS_close`, and one below `0` or from `NUM_OPEN_FILE` on by `RSFS_fseek`:
the call returns `-1` and the state is as before. -/
theorem out_of_range_rejected (c : Config) (s : FS) (fd : Int) (buf : List Nat) (size offset : Int) :
    ((fd < 0 ∨ (c.NUM_OPEN_FILE : Int) < fd) →
      RSFS_read c s fd buf size = .ok (-1, buf, s) ∧ RSFS_close c s fd = .ok (-1, s)) ∧
    ((fd < 0 ∨ (c.NUM_OPEN_FILE : Int) ≤ fd) → RSFS_fseek c s fd offset = .ok (-1, s)) := by
  constructor
  · intro h
    have h1 : ¬ (fd ≥ 0 ∧ fd ≤ (c.NUM_OPEN_FILE : Int) ∧ size > 0) := by omega
    have h2 : ¬ (fd ≥ 0 ∧ fd ≤ (c.NUM_OPEN_FILE : Int)) := by omega
    simp only [RSFS_read, RSFS_close, h1, h2, if_false, and_self]
  · intro h
    have h1 : fd < 0 ∨ fd ≥ (c.NUM_OPEN_FILE : Int) := by omega
    simp only [RSFS_fseek, h1, if_true]

/-- Opening a name that the directory does not hold dereferences `NULL`. -/
theorem open_missing (c : Config) (s : FS) (file_name : String) (access_flag : Int)
    (g : open_file_entry)
    (hmode : access_flag = c.RSFS_RDONLY ∨ access_flag = c.RSFS_RDWR)
    (hlock : s.open_file_table_mutex = false) (hsearch : search_dir s file_name = none) :
    RSFS_open c s file_name access_flag g = .fault .null_deref := by
  have hs1 : search_dir { s with open_file_table_mutex := true } file_name = none := by
    rw [← hsearch]; rfl
  simp only [RSFS_open, hmode, if_true, lock_open_file_table, hlock, Bool.false_eq_true,
    if_false, hs1]

/-- A name of the directory is found by `search_dir`. -/
theorem search_dir_of_mem (s : FS) (file_name : String)
    (h : ∃ e ∈ s.root_dir, e.name = file_name) : ∃ d, search_dir s file_name = some d := by
  obtain ⟨e, he, hn⟩ := h
  cases hf : search_dir s file_name with
  | some d => exact ⟨d, rfl⟩
  | none =>
    unfold search_dir at hf
    rw [List.find?_eq_none] at hf
    have := hf e he
    simp [hn] at this

/-- One round of the append loop on a well-formed state, when a block can be had for the
slot of the current position: the block `b2` is (or gets) linked there and receives the
next bytes of the buffer. -/
theorem append_round (c : Config) (hBS : 0 < c.BLOCK_SIZE) (i fuel n p : Nat) (s : FS)
    (buf : List Nat) (ino : inode)
    (hn : 0 < n) (hbuf : n ≤ buf.length) (hcap : p + n ≤ c.NUM_POINTER * c.BLOCK_SIZE)
    (hino : s.inodes[i]? = some ino) (hok : inode_ok c s ino) (hpool : pool_ok c s)
    (hmx : s.data_bitmap_mutex = false)
    (hslot : ino.block[p / c.BLOCK_SIZE]? = some (-1) → 0 < free_count s) :
    ∃ (b2 : Nat) (bitmap2 : List Int) (blk : List Nat),
      s.data_blocks[b2]? = some blk ∧
      (ino.block[p / c.BLOCK_SIZE]? = some (-1) ∨
        ino.block[p / c.BLOCK_SIZE]? = some (b2 : Int)) ∧
      bitmap2.length = s.data_bitmap.length ∧
      (∀ x : Nat, s.data_bitmap[x]? ≠ some 0 → bitmap2[x]? ≠ some 0) ∧
      bitmap2[b2]? ≠ some 0 ∧
      (∀ j' : Nat, j' ≠ p / c.BLOCK_SIZE → ino.block[j']? ≠ some (b2 : Int)) ∧
      bitmap2.count 0 + (if ino.block[p / c.BLOCK_SIZE]? = some (-1) then 1 else 0) =
        s.data_bitmap.count 0 ∧
      append_loop c (i : Int) (fuel + 1) s (p : Int) buf (n : Int) =
        append_loop c (i : Int) fuel
          { s with
            inodes := s.inodes.set i { ino with block := ino.block.set (p / c.BLOCK_SIZE) (b2 : Int) }
            data_bitmap := bitmap2
            data_blocks := s.data_blocks.set b2
              (blk.take (p % c.BLOCK_SIZE) ++
                buf.take (min n (c.BLOCK_SIZE - p % c.BLOCK_SIZE)) ++
                blk.drop (p % c.BLOCK_SIZE + min n (c.BLOCK_SIZE - p % c.BLOCK_SIZE))) }
          ((p + min n (c.BLOCK_SIZE - p % c.BLOCK_SIZE) : Nat) : Int)
          (buf.drop (min n (c.BLOCK_SIZE - p % c.BLOCK_SIZE)))
          ((n - min n (c.BLOCK_SIZE - p % c.BLOCK_SIZE) : Nat) : Int) := by
  have ho : p % c.BLOCK_SIZE < c.BLOCK_SIZE := Nat.mod_lt _ hBS
  have hjNP : p / c.BLOCK_SIZE < c.NUM_POINTER := by
    apply Nat.div_lt_of_lt_mul
    rw [Nat.mul_comm]; omega
  obtain ⟨hlenb, hptr, hinj⟩ := hok
  obtain ⟨hpl, hpb⟩ := hpool
  have hj : p / c.BLOCK_SIZE < ino.block.length := by omega
  have hiL : i < s.inodes.length := by
    by_contra hc
    simp [List.getElem?_eq_none (not_lt.mp hc)] at hino
  obtain ⟨w, hw⟩ : ∃ w, min n (c.BLOCK_SIZE - p % c.BLOCK_SIZE) = w := ⟨_, rfl⟩
  have hw1 : 0 < w := by omega
  have hw2 : w ≤ n := by omega
  have hw3 : p % c.BLOCK_SIZE + w ≤ c.BLOCK_SIZE := by omega
  have hbytes : (if (n : Int) < (c.BLOCK_SIZE : Int) - ((p % c.BLOCK_SIZE : Nat) : Int) then (n : Int)
      else (c.BLOCK_SIZE : Int) - ((p % c.BLOCK_SIZE : Nat) : Int)) = (w : Int) := by
    split_ifs with h <;> omega
  have hsz : (n : Int) > 0 := by exact_mod_cast hn
  have hBS0 : c.BLOCK_SIZE ≠ 0 := by omega
  have hcp : (p : Int) + (w : Int) = ((p + w : Nat) : Int) := by push_cast; rfl
  have hsz2 : (n : Int) - (w : Int) = ((n - w : Nat) : Int) := by omega
  rw [hw]
  cases hb : ino.block[p / c.BLOCK_SIZE]? with
  | none => simp [List.getElem?_eq_none_iff] at hb; omega
  | some b =>
    by_cases hb1 : b = -1
    · -- a block is allocated
      subst hb1
      have hfc : 0 < s.data_bitmap.count 0 := hslot hb
      obtain ⟨k, hk⟩ := first_free_of_count_pos _ hfc
      obtain ⟨hk1, hk2⟩ := first_free_spec _ _ hk
      have hkb : k < s.data_blocks.length := by omega
      obtain ⟨blk, hblk⟩ : ∃ blk, s.data_blocks[k]? = some blk :=
        ⟨_, List.getElem?_eq_getElem hkb⟩
      have hblkL : blk.length = c.BLOCK_SIZE := hpb blk (List.getElem?_mem hblk)
      have hkne : ¬ ((k : Int) = -1) := by omega
      refine ⟨k, s.data_bitmap.set k 1, blk, hblk, Or.inl rfl, by simp, ?_, ?_, ?_, ?_, ?_⟩
      · intro x hx
        rw [List.getElem?_set]
        split_ifs <;> simp_all
      · simp [List.getElem?_set, hk1]
      · intro j' _ hj'
        rcases hptr (k : Int) (List.getElem?_mem hj') with h | ⟨_, _, h3⟩
        · omega
        · simp [hk2] at h3
      · rw [if_pos rfl, count_zero_set_one _ _ hk2]; omega
      · simp only [append_loop, hsz, if_true, hBS0, if_false, tdiv_natCast, tmod_natCast,
          idx_natCast _ _ _ hino, idx_natCast _ _ _ hb, allocate_data_block, hmx, hk,
          Bool.false_eq_true, hkne, upd_natCast _ _ _ hj, upd_natCast _ _ _ hiL, hbytes,
          memcpy_to_block, idx_natCast _ _ _ hblk, hcp, hsz2, Int.toNat_ofNat]
        have hcond : (0 : Int) ≤ ((p % c.BLOCK_SIZE : Nat) : Int) ∧ (0 : Int) ≤ (w : Int) ∧
            ((p % c.BLOCK_SIZE : Nat) : Int) + (w : Int) ≤ (blk.length : Int) ∧
            (w : Int) ≤ (buf.length : Int) := by
          refine ⟨by omega, by omega, by omega, by omega⟩
        rw [if_pos hcond]
        have e : (((p % c.BLOCK_SIZE : Nat) : Int) + (w : Int)).toNat = p % c.BLOCK_SIZE + w := by
          omega
        rw [e]
    · -- the slot is linked already
      have hbok : block_ok s b := by
        rcases hptr b (List.getElem?_mem hb) with h | h
        · exact absurd h hb1
        · exact h
      obtain ⟨hb0, hblt, hbbit⟩ := hbok
      obtain ⟨blk, hblk⟩ : ∃ blk, s.data_blocks[b.toNat]? = some blk :=
        ⟨_, List.getElem?_eq_getElem hblt⟩
      have hblkL : blk.length = c.BLOCK_SIZE := hpb blk (List.getElem?_mem hblk)
      have hbc : ((b.toNat : Nat) : Int) = b := Int.toNat_of_nonneg hb0
      have hne : ino.block[p / c.BLOCK_SIZE]? ≠ some (-1) := by
        rw [hb]; simpa using hb1
      refine ⟨b.toNat, s.data_bitmap, blk, hblk, Or.inr (by rw [hbc]), rfl,
        fun _ h => h, hbbit, ?_, ?_, ?_⟩
      · intro j' hj' hj'b
        rw [hbc] at hj'b
        have hj'L : j' < ino.block.length := by
          by_contra hc
          simp [List.getElem?_eq_none (not_lt.mp hc)] at hj'b
        have := hinj j' hj'L _ hj hj' (by rw [hj'b, hb])
        rw [hj'b] at this
        simp at this
        exact hb1 this
      · simp [hb, hb1]
      · have hset : ino.block.set (p / c.BLOCK_SIZE) ((b.toNat : Nat) : Int) = ino.block := by
          rw [hbc]; exact set_self_of_getElem? _ _ _ hb
        have hset2 : s.inodes.set i { ino with block := ino.block } = s.inodes :=
          set_self_of_getElem? _ _ _ hino
        rw [hset, hset2]
        simp only [append_loop, hsz, if_true, hBS0, if_false, tdiv_natCast, tmod_natCast,
          idx_natCast _ _ _ hino, idx_natCast _ _ _ hb, hb1, hbytes,
          memcpy_to_block, idx_of_nonneg _ _ _ hb0 hblk, hcp, hsz2, Int.toNat_ofNat]
        have hcond : (0 : Int) ≤ ((p % c.BLOCK_SIZE : Nat) : Int) ∧ (0 : Int) ≤ (w : Int) ∧
            ((p % c.BLOCK_SIZE : Nat) : Int) + (w : Int) ≤ (blk.length : Int) ∧
            (w : Int) ≤ (buf.length : Int) := by
          refine ⟨by omega, by omega, by omega, by omega⟩
        rw [if_pos hcond]
        have e : (((p % c.BLOCK_SIZE : Nat) : Int) + (w : Int)).toNat = p % c.BLOCK_SIZE + w := by
          omega
        rw [e]

/-- One round of the append loop when a block can be had for the current slot, with what
it does to the bytes of the file and to the number of free blocks. -/
theorem append_round_full (c : Config) (hBS : 0 < c.BLOCK_SIZE) (i fuel n p : Nat) (s : FS)
    (buf : List Nat) (ino : inode)
    (hn : 0 < n) (hbuf : n ≤ buf.length) (hcap : p + n ≤ c.NUM_POINTER * c.BLOCK_SIZE)
    (hino : s.inodes[i]? = some ino) (hok : inode_ok c s ino) (hpool : pool_ok c s)
    (hmx : s.data_bitmap_mutex = false)
    (hslot : ino.block[p / c.BLOCK_SIZE]? = some (-1) → 0 < free_count s) :
    ∃ (block2 : List Int) (bitmap2 : List Int) (blocks2 : List (List Nat)) (w : Nat),
      0 < w ∧ w ≤ n ∧
      append_loop c (i : Int) (fuel + 1) s (p : Int) buf (n : Int) =
        append_loop c (i : Int) fuel
          { s with inodes := s.inodes.set i { ino with block := block2 }
                   data_bitmap := bitmap2, data_blocks := blocks2 }
          ((p + w : Nat) : Int) (buf.drop w) ((n - w : Nat) : Int) ∧
      inode_ok c
          { s with inodes := s.inodes.set i { ino with block := block2 }
                   data_bitmap := bitmap2, data_blocks := blocks2 }
          { ino with block := block2 } ∧
      pool_ok c
          { s with inodes := s.inodes.set i { ino with block := block2 }
                   data_bitmap := bitmap2, data_blocks := blocks2 } ∧
      (∀ t : Nat, t < w →
        file_byte c
          { s with inodes := s.inodes.set i { ino with block := block2 }
                   data_bitmap := bitmap2, data_blocks := blocks2 }
          { ino with block := block2 } (p + t) = buf[t]?) ∧
      (∀ (q : Nat) (v : Nat), (q < p ∨ p + w ≤ q) → file_byte c s ino q = some v →
        file_byte c
          { s with inodes := s.inodes.set i { ino with block := block2 }
                   data_bitmap := bitmap2, data_blocks := blocks2 }
          { ino with block := block2 } q = some v) ∧
      bitmap2.count 0 + unused_in c ino.block p n =
        s.data_bitmap.count 0 + unused_in c block2 (p + w) (n - w) ∧
      (∀ (k : Nat) (b : Int), ino.block[k]? = some b → b ≠ -1 → block2[k]? = some b) ∧
      w = min n (c.BLOCK_SIZE - p % c.BLOCK_SIZE) := by
  obtain ⟨b2, bitmap2, blk, hblk, hcase, hlen, hmono, hb2, hfresh, hcount, hstep⟩ :=
    append_round c hBS i fuel n p s buf ino hn hbuf hcap hino hok hpool hmx hslot
  have ho : p % c.BLOCK_SIZE < c.BLOCK_SIZE := Nat.mod_lt _ hBS
  have hjNP : p / c.BLOCK_SIZE < c.NUM_POINTER := by
    apply Nat.div_lt_of_lt_mul
    rw [Nat.mul_comm]; omega
  have hj : p / c.BLOCK_SIZE < ino.block.length := by rw [hok.1]; exact hjNP
  have hb2lt : b2 < s.data_blocks.length := by
    by_contra hc
    simp [List.getElem?_eq_none (not_lt.mp hc)] at hblk
  have hblkL : blk.length = c.BLOCK_SIZE := hpool.2 blk (List.getElem?_mem hblk)
  obtain ⟨w, hw⟩ : ∃ w, min n (c.BLOCK_SIZE - p % c.BLOCK_SIZE) = w := ⟨_, rfl⟩
  rw [hw] at hstep
  have hw1 : 0 < w := by omega
  have hw2 : w ≤ n := by omega
  have hw3 : p % c.BLOCK_SIZE + w ≤ c.BLOCK_SIZE := by omega
  have hblit := fun j => getElem?_blit blk buf (p % c.BLOCK_SIZE) w j (by omega) (by omega)
  have hblitL := length_blit blk buf (p % c.BLOCK_SIZE) w (by omega) (by omega)
  obtain ⟨hi1, hi2, hi3, hi4⟩ := step_inv c s ino (p / c.BLOCK_SIZE) b2 bitmap2
    (blk.take (p % c.BLOCK_SIZE) ++ buf.take w ++ blk.drop (p % c.BLOCK_SIZE + w))
    (s.inodes.set i { ino with block := ino.block.set (p / c.BLOCK_SIZE) (b2 : Int) })
    hok hpool hj hlen hmono hb2 hb2lt hfresh (by rw [hblitL, hblkL])
  refine ⟨ino.block.set (p / c.BLOCK_SIZE) (b2 : Int), bitmap2, _, w, hw1, hw2, hstep,
    hi1, hi2, ?_, ?_, ?_, ?_, hw.symm⟩
  · intro t ht
    obtain ⟨d1, d2⟩ := div_mod_in_block c.BLOCK_SIZE p t hBS (by omega)
    rw [hi3 _ d1, d2, hblit, if_pos (by omega)]
    congr 1
    omega
  · intro q v hq hv
    by_cases hqj : q / c.BLOCK_SIZE = p / c.BLOCK_SIZE
    · rw [hi3 _ hqj, hblit]
      have hq' := Nat.div_add_mod q c.BLOCK_SIZE
      have hp' := Nat.div_add_mod p c.BLOCK_SIZE
      rw [hqj] at hq'
      rw [if_neg (by omega)]
      rcases hcase with hc | hc
      · simp [file_byte, hqj, hc] at hv
      · simpa [file_byte, hqj, hc, hblk] using hv
    · rw [hi4 _ hqj]; exact hv
  · have hu := unused_in_step c hBS ino.block p n (b2 : Int) hn hj
    rw [hw] at hu
    omega
  · intro k b hkb hb1
    by_cases hk : p / c.BLOCK_SIZE = k
    · subst hk
      rw [List.getElem?_set_self hj]
      rcases hcase with hc | hc
      · rw [hkb] at hc
        exact absurd (Option.some.inj hc) hb1
      · rw [hkb] at hc
        exact hc.symm
    · rw [List.getElem?_set_ne hk]
      exact hkb

/-- When no flag is free, the scan of the bitmap finds nothing. -/
theorem first_free_of_count_zero (l : List Int) (h : l.count 0 = 0) : first_free l = none := by
  cases hf : first_free l with
  | none => rfl
  | some k =>
    obtain ⟨hk, h0⟩ := first_free_spec l k hf
    have hmem : (0 : Int) ∈ l := List.getElem?_mem h0
    have := List.count_pos_iff.mpr hmem
    omega

/-- The append loop on a well-formed state whose free blocks do not suffice: after `j`
bytes the allocator is exhausted at an unused slot and the loop is left by `return -1`.
The `j` bytes are in the file, the bytes outside are kept, linked slots stay linked. -/
theorem append_loop_exhausted (c : Config) (hBS : 0 < c.BLOCK_SIZE) (i : Nat) :
    ∀ (fuel n p : Nat) (s : FS) (buf : List Nat) (ino : inode),
      n ≤ fuel → n ≤ buf.length → p + n ≤ c.NUM_POINTER * c.BLOCK_SIZE →
      s.inodes[i]? = some ino → inode_ok c s ino → pool_ok c s →
      s.data_bitmap_mutex = false →
      free_count s < unused_in c ino.block p n →
      ∃ (j : Nat) (block1 : List Int) (bitmap1 : List Int) (blocks1 : List (List Nat)),
        j < n ∧
        append_loop c (i : Int) fuel s (p : Int) buf (n : Int) =
          .ok (.returned (-1)
            { s with inodes := s.inodes.set i { ino with block := block1 }
                     data_bitmap := bitmap1, data_blocks := blocks1 }) ∧
        (∀ t : Nat, t < j →
          file_byte c
            { s with inodes := s.inodes.set i { ino with block := block1 }
                     data_bitmap := bitmap1, data_blocks := blocks1 }
            { ino with block := block1 } (p + t) = buf[t]?) ∧
        (∀ (q : Nat) (v : Nat), (q < p ∨ p + j ≤ q) → file_byte c s ino q = some v →
          file_byte c
            { s with inodes := s.inodes.set i { ino with block := block1 }
                     data_bitmap := bitmap1, data_blocks := blocks1 }
            { ino with block := block1 } q = some v) ∧
        bitmap1.count 0 = 0 ∧
        (∀ (k : Nat) (b : Int), ino.block[k]? = some b → b ≠ -1 → block1[k]? = some b) ∧
        block1[(p + j) / c.BLOCK_SIZE]? = some (-1) := by
  intro fuel
  induction fuel with
  | zero =>
    intro n p s buf ino hfuel _ _ _ _ _ _ hfree
    have hn : n = 0 := by omega
    subst hn
    simp [unused_in] at hfree
  | succ fuel ih =>
    intro n p s buf ino hfuel hbuf hcap hino hok hpool hmx hfree
    have hn0 : 0 < n := by
      by_contra hc
      have hn : n = 0 := by omega
      subst hn
      simp [unused_in] at hfree
    have hjNP : p / c.BLOCK_SIZE < c.NUM_POINTER := by
      apply Nat.div_lt_of_lt_mul
      rw [Nat.mul_comm]; omega
    have hj : p / c.BLOCK_SIZE < ino.block.length := by rw [hok.1]; exact hjNP
    by_cases hA : ino.block[p / c.BLOCK_SIZE]? = some (-1) ∧ free_count s = 0
    · -- the allocator is exhausted at this slot
      obtain ⟨hb, hf0⟩ := hA
      have hnone : first_free s.data_bitmap = none := first_free_of_count_zero _ hf0
      have hsz : (n : Int) > 0 := by exact_mod_cast hn0
      have hBS0 : c.BLOCK_SIZE ≠ 0 := by omega
      refine ⟨0, ino.block, s.data_bitmap, s.data_blocks, hn0, ?_, ?_, ?_, hf0, ?_, ?_⟩
      · have hself : s.inodes.set i { ino with block := ino.block } = s.inodes :=
          set_self_of_getElem? _ _ _ hino
        rw [hself]
        simp only [append_loop, hsz, if_true, hBS0, if_false, tdiv_natCast,
          idx_natCast _ _ _ hino, idx_natCast _ _ _ hb, allocate_data_block, hmx, hnone,
          Bool.false_eq_true]
        cases s
        simp only at hmx
        subst hmx
        rfl
      · intro t ht; omega
      · intro q v _ hv; exact hv
      · intro k b hkb _; exact hkb
      · rw [Nat.add_zero]; exact hb
    · -- a block can be had: one round, then the rest
      have hslot : ino.block[p / c.BLOCK_SIZE]? = some (-1) → 0 < free_count s := by
        intro hb
        by_contra hc
        exact hA ⟨hb, by omega⟩
      obtain ⟨block2, bitmap2, blocks2, w, hw1, hw2, hstep, hok2, hpool2, hA2, hB2, hacc, hkeep,
          hwdef⟩ :=
        append_round_full c hBS i fuel n p s buf ino hn0 hbuf hcap hino hok hpool hmx hslot
      have hiL : i < s.inodes.length := by
        by_contra hc
        simp [List.getElem?_eq_none (not_lt.mp hc)] at hino
      have hfree2 : bitmap2.count 0 < unused_in c block2 (p + w) (n - w) := by
        unfold free_count at hfree; omega
      obtain ⟨j, block1, bitmap1, blocks1, hj1, hrun, hA1, hB1, hcount1, hkeep1, hfail⟩ :=
        ih (n - w) (p + w)
          { s with inodes := s.inodes.set i { ino with block := block2 }
                   data_bitmap := bitmap2, data_blocks := blocks2 }
          (buf.drop w) { ino with block := block2 }
          (by omega) (by simp; omega) (by omega) (by simp [hiL]) hok2 hpool2 hmx hfree2
      simp only [List.set_set] at hrun hA1 hB1
      refine ⟨w + j, block1, bitmap1, blocks1, by omega, ?_, ?_, ?_, hcount1, ?_, ?_⟩
      · rw [hstep, hrun]
      · intro t ht
        by_cases htw : t < w
        · have h1 := hA2 t htw
          have hsome : buf[t]? = some buf[t] := List.getElem?_eq_getElem (by omega)
          rw [hsome] at h1 ⊢
          exact hB1 _ _ (Or.inl (by omega)) h1
        · have h1 := hA1 (t - w) (by omega)
          have e2 : p + w + (t - w) = p + t := by omega
          rw [e2] at h1
          rw [h1, List.getElem?_drop]
          congr 1
          omega
      · intro q v hq hv
        exact hB1 q v (by omega) (hB2 q v (by omega) hv)
      · intro k b hkb hb1
        exact hkeep1 k b (hkeep k b hkb hb1) hb1
      · have e : p + (w + j) = p + w + j := by omega
        rw [e]; exact hfail

/-- The result of `RSFS_append` on a well-formed state whose free blocks do not suffice. -/
theorem append_exhausted (c : Config) (s : FS) (fd i p n : Nat) (e : open_file_entry)
    (d : dir_entry) (ino : inode) (X : List Nat)
    (hBS : 0 < c.BLOCK_SIZE) (hrw : c.RSFS_RDWR ≠ 0) (hfd : fd ≤ c.NUM_OPEN_FILE)
    (hlock : s.open_file_table_mutex = false) (hmx : s.data_bitmap_mutex = false)
    (hdesc : descriptor_on s fd e d i ino) (hpos : e.position = (p : Int))
    (hok : inode_ok c s ino) (hpool : pool_ok c s)
    (hX : n ≤ X.length) (hcap : p + n ≤ c.NUM_POINTER * c.BLOCK_SIZE)
    (hfree : free_count s < unused_in c ino.block p n) :
    ∃ (j : Nat) (block1 : List Int) (bitmap1 : List Int) (blocks1 : List (List Nat)),
      j < n ∧
      RSFS_append c s (fd : Int) X (n : Int) =
        .ok (-1,
          { s with
            inodes := s.inodes.set i { ino with block := block1 }
            data_bitmap := bitmap1
            data_blocks := blocks1
            open_file_table := s.open_file_table.set fd { e with access_flag := c.RSFS_RDWR }
            open_file_table_mutex := true }) ∧
      (∀ t : Nat, t < j →
        file_byte c
          { s with
            inodes := s.inodes.set i { ino with block := block1 }
            data_bitmap := bitmap1
            data_blocks := blocks1
            open_file_table := s.open_file_table.set fd { e with access_flag := c.RSFS_RDWR }
            open_file_table_mutex := true }
          { ino with block := block1 } (p + t) = X[t]?) ∧
      (∀ (q : Nat) (v : Nat), (q < p ∨ p + j ≤ q) → file_byte c s ino q = some v →
        file_byte c
          { s with
            inodes := s.inodes.set i { ino with block := block1 }
            data_bitmap := bitmap1
            data_blocks := blocks1
            open_file_table := s.open_file_table.set fd { e with access_flag := c.RSFS_RDWR }
            open_file_table_mutex := true }
          { ino with block := block1 } q = some v) ∧
      bitmap1.count 0 = 0 ∧
      (∀ (k : Nat) (b : Int), ino.block[k]? = some b → b ≠ -1 → block1[k]? = some b) ∧
      block1[(p + j) / c.BLOCK_SIZE]? = some (-1) := by
  obtain ⟨he, hd, hdi, hino⟩ := hdesc
  obtain ⟨eu, ed, ep, ea⟩ := e
  simp only at hpos hd
  subst hpos
  obtain ⟨j, block1, bitmap1, blocks1, hj, hrun, hA, hB, hcount, hkeep, hfail⟩ :=
    append_loop_exhausted c hBS i n n p
      { s with open_file_table_mutex := true
               open_file_table := s.open_file_table.set fd
                 { used := eu, dir_entry := ed, position := (p : Int),
                   access_flag := c.RSFS_RDWR } }
      X ino (le_refl _) hX hcap hino hok hpool hmx hfree
  refine ⟨j, block1, bitmap1, blocks1, hj, ?_, hA, hB, hcount, hkeep, hfail⟩
  have hcond : (fd : Int) ≥ 0 ∧ (fd : Int) ≤ (c.NUM_OPEN_FILE : Int) ∧ (n : Int) > 0 := by
    refine ⟨by omega, by omega, by omega⟩
  have hd2 : deref
      { s with open_file_table_mutex := true
               open_file_table := s.open_file_table.set fd
                 { used := eu, dir_entry := ed, position := (p : Int),
                   access_flag := c.RSFS_RDWR } }
      ed = .ok d := by
    rw [← hd]; exact deref_congr _ _ _ rfl
  simp only [RSFS_append, hcond, and_self, if_true, lock_open_file_table, hlock,
    Bool.false_eq_true, if_false, idx_natCast _ _ _ he, Int.toNat_ofNat, hrw, ne_eq,
    not_false_eq_true, hd2, hdi, hrun]

/-- A read that returns has its index inside the array. -/
theorem idx_ok {α : Type} (l : List α) (i : Int) (a : α) (h : idx l i = .ok a) :
    0 ≤ i ∧ l[i.toNat]? = some a := by
  unfold idx at?  at h
  split at h
  · rename_i a' heq
    split at heq
    · cases heq
    · refine ⟨by omega, ?_⟩
      cases h
      exact heq
  · cases h

/-- A write that returns has its index inside the array and sets that place. -/
theorem upd_ok {α : Type} (l : List α) (i : Int) (a : α) (l' : List α) (h : upd l i a = .ok l') :
    0 ≤ i ∧ i.toNat < l.length ∧ l' = l.set i.toNat a := by
  unfold upd at h
  split at h
  · rename_i hc
    cases h
    exact ⟨hc.1, by omega, rfl⟩
  · cases h

/-- One round of the loop of `RSFS_append`, read backwards.  When the loop returns
with bytes left to write, either the slot was unused and the allocator had no
block, and the loop was left by `return -1`; or the round copied into the block
of the slot (linked before, or found free and linked now) and the rest of the
loop returned the same. -/
theorem append_loop_round_inv (c : Config) (k : Int) (fuel : Nat) (s : FS) (cp : Int)
    (buf : List Nat) (size : Int) (r : LoopExit)
    (h : append_loop c k (fuel + 1) s cp buf size = .ok r) (hsz : size > 0) :
    c.BLOCK_SIZE ≠ 0 ∧ ∃ (ino : inode) (b : Int),
      idx s.inodes k = .ok ino ∧ idx ino.block (Int.tdiv cp c.BLOCK_SIZE) = .ok b ∧
      ((b = -1 ∧ first_free s.data_bitmap = none ∧ r = .returned (-1) s) ∨
       (∃ (s2 : FS) (b2 : Int) (s3 : FS),
          ((b ≠ -1 ∧ s2 = s ∧ b2 = b) ∨
           (b = -1 ∧ ∃ kk : Nat, first_free s.data_bitmap = some kk ∧ b2 = (kk : Int) ∧
              s2 = { s with
                     data_bitmap := s.data_bitmap.set kk 1
                     inodes := s.inodes.set k.toNat
                       { ino with
                         block := ino.block.set (Int.tdiv cp c.BLOCK_SIZE).toNat (kk : Int) } })) ∧
          memcpy_to_block s2 b2 (Int.tmod cp c.BLOCK_SIZE) buf
            (if size < c.BLOCK_SIZE - Int.tmod cp c.BLOCK_SIZE then size
             else c.BLOCK_SIZE - Int.tmod cp c.BLOCK_SIZE) = .ok s3 ∧
          append_loop c k fuel s3
            (cp + (if size < c.BLOCK_SIZE - Int.tmod cp c.BLOCK_SIZE then size
             else c.BLOCK_SIZE - Int.tmod cp c.BLOCK_SIZE))
            (buf.drop (if size < c.BLOCK_SIZE - Int.tmod cp c.BLOCK_SIZE then size
             else c.BLOCK_SIZE - Int.tmod cp c.BLOCK_SIZE).toNat)
            (size - (if size < c.BLOCK_SIZE - Int.tmod cp c.BLOCK_SIZE then size
             else c.BLOCK_SIZE - Int.tmod cp c.BLOCK_SIZE)) = .ok r)) := by
  simp only [append_loop, hsz, if_true] at h
  split at h
  · cases h
  · rename_i hBS
    refine ⟨hBS, ?_⟩
    split at h
    · cases h
    · rename_i ino hino
      split at h
      · cases h
      · rename_i b hb
        refine ⟨ino, b, hino, hb, ?_⟩
        split at h
        · cases h
        · -- the allocator had no block
          rename_i lk s2 heq
          left
          by_cases hb1 : b = -1
          · simp only [hb1, if_true, allocate_data_block] at heq
            cases hmx : s.data_bitmap_mutex with
            | true => simp [hmx] at heq
            | false =>
              cases hff : first_free s.data_bitmap with
              | none =>
                simp only [hmx, hff, Bool.false_eq_true, if_false, if_true, Res.ok.injEq,
                  Prod.mk.injEq, and_true] at heq
                subst heq
                exact ⟨hb1, rfl, by cases h; rfl⟩
              | some kk =>
                have hkk : ¬ ((kk : Int) = -1) := by omega
                simp only [hmx, hff, Bool.false_eq_true, if_false, hkk] at heq
                split at heq
                · cases heq
                · split at heq
                  · cases heq
                  · simp at heq
          · simp [hb1] at heq
        · rename_i lk s2 b2 heq
          right
          split at h
          · cases h
          · rename_i s3 hs3
            refine ⟨s2, b2, s3, ?_, hs3, h⟩
            by_cases hb1 : b = -1
            · right
              simp only [hb1, if_true, allocate_data_block] at heq
              cases hmx : s.data_bitmap_mutex with
              | true => simp [hmx] at heq
              | false =>
                cases hff : first_free s.data_bitmap with
                | none => simp [hmx, hff] at heq
                | some kk =>
                  have hkk : ¬ ((kk : Int) = -1) := by omega
                  simp only [hmx, hff, Bool.false_eq_true, if_false, hkk] at heq
                  split at heq
                  · cases heq
                  · rename_i blocks hblocks
                    split at heq
                    · cases heq
                    · rename_i inodes hinodes
                      obtain ⟨_, _, e1⟩ := upd_ok _ _ _ _ hblocks
                      obtain ⟨_, _, e2⟩ := upd_ok _ _ _ _ hinodes
                      subst e1 e2
                      simp only [Res.ok.injEq, Prod.mk.injEq, Option.some.injEq] at heq
                      obtain ⟨e3, e4⟩ := heq
                      exact ⟨hb1, kk, rfl, e4.symm, e3.symm⟩
            · left
              simp only [hb1, if_false, Res.ok.injEq, Prod.mk.injEq, Option.some.injEq] at heq
              exact ⟨hb1, heq.1.symm, heq.2.symm⟩

/-- Replacing an element by one with the same image keeps the image of the list. -/
theorem map_set_same {α β : Type} (f : α → β) (l : List α) (i : Nat) (a a' : α)
    (h : l[i]? = some a) (hf : f a' = f a) : (l.set i a').map f = l.map f := by
  rw [List.map_set, hf]
  apply set_self_of_getElem?
  simp [h]

/-- A state has the store it has. -/
theorem same_store_refl (s : FS) : same_store s s := ⟨rfl, rfl, rfl⟩

/-- Having the same store passes through an intermediate state. -/
theorem same_store_trans (s t u : FS) (h1 : same_store s t) (h2 : same_store t u) :
    same_store s u :=
  ⟨h2.1.trans h1.1, h2.2.1.trans h1.2.1, h2.2.2.trans h1.2.2⟩

/-- The invariant depends on the bitmap, the pointer arrays and the lengths only. -/
theorem store_inv_of_same (c : Config) (s t : FS) (h : same_store s t) (hs : store_inv c s) :
    store_inv c t := by
  unfold store_inv
  rw [h.1, h.2.1, h.2.2]
  exact hs

/-- A state with the same block bitmap and inode table has the same store. -/
theorem same_store_of_fields (s t : FS) (h1 : t.data_bitmap = s.data_bitmap)
    (h2 : t.inodes = s.inodes) : same_store s t := by
  refine ⟨h1, ?_, ?_⟩ <;> simp [ptr_table, len_table, h2]

/-- Writing back an inode with its pointer array and length unchanged keeps the
store. -/
theorem same_store_set_inode (s t : FS) (i : Int) (ino ino' : inode)
    (hi : idx s.inodes i = .ok ino) (h1 : t.data_bitmap = s.data_bitmap)
    (h2 : t.inodes = s.inodes.set i.toNat ino') (hb : ino'.block = ino.block)
    (hl : ino'.length = ino.length) :
    same_store s t := by
  obtain ⟨_, hget⟩ := idx_ok _ _ _ hi
  refine ⟨h1, ?_, ?_⟩
  · simp only [ptr_table, h2]
    exact map_set_same _ _ _ _ _ hget hb
  · simp only [len_table, h2]
    exact map_set_same _ _ _ _ _ hget hl

/-- The helper `allocate_open_file_entry` keeps the store. -/
theorem allocate_open_file_entry_frame (s t : FS) (a : Int) (d : Option Nat) (r : Int)
    (h : allocate_open_file_entry s a d = .ok (r, t)) : same_store s t := by
  unfold allocate_open_file_entry lock_open_file_table at h
  split at h
  · cases h
  · rename_i s1 hs1
    split at hs1
    · cases hs1
    · cases hs1
      split at h <;> cases h <;> exact same_store_of_fields _ _ rfl rfl

/-- The helper `free_open_file_entry` keeps the store. -/
theorem free_open_file_entry_frame (s t : FS) (fd : Int)
    (h : free_open_file_entry s fd = .ok t) : same_store s t := by
  unfold free_open_file_entry lock_open_file_table at h
  split at h
  · cases h
  · rename_i s1 hs1
    split at hs1
    · cases hs1
    · cases hs1
      split at h
      · cases h
      · cases h
        exact same_store_of_fields _ _ rfl rfl

/-- A returning `RSFS_create` keeps the store. -/
theorem create_frame (s t : FS) (name : String) (r : Int)
    (h : RSFS_create s name = .ok (r, t)) : same_store s t := by
  unfold RSFS_create at h
  split at h
  · cases h
    exact same_store_refl _
  · simp only [insert_dir, allocate_inode] at h
    split at h
    · cases h
    · rename_i n s2 hs2
      have hs : same_store s s2 := by
        split at hs2
        · cases hs2
        · split at hs2 <;> cases hs2 <;> exact same_store_of_fields _ _ rfl rfl
      split at h
      · cases h
        exact hs
      · cases h
        exact same_store_trans _ _ _ hs (same_store_of_fields _ _ rfl rfl)

/-- A returning `RSFS_delete` keeps the store: it clears a flag of the inode bitmap
and removes a directory entry, and touches neither the inode nor its blocks. -/
theorem delete_frame (s t : FS) (name : String) (r : Int)
    (h : RSFS_delete s name = .ok (r, t)) : same_store s t := by
  unfold RSFS_delete at h
  split at h
  · cases h
    exact same_store_refl _
  · simp only [free_inode] at h
    split at h
    · cases h
    · rename_i s1 hs1
      have hs : same_store s s1 := by
        split at hs1
        · cases hs1
        · split at hs1
          · cases hs1
          · split at hs1 <;> cases hs1
            exact same_store_of_fields _ _ rfl rfl
      simp only [delete_dir, Res.ok.injEq] at h
      split at h <;> cases h
      · exact same_store_trans _ _ _ hs (same_store_of_fields _ _ rfl rfl)
      · exact hs

/-- A returning `RSFS_fseek` keeps the store. -/
theorem fseek_frame (c : Config) (s t : FS) (fd offset r : Int)
    (h : RSFS_fseek c s fd offset = .ok (r, t)) : same_store s t := by
  unfold RSFS_fseek lock_open_file_table at h
  split at h
  · cases h
    exact same_store_refl _
  · split at h
    · cases h
    · rename_i s1 hs1
      split at hs1
      · cases hs1
      · cases hs1
        split at h
        · cases h
        · split at h
          · cases h
          · split at h
            · cases h
            · dsimp only at h
              split at h <;> cases h <;> exact same_store_of_fields _ _ rfl rfl

/-- A returning `RSFS_read` keeps the store. -/
theorem read_frame (c : Config) (s t : FS) (fd : Int) (buf out : List Nat) (size r : Int)
    (h : RSFS_read c s fd buf size = .ok (r, out, t)) : same_store s t := by
  unfold RSFS_read lock_open_file_table at h
  split at h
  · split at h
    · cases h
    · rename_i s1 hs1
      split at hs1
      · cases hs1
      · cases hs1
        split at h
        · cases h
        · split at h
          · cases h
          · split at h
            · cases h
            · dsimp only at h
              split at h
              · cases h
                exact same_store_of_fields _ _ rfl rfl
              · split at h
                · cases h
                · cases h
                  exact same_store_of_fields _ _ rfl rfl
  · cases h
    exact same_store_refl _

/-- A returning `RSFS_close` keeps the store: it changes the reader count and the
gates of the inode only. -/
theorem close_frame (c : Config) (s t : FS) (fd r : Int)
    (h : RSFS_close c s fd = .ok (r, t)) : same_store s t := by
  unfold RSFS_close at h
  split at h
  · split at h
    · cases h
    · rename_i e he
      split at h
      · cases h
      · rename_i d hd
        split at h
        · cases h
        · rename_i ino hino
          dsimp only at h
          split at h
          · cases h
          · rename_i ino1 hino1
            split at h
            · cases h
            · rename_i s1 hs1
              cases h
              have h2 := free_open_file_entry_frame _ _ _ hs1
              refine same_store_trans _ _ _ ?_ h2
              refine same_store_set_inode _ _ _ ino ino1 hino rfl rfl ?_ ?_
              · split at hino1
                · split at hino1 <;> cases hino1
                  rfl
                · cases hino1
                  rfl
              · split at hino1
                · split at hino1 <;> cases hino1
                  rfl
                · cases hino1
                  rfl
  · cases h
    exact same_store_refl _

/-- A returning `RSFS_open` keeps the store, whatever the uninitialised
`currentFile` holds: it changes the reader count and the gates of the inode only. -/
theorem open_frame (c : Config) (s t : FS) (name : String) (a : Int) (g : open_file_entry)
    (r : Int) (h : RSFS_open c s name a g = .ok (r, t)) : same_store s t := by
  unfold RSFS_open lock_open_file_table at h
  split at h
  · split at h
    · cases h
    · rename_i s1 hs1
      split at hs1
      · cases hs1
      · cases hs1
        split at h
        · cases h
        · simp only [unlock_open_file_table] at h
          split at h
          · split at h
            · split at h
              · cases h
              · rename_i ino hino
                split at h
                · cases h
                · split at h
                  · cases h
                  · split at h
                    · cases h
                    · rename_i inodes hinodes
                      obtain ⟨_, _, e⟩ := upd_ok _ _ _ _ hinodes
                      have h2 := allocate_open_file_entry_frame _ _ _ _ _ h
                      refine same_store_trans _ _ _ ?_ h2
                      exact same_store_set_inode _ _ _ ino _ hino rfl e rfl rfl
            · have h2 := allocate_open_file_entry_frame _ _ _ _ _ h
              exact same_store_trans _ _ _ (same_store_of_fields _ _ rfl rfl) h2
          · split at h
            · split at h
              · cases h
              · rename_i ino hino
                split at h
                · cases h
                · split at h
                  · cases h
                  · rename_i inodes hinodes
                    obtain ⟨_, _, e⟩ := upd_ok _ _ _ _ hinodes
                    have h2 := allocate_open_file_entry_frame _ _ _ _ _ h
                    refine same_store_trans _ _ _ ?_ h2
                    exact same_store_set_inode _ _ _ ino _ hino rfl e rfl rfl
            · have h2 := allocate_open_file_entry_frame _ _ _ _ _ h
              exact same_store_trans _ _ _ (same_store_of_fields _ _ rfl rfl) h2
  · cases h
    exact same_store_refl _

/-- A returning `RSFS_stat` keeps the store. -/
theorem stat_frame (s t : FS) (r : stat_report) (h : RSFS_stat s = .ok (r, t)) :
    same_store s t := by
  unfold RSFS_stat at h
  split at h
  · cases h
  · split at h <;> cases h
    exact same_store_of_fields _ _ rfl rfl

/-- The state `RSFS_init` builds satisfies the invariant of the block store. -/
theorem store_inv_init (c : Config) (mem : Nat → Nat → Nat) :
    store_inv c (RSFS_init c mem).2 := by
  unfold store_inv ptr_table len_table RSFS_init
  simp only [List.map_replicate]
  constructor
  · intro B hB
    obtain ⟨_, rfl⟩ := List.mem_replicate.mp hB
    simp
  · intro L hL
    obtain ⟨_, rfl⟩ := List.mem_replicate.mp hL
    exact ⟨le_refl _, Int.natCast_nonneg _⟩
  · intro B hB b hb
    obtain ⟨_, rfl⟩ := List.mem_replicate.mp hB
    left
    exact (List.mem_replicate.mp hb).2
  · intro i j A B _ hA _ b hbA _
    obtain ⟨_, rfl⟩ := List.mem_replicate.mp (List.getElem?_mem hA)
    exact (List.mem_replicate.mp hbA).2

/-- Linking a block the scan of the bitmap has found free keeps the invariant. -/
theorem store_ok_link (c : Config) (bitmap : List Int) (ptrs : List (List Int))
    (lens : List Int) (i q kk : Nat) (A : List Int)
    (h : store_ok c bitmap ptrs lens) (hA : ptrs[i]? = some A)
    (hk : first_free bitmap = some kk) :
    store_ok c (bitmap.set kk 1) (ptrs.set i (A.set q (kk : Int))) lens := by
  obtain ⟨hklt, hk0⟩ := first_free_spec _ _ hk
  have hbit : ∀ b : Int, bitmap[b.toNat]? = some 1 → (bitmap.set kk 1)[b.toNat]? = some 1 := by
    intro b hb
    rw [List.getElem?_set]
    by_cases e : kk = b.toNat
    · rw [if_pos e, if_pos hklt]
    · rw [if_neg e]
      exact hb
  have hnew : (bitmap.set kk 1)[kk]? = some 1 := by
    rw [List.getElem?_set]
    simp [hklt]
  have hfresh : ∀ B ∈ ptrs, (kk : Int) ∉ B := by
    intro B hB hmem
    rcases h.marked B hB _ hmem with h1 | ⟨_, h2⟩
    · omega
    · rw [Int.toNat_natCast, hk0] at h2
      simp at h2
  have hAmem : A ∈ ptrs := List.getElem?_mem hA
  have hsetmem : ∀ b, b ∈ A.set q (kk : Int) → b ∈ A ∨ b = (kk : Int) :=
    fun b hb => List.mem_or_eq_of_mem_set hb
  constructor
  · intro B hB
    rcases List.mem_or_eq_of_mem_set hB with hB | rfl
    · exact h.shape B hB
    · rw [List.length_set]
      exact h.shape A hAmem
  · exact h.lengths
  · intro B hB b hb
    rcases List.mem_or_eq_of_mem_set hB with hB | rfl
    · rcases h.marked B hB b hb with h1 | ⟨h0, h2⟩
      · exact Or.inl h1
      · exact Or.inr ⟨h0, hbit b h2⟩
    · rcases hsetmem b hb with hb | rfl
      · rcases h.marked A hAmem b hb with h1 | ⟨h0, h2⟩
        · exact Or.inl h1
        · exact Or.inr ⟨h0, hbit b h2⟩
      · refine Or.inr ⟨Int.natCast_nonneg _, ?_⟩
        rw [Int.toNat_natCast]
        exact hnew
  · intro i1 i2 A1 B1 hne h1 h2 b hb1 hb2
    rw [List.getElem?_set] at h1 h2
    by_cases e1 : i = i1
    · have e2 : ¬ i = i2 := fun e => hne (e1.symm.trans e)
      simp only [e2, if_false] at h2
      simp only [e1, if_true] at h1
      split at h1
      · simp only [Option.some.injEq] at h1
        subst h1
        rcases hsetmem b hb1 with hb | rfl
        · exact h.disjoint i i2 A B1 e2 hA h2 b hb hb2
        · exact absurd hb2 (hfresh B1 (List.getElem?_mem h2))
      · cases h1
    · simp only [e1, if_false] at h1
      by_cases e2 : i = i2
      · simp only [e2, if_true] at h2
        split at h2
        · simp only [Option.some.injEq] at h2
          subst h2
          rcases hsetmem b hb2 with hb | rfl
          · exact h.disjoint i1 i A1 A (fun e => e1 e.symm) h1 hA b hb1 hb
          · exact absurd hb1 (hfresh A1 (List.getElem?_mem h1))
        · cases h2
      · simp only [e2, if_false] at h2
        exact h.disjoint i1 i2 A1 B1 hne h1 h2 b hb1 hb2

/-- Storing a length inside the bounds keeps the invariant. -/
theorem store_ok_set_length (c : Config) (bitmap : List Int) (ptrs : List (List Int))
    (lens : List Int) (i : Nat) (L : Int) (h : store_ok c bitmap ptrs lens)
    (hL : 0 ≤ L ∧ L ≤ ((c.NUM_POINTER * c.BLOCK_SIZE : Nat) : Int)) :
    store_ok c bitmap ptrs (lens.set i L) := by
  refine ⟨h.shape, ?_, h.marked, h.disjoint⟩
  intro L1 hL1
  rcases List.mem_or_eq_of_mem_set hL1 with h1 | rfl
  · exact h.lengths L1 h1
  · exact hL

/-- The copy into a block changes the blocks only, and its offset and size are
not negative when it returns. -/
theorem memcpy_frame (s t : FS) (b off : Int) (buf : List Nat) (n : Int)
    (h : memcpy_to_block s b off buf n = .ok t) : same_store s t ∧ 0 ≤ off ∧ 0 ≤ n := by
  unfold memcpy_to_block at h
  split at h
  · cases h
  · split at h
    · rename_i hc
      cases h
      exact ⟨same_store_of_fields _ _ rfl rfl, hc.1, hc.2.1⟩
    · cases h

/-- The position after a round of the loop is inside the file's capacity. -/
theorem round_bound (NP BS : Nat) (cp btw : Int) (len : Nat)
    (hq : 0 ≤ Int.tdiv cp BS) (hqlt : (Int.tdiv cp BS).toNat < len) (hlen : len = NP)
    (ho : 0 ≤ Int.tmod cp BS) (hb0 : 0 ≤ btw) (hb1 : btw ≤ BS - Int.tmod cp BS) :
    0 ≤ cp + btw ∧ cp + btw ≤ ((NP * BS : Nat) : Int) := by
  have hcp := Int.tmod_add_tdiv cp BS
  have hBS : (0 : Int) ≤ BS := Int.natCast_nonneg _
  have hq1 : Int.tdiv cp BS + 1 ≤ (NP : Int) := by omega
  have hmul : (BS : Int) * (Int.tdiv cp BS + 1) ≤ (BS : Int) * (NP : Int) :=
    Int.mul_le_mul_of_nonneg_left hq1 hBS
  have hnn : 0 ≤ (BS : Int) * Int.tdiv cp BS := Int.mul_nonneg hBS hq
  push_cast
  constructor
  · omega
  · have e1 : (BS : Int) * (Int.tdiv cp BS + 1) = BS * Int.tdiv cp BS + BS := by ring
    have e2 : (NP : Int) * (BS : Int) = BS * NP := by ring
    omega

/-- The loop of `RSFS_append` keeps the invariant of the block store, and the
position it falls out with is inside the file's capacity. -/
theorem append_loop_inv (c : Config) (k : Int) :
    ∀ (fuel : Nat) (s : FS) (cp : Int) (buf : List Nat) (size : Int) (r : LoopExit),
      store_inv c s →
      (size > 0 ∨ (0 ≤ cp ∧ cp ≤ ((c.NUM_POINTER * c.BLOCK_SIZE : Nat) : Int))) →
      append_loop c k fuel s cp buf size = .ok r →
      (∀ cp1 t, r = .done cp1 t →
        store_inv c t ∧ 0 ≤ cp1 ∧ cp1 ≤ ((c.NUM_POINTER * c.BLOCK_SIZE : Nat) : Int)) ∧
      (∀ v t, r = .returned v t → store_inv c t) := by
  intro fuel
  induction fuel with
  | zero =>
    intro s cp buf size r hinv hcp h
    unfold append_loop at h
    split at h
    · cases h
    · rename_i hsz
      cases h
      refine ⟨?_, ?_⟩
      · intro cp1 t e
        cases e
        rcases hcp with h1 | h1
        · exact absurd h1 hsz
        · exact ⟨hinv, h1⟩
      · intro v t e
        cases e
  | succ fuel ih =>
    intro s cp buf size r hinv hcp h
    by_cases hsz : size > 0
    · obtain ⟨_, ino, b, hino, hb, hcase⟩ := append_loop_round_inv c k fuel s cp buf size r h hsz
      rcases hcase with ⟨_, _, rfl⟩ | ⟨s2, b2, s3, hlink, hcpy, hrest⟩
      · refine ⟨?_, ?_⟩
        · intro cp1 t e
          cases e
        · intro v t e
          cases e
          exact hinv
      · obtain ⟨hk0, hget⟩ := idx_ok _ _ _ hino
        obtain ⟨hq0, hbget⟩ := idx_ok _ _ _ hb
        have hptr : (ptr_table s)[k.toNat]? = some ino.block := by
          simp [ptr_table, hget]
        have hshape : ino.block.length = c.NUM_POINTER :=
          hinv.shape _ (List.getElem?_mem hptr)
        have hqlt : (Int.tdiv cp c.BLOCK_SIZE).toNat < ino.block.length := by
          by_contra hc
          rw [List.getElem?_eq_none (not_lt.mp hc)] at hbget
          cases hbget
        have hinv2 : store_inv c s2 := by
          rcases hlink with ⟨_, rfl, _⟩ | ⟨_, kk, hkk, _, rfl⟩
          · exact hinv
          · unfold store_inv ptr_table len_table
            simp only
            rw [List.map_set, map_set_same (fun a : inode => a.length) _ _ ino
              { ino with block := ino.block.set (Int.tdiv cp c.BLOCK_SIZE).toNat (kk : Int) }
              hget rfl]
            exact store_ok_link c _ _ _ _ _ _ _ hinv hptr hkk
        obtain ⟨hsame, ho, hb0⟩ := memcpy_frame _ _ _ _ _ _ hcpy
        have hinv3 : store_inv c s3 := store_inv_of_same c _ _ hsame hinv2
        refine ih s3 _ _ _ r hinv3 (Or.inr ?_) hrest
        refine round_bound c.NUM_POINTER c.BLOCK_SIZE cp _ _ hq0 hqlt hshape ho hb0 ?_
        split <;> omega
    · unfold append_loop at h
      simp only [hsz, if_false] at h
      cases h
      refine ⟨?_, ?_⟩
      · intro cp1 t e
        cases e
        rcases hcp with h1 | h1
        · exact absurd h1 hsz
        · exact ⟨hinv, h1⟩
      · intro v t e
        cases e

/-- A returning `RSFS_append` keeps the invariant of the block store. -/
theorem append_inv (c : Config) (s t : FS) (fd : Int) (buf : List Nat) (size r : Int)
    (hinv : store_inv c s) (h : RSFS_append c s fd buf size = .ok (r, t)) : store_inv c t := by
  unfold RSFS_append lock_open_file_table at h
  split at h
  · rename_i hguard
    split at h
    · cases h
    · rename_i s1 hs1
      split at hs1
      · cases hs1
      · cases hs1
        split at h
        · cases h
        · dsimp only at h
          split at h
          · split at h
            · cases h
            · rename_i d hd
              split at h
              · cases h
              · rename_i v s3 hloop
                cases h
                refine (append_loop_inv c _ _ _ _ _ _ _ ?_ (Or.inl hguard.2.2) hloop).2 _ _ rfl
                exact store_inv_of_same c s _ (same_store_of_fields _ _ rfl rfl) hinv
              · rename_i cp1 s3 hloop
                have h3 : store_inv c s3 ∧ 0 ≤ cp1 ∧
                    cp1 ≤ ((c.NUM_POINTER * c.BLOCK_SIZE : Nat) : Int) := by
                  refine (append_loop_inv c _ _ _ _ _ _ _ ?_ (Or.inl hguard.2.2) hloop).1 _ _ rfl
                  exact store_inv_of_same c s _ (same_store_of_fields _ _ rfl rfl) hinv
                split at h
                · cases h
                · rename_i ino hino
                  cases h
                  obtain ⟨_, hget⟩ := idx_ok _ _ _ hino
                  unfold store_inv ptr_table len_table unlock_open_file_table
                  simp only
                  rw [map_set_same (fun a : inode => a.block) _ _ ino { ino with length := cp1 } hget rfl,
                    List.map_set]
                  exact store_ok_set_length c _ _ _ _ _ h3.1 h3.2
          · cases h
            exact store_inv_of_same c s _ (same_store_of_fields _ _ rfl rfl) hinv
  · cases h

/-- Every returning call of a public operation keeps the invariant. -/
theorem step_store_inv (c : Config) (s t : FS) (hinv : store_inv c s) (h : Step c s t) :
    store_inv c t := by
  cases h with
  | create_call file_name r h => exact store_inv_of_same c _ _ (create_frame _ _ _ _ h) hinv
  | open_call file_name a g r h => exact store_inv_of_same c _ _ (open_frame _ _ _ _ _ _ _ h) hinv
  | append_call fd buf size r h => exact append_inv c _ _ _ _ _ _ hinv h
  | fseek_call fd offset r h => exact store_inv_of_same c _ _ (fseek_frame _ _ _ _ _ _ h) hinv
  | read_call fd buf size r out h =>
    exact store_inv_of_same c _ _ (read_frame _ _ _ _ _ _ _ _ h) hinv
  | close_call fd r h => exact store_inv_of_same c _ _ (close_frame _ _ _ _ _ h) hinv
  | delete_call file_name r h => exact store_inv_of_same c _ _ (delete_frame _ _ _ _ h) hinv
  | stat_call r h => exact store_inv_of_same c _ _ (stat_frame _ _ _ h) hinv
  | write_call fd buf size r h =>
    cases h
    exact hinv
  | cut_call fd size r h =>
    cases h
    exact hinv

/-- The invariant of the block store holds in every reachable state. -/
theorem reachable_store_inv (c : Config) (mem : Nat → Nat → Nat) (s : FS)
    (h : Reachable c mem s) : store_inv c s := by
  induction h with
  | init => exact store_inv_init c mem
  | step s t _ hst ih => exact step_store_inv c s t ih hst

/-- The state `fs_ab` is reachable: `create("a")`, `open("a", RSFS_RDWR)`,
`append(0, "ab", 2)`. -/
theorem reachable_fs_ab : Reachable cfg0 (fun _ _ => 0) fs_ab :=
  Reachable.step fs_open fs_ab
    (Reachable.step fs_created fs_open
      (Reachable.step fs_init fs_created Reachable.init
        (Step.create_call fs_init fs_created "a" 0 (by decide)))
      (Step.open_call fs_created fs_open "a" cfg0.RSFS_RDWR stack0 0 (by decide)))
    (Step.append_call fs_open fs_ab 0 [97, 98] 2 2 (by decide))

/-- The state `fs_two` is reachable: from `fs_ab` by `create("b")`,
`open("b", RSFS_RDWR)`, `append(1, "x", 1)`. -/
theorem reachable_fs_two : Reachable cfg0 (fun _ _ => 0) fs_two :=
  Reachable.step
    { fs_two with
      data_blocks := fs_ab.data_blocks
      data_bitmap := fs_ab.data_bitmap
      inodes := fs_ab.inodes
      open_file_table :=
        [{ used := 1, dir_entry := some 0, position := 2, access_flag := 1 },
         { used := 1, dir_entry := some 1, position := 0, access_flag := 1 }] }
    fs_two
    (Reachable.step
      { fs_ab with inode_bitmap := fs_two.inode_bitmap, root_dir := fs_two.root_dir, next_addr := 2 }
      _
      (Reachable.step fs_ab _ reachable_fs_ab
        (Step.create_call fs_ab _ "b" 0 (by decide)))
      (Step.open_call _ _ "b" cfg0.RSFS_RDWR stack0 1 (by decide)))
    (Step.append_call _ fs_two 1 [120] 1 1 (by decide))

/-- The lengths of the inodes are inside the bounds when the invariant holds. -/
theorem length_bound_of_inv (c : Config) (s : FS) (h : store_inv c s) :
    ∀ ino ∈ s.inodes,
      0 ≤ ino.length ∧ ino.length ≤ ((c.NUM_POINTER * c.BLOCK_SIZE : Nat) : Int) := by
  intro ino hino
  exact h.lengths ino.length (List.mem_map_of_mem (fun a : inode => a.length) hino)

/-- Two inodes share no block, and every block an inode names is marked
allocated, when the invariant holds. -/
theorem ownership_of_inv (c : Config) (s : FS) (h : store_inv c s) :
    (∀ (i j : Nat) (A B : inode), i ≠ j → s.inodes[i]? = some A → s.inodes[j]? = some B →
        ∀ b, b ≠ -1 → b ∈ A.block → b ∉ B.block) ∧
      ∀ ino ∈ s.inodes, ∀ b ∈ ino.block, b ≠ -1 →
        0 ≤ b ∧ s.data_bitmap[b.toNat]? = some 1 := by
  constructor
  · intro i j A B hne hA hB b hb hbA hbB
    have hA1 : (ptr_table s)[i]? = some A.block := by simp [ptr_table, hA]
    have hB1 : (ptr_table s)[j]? = some B.block := by simp [ptr_table, hB]
    exact hb (h.disjoint i j _ _ hne hA1 hB1 b hbA hbB)
  · intro ino hino b hb hne
    rcases h.marked ino.block (List.mem_map_of_mem (fun a : inode => a.block) hino) b hb
      with h1 | h1
    · exact absurd h1 hne
    · exact h1

/-- The state `fs_full` is reachable: `create("a")`, `open("a", RSFS_RDWR)`,
`append(0, "12345678", 8)`. -/
theorem reachable_fs_full : Reachable cfg0 (fun _ _ => 0) fs_full :=
  Reachable.step fs_open fs_full
    (Reachable.step fs_created fs_open
      (Reachable.step fs_init fs_created Reachable.init
        (Step.create_call fs_init fs_created "a" 0 (by decide)))
      (Step.open_call fs_created fs_open "a" cfg0.RSFS_RDWR stack0 0 (by decide)))
    (Step.append_call fs_open fs_full 0 [1, 2, 3, 4, 5, 6, 7, 8] 8 8 (by decide))

/-- The lengths stay inside the bounds along the calls that return without a
fault.  A call that reads the pointer array outside its bounds is a fault and
leaves no state here, so this says nothing about an append past the capacity of
a file. -/
theorem reachable_length_bound (c : Config) (mem : Nat → Nat → Nat) (s : FS)
    (h : Reachable c mem s) :
    ∀ ino ∈ s.inodes,
      0 ≤ ino.length ∧ ino.length ≤ ((c.NUM_POINTER * c.BLOCK_SIZE : Nat) : Int) :=
  length_bound_of_inv c s (reachable_store_inv c mem s h)

/-! ## The claims -/

/-- Claim C1, counterexample.  In the state `fs_ab` (reached by create, open
read-write, append "ab") descriptor `0` is a read-write descriptor, one pointer
slot is unused and three blocks are free; `append(0, "cd", 2)`, `fseek(0, 0)`,
`read(0, buf, 2)` return `2`, `0`, `2`, but the buffer holds "ab", not "cd". -/
theorem C1_counterexample :
    run_ab = .ok (2, fs_ab) ∧
    descriptor_on fs_ab 0 { used := 1, dir_entry := some 0, position := 2, access_flag := 1 }
      dir_a 0 ino_ab ∧
    cfg0.RSFS_RDWR = 1 ∧ inode_ok cfg0 fs_ab ino_ab ∧ pool_ok cfg0 fs_ab ∧
    unused_in cfg0 ino_ab.block 2 2 ≤ free_count fs_ab ∧
    ∃ (s1 s2 s3 : FS),
      RSFS_append cfg0 fs_ab 0 [99, 100] 2 = .ok (2, s1) ∧
      RSFS_fseek cfg0 s1 0 0 = .ok (0, s2) ∧
      RSFS_read cfg0 s2 0 [0, 0] 2 = .ok (2, [97, 98], s3) ∧
      ([97, 98] : List Nat) ≠ [99, 100] :=
  ⟨by decide, by decide, by decide, by decide, by decide, by decide,
    _, _, _, by rfl, by rfl, by rfl, by decide⟩

/-- Claim C1, amended.  Round trip on an empty file: in every well-formed state
in which `fd` is a read-write descriptor at position `0` on a file of length
`0`, the open-file table and bitmap locks are free and at least as many data
blocks are free as `X` needs, for every `X` with
`0 < len(X) ≤ NUM_POINTER * BLOCK_SIZE`, the calls `RSFS_append(fd, X, len(X))`,
`RSFS_fseek(fd, 0)`, `RSFS_read(fd, buf, len(X))` return `len(X)`, `0`,
`len(X)`, and the buffer starts with exactly `X`. -/
theorem C1_round_trip (c : Config) (s : FS) (fd i : Nat) (e : open_file_entry)
    (d : dir_entry) (ino : inode) (X buf : List Nat)
    (hBS : 0 < c.BLOCK_SIZE) (hrw : c.RSFS_RDWR ≠ 0) (hfd : fd < c.NUM_OPEN_FILE)
    (hlock : s.open_file_table_mutex = false) (hmx : s.data_bitmap_mutex = false)
    (hdesc : descriptor_on s fd e d i ino) (_hmode : e.access_flag = c.RSFS_RDWR)
    (hpos : e.position = 0) (_hlen : ino.length = 0)
    (hok : inode_ok c s ino) (hpool : pool_ok c s)
    (hn : 0 < X.length) (hcap : X.length ≤ c.NUM_POINTER * c.BLOCK_SIZE)
    (hfree : unused_in c ino.block 0 X.length ≤ free_count s)
    (hbuf : X.length ≤ buf.length) :
    ∃ (s1 s2 s3 : FS) (buf1 : List Nat),
      RSFS_append c s (fd : Int) X (X.length : Int) = .ok ((X.length : Int), s1) ∧
      RSFS_fseek c s1 (fd : Int) 0 = .ok (0, s2) ∧
      RSFS_read c s2 (fd : Int) buf (X.length : Int) = .ok ((X.length : Int), buf1, s3) ∧
      buf1.take X.length = X :=
  round_trip c s fd i e d ino X buf hBS hrw hfd hlock hmx hdesc hpos hok hpool hn hcap hfree hbuf

/-- Claim C1, amended: the theorem at the empty file "a" of `fs_open` and
`X = "hello"`. -/
theorem C1_round_trip_witness :
    descriptor_on fs_open 0 { used := 1, dir_entry := some 0, position := 0, access_flag := 1 }
      dir_a 0
      { block := [-1, -1], length := 0, num_current_reader := 0, rw_mutex := false,
        read_mutex := false } ∧
    ∃ (s1 s2 s3 : FS) (buf1 : List Nat),
      RSFS_append cfg0 fs_open ((0 : Nat) : Int) [104, 101, 108, 108, 111]
        (([104, 101, 108, 108, 111] : List Nat).length : Int) =
          .ok ((([104, 101, 108, 108, 111] : List Nat).length : Int), s1) ∧
      RSFS_fseek cfg0 s1 ((0 : Nat) : Int) 0 = .ok (0, s2) ∧
      RSFS_read cfg0 s2 ((0 : Nat) : Int) [0, 0, 0, 0, 0, 0]
        (([104, 101, 108, 108, 111] : List Nat).length : Int) =
          .ok ((([104, 101, 108, 108, 111] : List Nat).length : Int), buf1, s3) ∧
      buf1.take ([104, 101, 108, 108, 111] : List Nat).length = [104, 101, 108, 108, 111] :=
  ⟨by decide,
    C1_round_trip cfg0 fs_open 0 0
      { used := 1, dir_entry := some 0, position := 0, access_flag := 1 } dir_a
      { block := [-1, -1], length := 0, num_current_reader := 0, rw_mutex := false,
        read_mutex := false }
      [104, 101, 108, 108, 111] [0, 0, 0, 0, 0, 0]
      (by decide) (by decide) (by decide) (by decide) (by decide) (by decide) (by decide)
      (by decide) (by decide) (by decide) (by decide) (by decide) (by decide) (by decide)
      (by decide)⟩

/-- Claim C2.  End to end across descriptors: from `RSFS_init()`, for every
file name and every non-empty `X` that fits in one file and in the pool, and
whatever the uninitialised `currentFile` of the two `RSFS_open` calls holds,
`create(name)` returns `0`, `open(name, RSFS_RDWR)` returns descriptor `0`,
`append` returns `len(X)`, `close` returns `0`, `open(name, RSFS_RDONLY)`
returns descriptor `0` (it does not block), `read` returns `len(X)` with the
buffer starting with exactly `X`, and `close` returns `0`. -/
theorem C2_end_to_end (c : Config) (mem : Nat → Nat → Nat) (name : String) (X buf : List Nat)
    (g1 g2 : open_file_entry)
    (hBS : 0 < c.BLOCK_SIZE) (hrw : c.RSFS_RDWR ≠ 0) (hne : c.RSFS_RDONLY ≠ c.RSFS_RDWR)
    (hI : 0 < c.NUM_INODES) (hF : 0 < c.NUM_OPEN_FILE)
    (hX : 0 < X.length) (hcap : X.length ≤ c.NUM_POINTER * c.BLOCK_SIZE)
    (hblocks : (X.length - 1) / c.BLOCK_SIZE + 1 ≤ c.NUM_DBLOCKS)
    (hbuf : X.length ≤ buf.length) :
    (RSFS_init c mem).1 = 0 ∧
    ∃ (s1 s2 s3 s4 s5 s6 s7 : FS) (buf1 : List Nat),
      RSFS_create (RSFS_init c mem).2 name = .ok (0, s1) ∧
      RSFS_open c s1 name c.RSFS_RDWR g1 = .ok (0, s2) ∧
      RSFS_append c s2 0 X (X.length : Int) = .ok ((X.length : Int), s3) ∧
      RSFS_close c s3 0 = .ok (0, s4) ∧
      RSFS_open c s4 name c.RSFS_RDONLY g2 = .ok (0, s5) ∧
      RSFS_read c s5 0 buf (X.length : Int) = .ok ((X.length : Int), buf1, s6) ∧
      buf1.take X.length = X ∧
      RSFS_close c s6 0 = .ok (0, s7) := by
  refine ⟨rfl, ?_⟩
  obtain ⟨ni, hni⟩ : ∃ ni, c.NUM_INODES = ni + 1 := ⟨c.NUM_INODES - 1, by omega⟩
  obtain ⟨nf, hnf⟩ : ∃ nf, c.NUM_OPEN_FILE = nf + 1 := ⟨c.NUM_OPEN_FILE - 1, by omega⟩
  have hcreate := init_create c mem name hI
  -- the state after `create`
  obtain ⟨s1, hs1⟩ : ∃ s1 : FS, s1 =
      { (RSFS_init c mem).2 with
        root_dir := [{ addr := 0, name := name, inode_number := 0 }]
        next_addr := 1
        inode_bitmap := (List.replicate c.NUM_INODES 0).set 0 1 } := ⟨_, rfl⟩
  rw [← hs1] at hcreate
  have h1root : s1.root_dir = [{ addr := 0, name := name, inode_number := 0 }] := by rw [hs1]
  have h1tab : s1.open_file_table =
      { used := 0, dir_entry := none, position := 0, access_flag := 0 } ::
        List.replicate nf { used := 0, dir_entry := none, position := 0, access_flag := 0 } := by
    rw [hs1]; simp [RSFS_init, hnf, List.replicate_succ]
  have h1ino : s1.inodes =
      { block := List.replicate c.NUM_POINTER (-1), length := 0, num_current_reader := 0,
        rw_mutex := false, read_mutex := false } ::
        List.replicate ni
          { block := List.replicate c.NUM_POINTER (-1), length := 0, num_current_reader := 0,
            rw_mutex := false, read_mutex := false } := by
    rw [hs1]; simp [RSFS_init, hni, List.replicate_succ]
  have h1lock : s1.open_file_table_mutex = false := by rw [hs1]; rfl
  have h1mx : s1.data_bitmap_mutex = false := by rw [hs1]; rfl
  have h1blocks : s1.data_blocks = (List.range c.NUM_DBLOCKS).map
      (fun i => (List.range c.BLOCK_SIZE).map (fun j => mem i j)) := by rw [hs1]; rfl
  have h1bitmap : s1.data_bitmap = List.replicate c.NUM_DBLOCKS 0 := by rw [hs1]; rfl
  have h1search : search_dir s1 name = some { addr := 0, name := name, inode_number := 0 } := by
    simp [search_dir, h1root]
  clear hs1
  -- the first `open`
  obtain ⟨s2, ino2, hopen1, h2tab, h2ino, h2blk, h2len, h2rm, h2root, h2lock, h2mx, h2blocks,
      h2bitmap⟩ :=
    open_ex c s1 name c.RSFS_RDWR g1 _ 0 0 _ (Or.inr rfl) h1lock h1search rfl
      (by rw [h1ino]; exact List.getElem?_cons_zero) (by rw [h1tab]; simp [first_unused]) rfl rfl
  rw [h1tab] at h2tab
  rw [h1ino] at h2ino
  simp only [List.set_cons_zero] at h2tab h2ino
  simp only at h2blk h2len
  rw [h1root] at h2root
  rw [h1mx] at h2mx
  rw [h1blocks] at h2blocks
  rw [h1bitmap] at h2bitmap
  -- the `append`
  have hdesc2 : descriptor_on s2 0
      { used := 1, dir_entry := some 0, position := 0, access_flag := c.RSFS_RDWR }
      { addr := 0, name := name, inode_number := 0 } 0 ino2 :=
    descriptor_on_intro _ _ _ _ _ _ 0 (by rw [h2tab]; exact List.getElem?_cons_zero) rfl h2root rfl rfl
      (by rw [h2ino]; exact List.getElem?_cons_zero)
  have hpool2 : pool_ok c s2 := by
    refine ⟨by rw [h2bitmap, h2blocks]; simp, ?_⟩
    intro blk hblk
    rw [h2blocks] at hblk
    simp only [List.mem_map, List.mem_range] at hblk
    obtain ⟨_, _, rfl⟩ := hblk
    simp
  have hfree2 : unused_in c ino2.block 0 X.length ≤ free_count s2 := by
    rw [h2blk]
    refine le_trans (unused_in_replicate c 0 X.length _) ?_
    simp only [free_count, h2bitmap, List.count_replicate_self, Nat.zero_add, Nat.zero_div,
      Nat.sub_zero]
    exact hblocks
  obtain ⟨s3, ino3, happ, h3tab, h3ino, h3len, h3ptr, h3rm, _, _, h3bytes, _, _, _, _, h3root,
      h3lock, _, _⟩ :=
    append_ex c s2 0 0 0 X.length _ _ ino2 X hBS hrw (Nat.zero_le _) h2lock h2mx hdesc2 rfl
      (inode_ok_fresh c s2 ino2 h2blk) hpool2 hX (le_refl _) (by omega) hfree2
  rw [h2tab] at h3tab
  rw [h2ino] at h3ino
  rw [h2root] at h3root
  rw [h2rm] at h3rm
  simp only [List.set_cons_zero, Nat.zero_add] at h3tab h3ino h3len h3bytes
  -- the first `close`
  have hdesc3 : descriptor_on s3 0
      { used := 1, dir_entry := some 0, position := (X.length : Int), access_flag := c.RSFS_RDWR }
      { addr := 0, name := name, inode_number := 0 } 0 ino3 :=
    descriptor_on_intro _ _ _ _ _ _ 0 (by rw [h3tab]; exact List.getElem?_cons_zero) rfl h3root rfl rfl
      (by rw [h3ino]; exact List.getElem?_cons_zero)
  obtain ⟨s4, ino4, hclose1, h4tab, h4ino, h4blk, h4len, h4rm, h4rw, h4root, h4lock, _,
      h4blocks, _⟩ :=
    close_ex c s3 0 0 _ _ ino3 (Nat.zero_le _) h3lock hdesc3 h3rm
  rw [h3tab] at h4tab
  rw [h3ino] at h4ino
  rw [h3root] at h4root
  simp only [List.set_cons_zero] at h4tab h4ino
  have h4rw := h4rw (fun h => hne h.symm)
  have h4search : search_dir s4 name = some { addr := 0, name := name, inode_number := 0 } := by
    simp [search_dir, h4root]
  -- the second `open`
  obtain ⟨s5, ino5, hopen2, h5tab, h5ino, h5blk, h5len, h5rm, h5root, h5lock, _, h5blocks, _⟩ :=
    open_ex c s4 name c.RSFS_RDONLY g2 _ 0 0 _ (Or.inl rfl) h4lock h4search rfl
      (by rw [h4ino]; exact List.getElem?_cons_zero) (by rw [h4tab]; simp [first_unused]) h4rm h4rw
  rw [h4tab] at h5tab
  rw [h4ino] at h5ino
  rw [h4root] at h5root
  simp only [List.set_cons_zero] at h5tab h5ino
  -- the `read`
  have hdesc5 : descriptor_on s5 0
      { used := 1, dir_entry := some 0, position := 0, access_flag := c.RSFS_RDONLY }
      { addr := 0, name := name, inode_number := 0 } 0 ino5 :=
    descriptor_on_intro _ _ _ _ _ _ 0 (by rw [h5tab]; exact List.getElem?_cons_zero) rfl h5root rfl rfl
      (by rw [h5ino]; exact List.getElem?_cons_zero)
  have h5bytes : ∀ t : Nat, t < X.length → file_byte c s5 ino5 t = X[t]? := by
    intro t ht
    rw [← h3bytes t ht]
    exact file_byte_congr c s5 s3 ino5 ino3 t (by rw [h5blocks, h4blocks])
      (by rw [h5blk, h4blk])
  obtain ⟨s6, buf1, hread, htake, h6tab, h6ino, h6root, h6lock⟩ :=
    read_all_ex c s5 0 0 X.length _ _ ino5 X buf hBS hF h5lock hdesc5 hX rfl
      (by rw [h5len, h4len, h3len]) (by rw [h5blk, h4blk]; exact h3ptr) rfl h5bytes hbuf
  rw [h5tab] at h6tab
  rw [h5ino] at h6ino
  rw [h5root] at h6root
  simp only [List.set_cons_zero] at h6tab
  -- the second `close`
  have hdesc6 : descriptor_on s6 0
      { used := 1, dir_entry := some 0, position := (X.length : Int),
        access_flag := c.RSFS_RDONLY }
      { addr := 0, name := name, inode_number := 0 } 0 ino5 :=
    descriptor_on_intro _ _ _ _ _ _ 0 (by rw [h6tab]; exact List.getElem?_cons_zero) rfl h6root rfl rfl
      (by rw [h6ino]; exact List.getElem?_cons_zero)
  obtain ⟨s7, _, hclose2, _⟩ :=
    close_ex c s6 0 0 _ _ ino5 (Nat.zero_le _) h6lock hdesc6 h5rm
  exact ⟨s1, s2, s3, s4, s5, s6, s7, buf1, hcreate, hopen1, happ, hclose1, hopen2, hread, htake,
    hclose2⟩

/-- Claim C2: the theorem at the name "a" and `X = "hello"`; `append` returns `5`. -/
theorem C2_end_to_end_witness :
    (0 < cfg0.BLOCK_SIZE ∧ cfg0.RSFS_RDWR ≠ 0 ∧ cfg0.RSFS_RDONLY ≠ cfg0.RSFS_RDWR) ∧
    (RSFS_init cfg0 (fun _ _ => 0)).1 = 0 ∧
    ∃ (s1 s2 s3 s4 s5 s6 s7 : FS) (buf1 : List Nat),
      RSFS_create (RSFS_init cfg0 (fun _ _ => 0)).2 "a" = .ok (0, s1) ∧
      RSFS_open cfg0 s1 "a" cfg0.RSFS_RDWR stack0 = .ok (0, s2) ∧
      RSFS_append cfg0 s2 0 [104, 101, 108, 108, 111]
        (([104, 101, 108, 108, 111] : List Nat).length : Int) =
          .ok ((([104, 101, 108, 108, 111] : List Nat).length : Int), s3) ∧
      RSFS_close cfg0 s3 0 = .ok (0, s4) ∧
      RSFS_open cfg0 s4 "a" cfg0.RSFS_RDONLY stack0 = .ok (0, s5) ∧
      RSFS_read cfg0 s5 0 [0, 0, 0, 0, 0]
        (([104, 101, 108, 108, 111] : List Nat).length : Int) =
          .ok ((([104, 101, 108, 108, 111] : List Nat).length : Int), buf1, s6) ∧
      buf1.take ([104, 101, 108, 108, 111] : List Nat).length = [104, 101, 108, 108, 111] ∧
      RSFS_close cfg0 s6 0 = .ok (0, s7) :=
  ⟨by decide,
    C2_end_to_end cfg0 (fun _ _ => 0) "a" [104, 101, 108, 108, 111] [0, 0, 0, 0, 0] stack0 stack0
      (by decide) (by decide) (by decide) (by decide) (by decide) (by decide) (by decide)
      (by decide) (by decide)⟩

/-- Claim C3, the code at the failing input.  The file "a" holds "ab" (length
`2`); after `fseek(0, 0)` the call `append(0, "c", 1)` returns `1`, but the byte
is written at offset `0`, the position of the descriptor, not at the length
`2`: byte `0` of the file changes from `97` to `99`, and the length and the
position become `1`, not `3`. -/
theorem C3_append_writes_at_position :
    run_ab = .ok (2, fs_ab) ∧
    fs_ab.inodes[0]? = some ino_ab ∧ ino_ab.length = 2 ∧
    file_byte cfg0 fs_ab ino_ab 0 = some 97 ∧
    RSFS_fseek cfg0 fs_ab 0 0 = .ok (0, fs_ab_rewound) ∧
    ∃ (s : FS) (ino : inode) (e : open_file_entry),
      RSFS_append cfg0 fs_ab_rewound 0 [99] 1 = .ok (1, s) ∧
      s.inodes[0]? = some ino ∧ ino.length = 1 ∧ file_byte cfg0 s ino 0 = some 99 ∧
      s.open_file_table[0]? = some e ∧ e.position = 1 :=
  ⟨by decide, by decide, by decide, by decide, by decide,
    _, _, _, by rfl, by rfl, by decide, by decide, by rfl, by decide⟩

/-- Claim C4, the code at the failing input.  Descriptor `0` is at the end of
the file "ab" (position `2`, length `2`) and the table lock is free;
`read(0, buf, 1)` returns `0` and leaves the buffer and every table as they
were, but it returns without releasing `open_file_table_mutex`: the state is
not the one before the call, and the next `read` or `close` on the descriptor
never returns. -/
theorem C4_read_at_end_keeps_lock :
    run_ab = .ok (2, fs_ab) ∧ fs_ab.open_file_table_mutex = false ∧
    RSFS_read cfg0 fs_ab 0 [0] 1 =
      .ok (0, [0], { fs_ab with open_file_table_mutex := true }) ∧
    ({ fs_ab with open_file_table_mutex := true } : FS) ≠ fs_ab ∧
    RSFS_read cfg0 { fs_ab with open_file_table_mutex := true } 0 [0] 1 = .fault .blocked ∧
    RSFS_close cfg0 { fs_ab with open_file_table_mutex := true } 0 = .fault .blocked :=
  ⟨by decide, by decide, by decide, by decide, by decide, by decide⟩

/-- Claim C5, the code at the failing input.  Descriptor `0` is at position `2`
of the file "ab" (length `2`) and the table lock is free; `fseek(0, 3)` returns
the position `2` and leaves the position and every table as they were, but it
returns without releasing `open_file_table_mutex`: the state is not the one
before the call, and the next `fseek` or `close` on the descriptor never
returns. -/
theorem C5_fseek_out_of_range_keeps_lock :
    run_ab = .ok (2, fs_ab) ∧ fs_ab.open_file_table_mutex = false ∧
    RSFS_fseek cfg0 fs_ab 0 3 = .ok (2, { fs_ab with open_file_table_mutex := true }) ∧
    ({ fs_ab with open_file_table_mutex := true } : FS) ≠ fs_ab ∧
    RSFS_fseek cfg0 { fs_ab with open_file_table_mutex := true } 0 0 = .fault .blocked ∧
    RSFS_close cfg0 { fs_ab with open_file_table_mutex := true } 0 = .fault .blocked :=
  ⟨by decide, by decide, by decide, by decide, by decide, by decide⟩

/-- Claim C6, the code at the failing input.  After `create("a")` and
`open("a", RSFS_RDONLY)` the descriptor `0` records the mode `RSFS_RDONLY`;
`append(0, "x", 1)` returns `1`, not `-1`: the file grows to length `1`, a data
block is allocated, and the descriptor now records `RSFS_RDWR` at position `1`. -/
theorem C6_append_on_read_only :
    ∃ (s1 s2 s3 : FS) (e2 e3 : open_file_entry) (ino3 : inode),
      RSFS_create fs_init "a" = .ok (0, s1) ∧
      RSFS_open cfg0 s1 "a" cfg0.RSFS_RDONLY stack0 = .ok (0, s2) ∧
      s2.open_file_table[0]? = some e2 ∧ e2.access_flag = cfg0.RSFS_RDONLY ∧
      RSFS_append cfg0 s2 0 [120] 1 = .ok (1, s3) ∧
      s3.open_file_table[0]? = some e3 ∧ e3.access_flag = cfg0.RSFS_RDWR ∧ e3.position = 1 ∧
      s3.inodes[0]? = some ino3 ∧ ino3.length = 1 ∧ file_byte cfg0 s3 ino3 0 = some 120 ∧
      s3.data_bitmap = [1, 0, 0, 0] ∧ s2.data_bitmap = [0, 0, 0, 0] :=
  ⟨_, _, _, _, _, _, by rfl, by rfl, by rfl, by decide, by rfl, by rfl, by decide, by decide,
    by rfl, by decide, by decide, by decide, by decide⟩

/-- Claim C7, the code at the failing input.  With both inodes of `cfg0`
allocated and no entry "c" in the directory, `create("c")` returns `-2`, and the
directory has gained an entry "c" (with no inode): a second `create("c")`
returns `-1`, the code of a name that exists. -/
theorem C7_create_exhausted_leaves_entry :
    ∃ (s1 s2 s3 : FS),
      RSFS_create fs_init "a" = .ok (0, s1) ∧ RSFS_create s1 "b" = .ok (0, s2) ∧
      s2.inode_bitmap = [1, 1] ∧ search_dir s2 "c" = none ∧
      RSFS_create s2 "c" = .ok (-2, s3) ∧
      search_dir s3 "c" = some { addr := 2, name := "c", inode_number := -1 } ∧
      s3.root_dir ≠ s2.root_dir ∧ RSFS_create s3 "c" = .ok (-1, s3) :=
  ⟨_, _, _, by rfl, by rfl, by decide, by decide, by rfl, by decide, by decide, by decide⟩

/-- Claim C8, the code at the failing input.  After the file "a" (holding "ab")
is closed and deleted, `create("b")` returns `0` and takes inode `0`, which was
free before the call and is allocated after it, but the inode still has length
`2` and still points to block `0`. -/
theorem C8_reused_inode_not_empty :
    run_ab = .ok (2, fs_ab) ∧ RSFS_close cfg0 fs_ab 0 = .ok (0, fs_ab_closed) ∧
    ∃ (s1 s2 : FS) (d : dir_entry) (ino : inode),
      RSFS_delete fs_ab_closed "a" = .ok (0, s1) ∧ s1.inode_bitmap[0]? = some 0 ∧
      RSFS_create s1 "b" = .ok (0, s2) ∧
      search_dir s2 "b" = some d ∧ d.inode_number = 0 ∧ s2.inode_bitmap[0]? = some 1 ∧
      s2.inodes[0]? = some ino ∧ ino.length = 2 ∧ ino.block = [0, -1] :=
  ⟨by decide, by decide, _, _, _, _, by rfl, by decide, by rfl, by rfl, by decide, by decide,
    by rfl, by decide, by decide⟩

/-- Claim C9, the code at the failing input.  The file "a" holds block `0` and
has no open descriptor; `delete("a")` returns `0`, the name is gone and the
inode is free, but block `0` is still marked allocated: the number of free
blocks is the same as before. -/
theorem C9_delete_keeps_blocks :
    run_ab = .ok (2, fs_ab) ∧ RSFS_close cfg0 fs_ab 0 = .ok (0, fs_ab_closed) ∧
    fs_ab_closed.inodes[0]? = some ino_ab ∧ ino_ab.block = [0, -1] ∧
    ∃ s : FS,
      RSFS_delete fs_ab_closed "a" = .ok (0, s) ∧ search_dir s "a" = none ∧
      s.inode_bitmap[0]? = some 0 ∧ s.data_bitmap[0]? = some 1 ∧
      free_count s = free_count fs_ab_closed :=
  ⟨by decide, by decide, by decide, by decide, _, by rfl, by decide, by decide, by decide,
    by decide⟩

/-- Claim C10, counterexample.  In `fs_ab` the in-use descriptor `0`
references the inode of "a"; `delete("a")` returns `0`, the directory and the
inode bitmap change, and descriptor `0`, still in use, points to a removed
directory entry whose inode is free. -/
theorem C10_counterexample :
    run_ab = .ok (2, fs_ab) ∧
    descriptor_on fs_ab 0 { used := 1, dir_entry := some 0, position := 2, access_flag := 1 }
      dir_a 0 ino_ab ∧
    ∃ (s : FS) (e : open_file_entry),
      RSFS_delete fs_ab "a" = .ok (0, s) ∧
      s.root_dir ≠ fs_ab.root_dir ∧ s.inode_bitmap ≠ fs_ab.inode_bitmap ∧
      s.open_file_table[0]? = some e ∧ e.used = 1 ∧
      deref s e.dir_entry = .fault .dangling ∧ s.inode_bitmap[0]? = some 0 :=
  ⟨by decide, by decide, _, _, by rfl, by decide, by decide, by rfl, by decide, by decide,
    by decide⟩

/-- Claim C10, amended.  `RSFS_delete` makes no check of the open-file table:
on an existing name whose inode is marked allocated (the inode bitmap lock
being free) it returns `0`, clears the flag of the inode and removes the
directory entry, whether or not an in-use descriptor references the inode, and
leaves the open-file table and everything else as it was. -/
theorem C10_delete_ignores_descriptors (s : FS) (file_name : String) (d : dir_entry) (i : Nat)
    (b : Int) (hsearch : search_dir s file_name = some d) (hdi : d.inode_number = (i : Int))
    (hbit : s.inode_bitmap[i]? = some b) (hb : b ≠ 0)
    (hmx : s.inode_bitmap_mutex = false) :
    RSFS_delete s file_name =
      .ok (0,
        { s with
          inode_bitmap := s.inode_bitmap.set i 0
          root_dir := s.root_dir.eraseP (fun e => decide (e.name = file_name)) }) := by
  have hfind : s.root_dir.find? (fun e => decide (e.name = file_name)) = some d := hsearch
  simp [RSFS_delete, hsearch, hdi, free_inode, hmx, at?_natCast, hbit, hb, delete_dir, hfind]

/-- Claim C10, amended: the theorem at `fs_ab`, where descriptor `0` is open on
the deleted file. -/
theorem C10_delete_ignores_descriptors_witness :
    descriptor_on fs_ab 0 { used := 1, dir_entry := some 0, position := 2, access_flag := 1 }
      dir_a 0 ino_ab ∧
    RSFS_delete fs_ab "a" =
      .ok (0,
        { fs_ab with
          inode_bitmap := fs_ab.inode_bitmap.set 0 0
          root_dir := fs_ab.root_dir.eraseP (fun e => decide (e.name = "a")) }) :=
  ⟨by decide, C10_delete_ignores_descriptors fs_ab "a" dir_a 0 1 (by decide) (by decide)
    (by decide) (by decide) (by decide)⟩

/-- Claim C11 (invalid descriptors are rejected), at the state `fs_ab` with
`NUM_OPEN_FILE = 2`.  The descriptor `2 = NUM_OPEN_FILE` passes the test
`fd <= NUM_OPEN_FILE` of `RSFS_read`, `RSFS_append` and `RSFS_close`, which then
index the open-file table outside its bounds, while `RSFS_fseek` rejects it with
`-1`; `RSFS_append` reaches the end of the function without a `return` for a
descriptor below `0` or above `NUM_OPEN_FILE`; and on the slot `1`, which is in
range and not in use, all four operations follow the `NULL` pointer of the slot. -/
theorem C11_invalid_descriptor_not_rejected :
    run_ab = .ok (2, fs_ab) ∧ cfg0.NUM_OPEN_FILE = 2 ∧
    RSFS_read cfg0 fs_ab 2 [0] 1 = .fault .out_of_bounds ∧
    RSFS_append cfg0 fs_ab 2 [0] 1 = .fault .out_of_bounds ∧
    RSFS_close cfg0 fs_ab 2 = .fault .out_of_bounds ∧
    RSFS_fseek cfg0 fs_ab 2 0 = .ok (-1, fs_ab) ∧
    RSFS_append cfg0 fs_ab (-1) [0] 1 = .fault .no_return_value ∧
    RSFS_append cfg0 fs_ab 3 [0] 1 = .fault .no_return_value ∧
    fs_ab.open_file_table[1]? =
      some { used := 0, dir_entry := none, position := 0, access_flag := 0 } ∧
    RSFS_read cfg0 fs_ab 1 [0] 1 = .fault .null_deref ∧
    RSFS_append cfg0 fs_ab 1 [0] 1 = .fault .null_deref ∧
    RSFS_fseek cfg0 fs_ab 1 0 = .fault .null_deref ∧
    RSFS_close cfg0 fs_ab 1 = .fault .null_deref :=
  ⟨by decide, by decide, by decide, by decide, by decide, by decide, by decide, by decide,
    by decide, by decide, by decide, by decide, by decide⟩

/-- Claim C12 (opening a name that is not in the directory fails with a negative
result), at the state after `RSFS_init()`: `search_dir` finds nothing and
`RSFS_open` follows the `NULL` pointer it returns, in either mode, where
`RSFS_delete` tests the pointer and returns `-1`. -/
theorem C12_open_missing_file :
    search_dir fs_init "a" = none ∧ fs_init.open_file_table_mutex = false ∧
    RSFS_open cfg0 fs_init "a" cfg0.RSFS_RDONLY stack0 = .fault .null_deref ∧
    RSFS_open cfg0 fs_init "a" cfg0.RSFS_RDWR stack0 = .fault .null_deref ∧
    RSFS_delete fs_init "a" = .ok (-1, fs_init) :=
  ⟨by decide, by decide, by decide, by decide, by decide⟩

/-- Claim C13 (an append past `NUM_POINTER` blocks fails and the pointer array is
never indexed out of bounds), on an empty file opened read-write with `8` bytes
of capacity and four free blocks: appending `9` bytes indexes the pointer array
at `NUM_POINTER`, appending `8` bytes succeeds. -/
theorem C13_append_past_capacity :
    and_then (RSFS_create fs_init "a") (fun s => RSFS_open cfg0 s "a" cfg0.RSFS_RDWR stack0) =
      .ok (0, fs_open) ∧
    cfg0.NUM_POINTER * cfg0.BLOCK_SIZE = 8 ∧ free_count fs_open = 4 ∧
    RSFS_append cfg0 fs_open 0 [1, 2, 3, 4, 5, 6, 7, 8, 9] 9 = .fault .out_of_bounds ∧
    observe (fun s => s.inodes.map (fun a => a.length))
      (RSFS_append cfg0 fs_open 0 [1, 2, 3, 4, 5, 6, 7, 8] 8) = some (8, [8, 0]) :=
  ⟨by decide, by decide, by decide, by decide, by decide⟩

/-- Claim C14 as it is stated fails: with one free block, appending `5` bytes to
an empty file returns `-1` after `4` bytes were copied; the block stays linked
and holds the bytes, and the length of the inode and the position of the
descriptor are still `0`, not `4`. -/
theorem C14_counterexample :
    run1_open = .ok (0, fs1_open) ∧ free_count fs1_open = 1 ∧
    observe (fun s => s.inodes.map (fun a => a.block)) (RSFS_append cfg1 fs1_open 0 [1, 2, 3, 4, 5] 5) =
      some (-1, [[0, -1]]) ∧
    observe (fun s => s.data_blocks) (RSFS_append cfg1 fs1_open 0 [1, 2, 3, 4, 5] 5) =
      some (-1, [[1, 2, 3, 4]]) ∧
    observe (fun s => s.inodes.map (fun a => a.length))
        (RSFS_append cfg1 fs1_open 0 [1, 2, 3, 4, 5] 5) = some (-1, [0]) ∧
    observe (fun s => s.open_file_table.map (fun e => e.position))
        (RSFS_append cfg1 fs1_open 0 [1, 2, 3, 4, 5] 5) = some (-1, [0]) :=
  ⟨by decide, by decide, by decide, by decide, by decide, by decide⟩

/-- Claim C14 as amended (an append that runs out of blocks keeps what it wrote but
records no progress): on a well-formed file, when fewer blocks are free than the
unused slots the bytes `[p, p + n)` fall in, `RSFS_append` returns `-1` after
some `j < n` bytes; the slots that were linked stay linked, the `j` bytes are in
the file's blocks at `[p, p + j)`, the bytes outside keep their value, no block is
free and the slot of offset `p + j` is unused; the length of the inode and the
position of the descriptor are what they were before the call. -/
theorem C14_append_out_of_space (c : Config) (s : FS) (fd i p n : Nat) (e : open_file_entry)
    (d : dir_entry) (ino : inode) (X : List Nat)
    (hBS : 0 < c.BLOCK_SIZE) (hrw : c.RSFS_RDWR ≠ 0) (hfd : fd < c.NUM_OPEN_FILE)
    (hlock : s.open_file_table_mutex = false) (hmx : s.data_bitmap_mutex = false)
    (hdesc : descriptor_on s fd e d i ino) (_hmode : e.access_flag = c.RSFS_RDWR)
    (hpos : e.position = (p : Int))
    (hok : inode_ok c s ino) (hpool : pool_ok c s)
    (hX : n ≤ X.length) (hcap : p + n ≤ c.NUM_POINTER * c.BLOCK_SIZE)
    (hfree : free_count s < unused_in c ino.block p n) :
    ∃ (j : Nat) (s1 : FS) (ino1 : inode) (e1 : open_file_entry),
      j < n ∧ RSFS_append c s (fd : Int) X (n : Int) = .ok (-1, s1) ∧
      s1.inodes[i]? = some ino1 ∧ ino1.length = ino.length ∧
      s1.open_file_table[fd]? = some e1 ∧ e1.position = e.position ∧
      (∀ (k : Nat) (b : Int), ino.block[k]? = some b → b ≠ -1 → ino1.block[k]? = some b) ∧
      (∀ t : Nat, t < j → file_byte c s1 ino1 (p + t) = X[t]?) ∧
      (∀ (q : Nat) (v : Nat), (q < p ∨ p + j ≤ q) → file_byte c s ino q = some v →
        file_byte c s1 ino1 q = some v) ∧
      free_count s1 = 0 ∧ ino1.block[(p + j) / c.BLOCK_SIZE]? = some (-1) := by
  obtain ⟨j, block1, bitmap1, blocks1, hj, hrun, hA, hB, hcount, hkeep, hfail⟩ :=
    append_exhausted c s fd i p n e d ino X hBS hrw (le_of_lt hfd) hlock hmx hdesc hpos hok hpool
      hX hcap hfree
  obtain ⟨he, _, _, hino⟩ := hdesc
  have hfdL : fd < s.open_file_table.length := by
    by_contra hc
    simp [List.getElem?_eq_none (not_lt.mp hc)] at he
  have hiL : i < s.inodes.length := by
    by_contra hc
    simp [List.getElem?_eq_none (not_lt.mp hc)] at hino
  refine ⟨j, _, { ino with block := block1 }, { e with access_flag := c.RSFS_RDWR }, hj, hrun,
    ?_, rfl, ?_, rfl, hkeep, hA, hB, hcount, hfail⟩
  · simp [hiL]
  · simp [hfdL]

/-- Claim C14 as amended, on the empty file of `fs1_open` with one free block and
`5` bytes to append. -/
theorem C14_append_out_of_space_witness :
    descriptor_on fs1_open 0 { used := 1, dir_entry := some 0, position := 0, access_flag := 1 }
      dir_a 0
      { block := [-1, -1], length := 0, num_current_reader := 0, rw_mutex := false,
        read_mutex := false } ∧
    free_count fs1_open <
      unused_in cfg1
        ({ block := [-1, -1], length := 0, num_current_reader := 0, rw_mutex := false,
           read_mutex := false } : inode).block 0 5 ∧
    ∃ (j : Nat) (s1 : FS) (ino1 : inode) (e1 : open_file_entry),
      j < 5 ∧ RSFS_append cfg1 fs1_open ((0 : Nat) : Int) [1, 2, 3, 4, 5] ((5 : Nat) : Int) =
        .ok (-1, s1) ∧
      s1.inodes[0]? = some ino1 ∧ ino1.length = 0 ∧
      s1.open_file_table[0]? = some e1 ∧ e1.position = 0 := by
  refine ⟨by decide, by decide, ?_⟩
  obtain ⟨j, s1, ino1, e1, h1, h2, h3, h4, h5, h6, _⟩ :=
    C14_append_out_of_space cfg1 fs1_open 0 0 0 5
      { used := 1, dir_entry := some 0, position := 0, access_flag := 1 } dir_a
      { block := [-1, -1], length := 0, num_current_reader := 0, rw_mutex := false,
        read_mutex := false }
      [1, 2, 3, 4, 5] (by decide) (by decide) (by decide) (by decide) (by decide) (by decide)
      (by decide) (by decide) (by decide) (by decide) (by decide) (by decide) (by decide)
  exact ⟨j, s1, ino1, e1, h1, h2, h3, h4, h5, h6⟩

/-- Claim C15 (creating a name the directory holds): `RSFS_create` returns `-1` and
the whole state, so the directory, the inode bitmap and the inode table, is as
before. -/
theorem C15_create_existing (s : FS) (file_name : String)
    (h : ∃ e ∈ s.root_dir, e.name = file_name) :
    RSFS_create s file_name = .ok (-1, s) := by
  obtain ⟨d, hd⟩ := search_dir_of_mem s file_name h
  simp only [RSFS_create, hd]

/-- Claim C15, for the name "a" in the state `fs_ab`. -/
theorem C15_create_existing_witness :
    (∃ e ∈ fs_ab.root_dir, e.name = "a") ∧ RSFS_create fs_ab "a" = .ok (-1, fs_ab) :=
  ⟨⟨dir_a, by decide, by decide⟩, C15_create_existing fs_ab "a" ⟨dir_a, by decide, by decide⟩⟩

/-- Claim C16 (no read-write descriptor next to another descriptor on the same
file), on the run `create("a"); open("a", RSFS_RDONLY); open("a", RSFS_RDONLY);
close(0); open("a", RSFS_RDWR)`: whatever the uninitialised `currentFile` holds
in the three calls of `RSFS_open`, the last one returns descriptor `0`,
read-write, while the read-only descriptor `1` on the same file is in use. -/
theorem C16_writer_with_reader (g1 g2 g3 : open_file_entry) :
    observe (fun s => s.open_file_table) (run_reader_writer g1 g2 g3) =
      some (0,
        [{ used := 1, dir_entry := some 0, position := 0, access_flag := cfg0.RSFS_RDWR },
         { used := 1, dir_entry := some 0, position := 0, access_flag := cfg0.RSFS_RDONLY }]) := by
  by_cases h : g1.access_flag = 1 <;>
    simp [observe, run_reader_writer, run_two_readers, and_then, RSFS_create, fs_init, RSFS_init,
      cfg0, search_dir, insert_dir, allocate_inode, first_free, store_inode_number, RSFS_open,
      lock_open_file_table, unlock_open_file_table, scan_current_file, h, idx, at?, upd,
      allocate_open_file_entry, first_unused, RSFS_close, deref, free_open_file_entry]

/-- Claim C17 (every inode has `0 ≤ length ≤ NUM_POINTER * BLOCK_SIZE` in every
reachable state).  `RSFS_append` has no test of the capacity of a file.  In the
reachable state `fs_full` the file has all its `8` bytes and the descriptor is
at position `8`; an append of one more byte is not refused: its loop computes
the pointer index `8 / 4 = 2 = NUM_POINTER` and reads `block[2]`, outside the
pointer array.  An append of `9` bytes to the empty file of `fs_open` does the
same after its first `8` bytes.  Nothing but that read stands between the call
and a length above the bound. -/
theorem C17_length_bound_unguarded :
    Reachable cfg0 (fun _ _ => 0) fs_full ∧
    cfg0.NUM_POINTER * cfg0.BLOCK_SIZE = 8 ∧
    fs_full.inodes.map (fun a => a.length) = [8, 0] ∧
    fs_full.inodes.map (fun a => a.block.length) = [cfg0.NUM_POINTER, cfg0.NUM_POINTER] ∧
    fs_full.open_file_table.map (fun e => e.position) = [8, 0] ∧
    free_count fs_full = 2 ∧
    Int.tdiv 8 (cfg0.BLOCK_SIZE : Int) = (cfg0.NUM_POINTER : Int) ∧
    RSFS_append cfg0 fs_full 0 [9] 1 = .fault .out_of_bounds ∧
    RSFS_append cfg0 fs_open 0 [1, 2, 3, 4, 5, 6, 7, 8, 9] 9 = .fault .out_of_bounds :=
  ⟨reachable_fs_full, by decide, by decide, by decide, by decide, by decide, by decide,
    by decide, by decide⟩

/-- Claim C18 (block ownership invariant): in every state reachable from
`RSFS_init()` through returning calls of the public operations, two distinct
inodes (live or not) name no common data block in their used pointer slots, and
every block an inode names is marked allocated in the block bitmap. -/
theorem C18_block_ownership (c : Config) (mem : Nat → Nat → Nat) (s : FS)
    (h : Reachable c mem s) :
    (∀ (i j : Nat) (A B : inode), i ≠ j → s.inodes[i]? = some A → s.inodes[j]? = some B →
        ∀ b, b ≠ -1 → b ∈ A.block → b ∉ B.block) ∧
      ∀ ino ∈ s.inodes, ∀ b ∈ ino.block, b ≠ -1 →
        0 ≤ b ∧ s.data_bitmap[b.toNat]? = some 1 :=
  ownership_of_inv c s (reachable_store_inv c mem s h)

/-- Claim C18, at the reachable state `fs_two`, whose two files hold a block each. -/
theorem C18_block_ownership_witness :
    Reachable cfg0 (fun _ _ => 0) fs_two ∧
      (∀ (i j : Nat) (A B : inode), i ≠ j → fs_two.inodes[i]? = some A →
        fs_two.inodes[j]? = some B → ∀ b, b ≠ -1 → b ∈ A.block → b ∉ B.block) ∧
      ∀ ino ∈ fs_two.inodes, ∀ b ∈ ino.block, b ≠ -1 →
        0 ≤ b ∧ fs_two.data_bitmap[b.toNat]? = some 1 :=
  ⟨reachable_fs_two, C18_block_ownership cfg0 (fun _ _ => 0) fs_two reachable_fs_two⟩

/-- Claim C19 (the reader count of an inode is the number of its read-only
descriptors in use, and is never negative).  After `create("a")` and two
read-only opens, two read-only descriptors are in use and the count is `1` or
`0`, by what the uninitialised `currentFile` held in the first call, never `2`;
after `create("a")`, one read-only open and its close, the count is `-1`. -/
theorem C19_reader_count_off (g1 g2 : open_file_entry) :
    observe (fun s => (s.open_file_table, s.inodes.map (fun a => a.num_current_reader)))
        (run_two_readers g1 g2) =
      some (1,
        [{ used := 1, dir_entry := some 0, position := 0, access_flag := cfg0.RSFS_RDONLY },
         { used := 1, dir_entry := some 0, position := 0, access_flag := cfg0.RSFS_RDONLY }],
        [if g1.access_flag = cfg0.RSFS_RDWR then 1 else 0, 0]) ∧
    observe (fun s => s.inodes.map (fun a => a.num_current_reader))
        (and_then (and_then (RSFS_create fs_init "a")
          (fun s => RSFS_open cfg0 s "a" cfg0.RSFS_RDONLY stack0))
          (fun s => RSFS_close cfg0 s 0)) = some (0, [-1, 0]) := by
  refine ⟨?_, by decide⟩
  by_cases h : g1.access_flag = 1 <;>
    simp [observe, run_two_readers, and_then, RSFS_create, fs_init, RSFS_init,
      cfg0, search_dir, insert_dir, allocate_inode, first_free, store_inode_number, RSFS_open,
      lock_open_file_table, unlock_open_file_table, scan_current_file, h, idx, at?, upd,
      allocate_open_file_entry, first_unused, deref]

/-- Claim C20 (the open-file-table lock is free on return when it was free on
call).  In `fs_ab`, where the lock is free, `RSFS_fseek` with the offset `-1`
and `RSFS_read` at the end of the file return with the lock held, and an
in-range `RSFS_fseek` with the lock free; in `fs1_open`, with one free block, an
`RSFS_append` of `5` bytes returns `-1` with the lock held, and one of `4` bytes
returns `4` with the lock free. -/
theorem C20_lock_left_held :
    run_ab = .ok (2, fs_ab) ∧ fs_ab.open_file_table_mutex = false ∧
    observe (fun s => s.open_file_table_mutex) (RSFS_fseek cfg0 fs_ab 0 (-1)) = some (2, true) ∧
    observe (fun s => s.open_file_table_mutex) (RSFS_fseek cfg0 fs_ab 0 1) = some (1, false) ∧
    RSFS_read cfg0 fs_ab 0 [0, 0] 2 =
      .ok (0, [0, 0], { fs_ab with open_file_table_mutex := true }) ∧
    run1_open = .ok (0, fs1_open) ∧ fs1_open.open_file_table_mutex = false ∧
    observe (fun s => s.open_file_table_mutex) (RSFS_append cfg1 fs1_open 0 [1, 2, 3, 4, 5] 5) =
      some (-1, true) ∧
    observe (fun s => s.open_file_table_mutex) (RSFS_append cfg1 fs1_open 0 [1, 2, 3, 4] 4) =
      some (4, false) :=
  ⟨by decide, by decide, by decide, by decide, by decide, by decide, by decide, by decide,
    by decide⟩

end RSFS
